import Mathlib

/-!
# Matrix multiplication with three thread granularities (`matMultp.c`)

A shallow embedding of `Solution_Code/matMultp.c`, followed by the theorems
that settle the claims of its specification.

* C `int` values are `Int`s kept inside the 32-bit range by `wrapInt`.
* An `int **` matrix is a list of rows; a load or store outside the rows
  that were allocated yields `none` (undefined behaviour in C).
* The process globals (`A_rows`, ..., `C3`) are the record `Globals`; it
  carries one ghost field, `log`, that records every matrix cell a worker
  reads or writes, in program order.
* A `for (x = 0; x < n; x++)` loop is `forLoop n body` in a worker and
  `forRun n body` in the main thread.
* The main thread is a `Run`: the list of its observable events and its
  outcome (normal completion, `exit(status)`, or undefined behaviour).
* Everything the program takes from outside (files, `malloc`, the content of
  fresh memory, `pthread_create`, `pthread_join`, `gettimeofday`) comes from
  an `Env`. Sizes are those of an LP64 target.
* Threads are modelled under one schedule: a created thread runs to
  completion before `main` continues.
-/

namespace MatMultp

/-! ## Machine integers -/

/-- Membership in the range of a 32-bit signed `int`. -/
def inInt (x : Int) : Prop := -2147483648 ≤ x ∧ x < 2147483648

instance (x : Int) : Decidable (inInt x) := by
  unfold inInt
  exact inferInstance

/-- Two's-complement reduction of an integer into the `int` range. -/
def wrapInt (x : Int) : Int := (x + 2147483648) % 4294967296 - 2147483648

/-! ## Matrices -/

/-- An `int **` matrix: the list of its rows. -/
abbrev Matrix := List (List Int)

/-- Read of `mat[i][j]`; `none` when the cell was never allocated. -/
def Matrix.load (mat : Matrix) (i j : Nat) : Option Int :=
  match mat[i]? with
  | none => none
  | some row => row[j]?

/-- Assignment `mat[i][j] = v`; `none` when the cell was never allocated. -/
def Matrix.store (mat : Matrix) (i j : Nat) (v : Int) : Option Matrix :=
  match mat[i]? with
  | none => none
  | some row => if j < row.length then some (mat.set i (row.set j v)) else none

/-- Shape predicate: `mat` has exactly `rows` rows of `cols` cells each. -/
def Matrix.hasShape (mat : Matrix) (rows cols : Nat) : Prop :=
  mat.length = rows ∧ ∀ row ∈ mat, row.length = cols

instance (mat : Matrix) (rows cols : Nat) : Decidable (mat.hasShape rows cols) := by
  unfold Matrix.hasShape
  exact inferInstance

/-! ## Global state -/

/-- Names of the five global matrices. -/
inductive MatId
  | A | B | C1 | C2 | C3
  deriving DecidableEq, Repr

/-- One access to a matrix cell, as recorded in the ghost log. -/
inductive Access
  | read (m : MatId) (i j : Nat)
  | write (m : MatId) (i j : Nat)
  deriving DecidableEq, Repr

/-- The global variables of the program (source lines 8-10), plus the ghost
access log. -/
structure Globals where
  A_rows : Int
  A_cols : Int
  B_rows : Int
  B_cols : Int
  A : Matrix
  B : Matrix
  C1 : Matrix
  C2 : Matrix
  C3 : Matrix
  log : List Access
  deriving DecidableEq, Repr

/-- Selection of a global matrix by name. -/
def Globals.mat (g : Globals) : MatId → Matrix
  | .A => g.A
  | .B => g.B
  | .C1 => g.C1
  | .C2 => g.C2
  | .C3 => g.C3

/-- Replacement of a global matrix by name. -/
def Globals.setMat (g : Globals) : MatId → Matrix → Globals
  | .A, m => { g with A := m }
  | .B, m => { g with B := m }
  | .C1, m => { g with C1 := m }
  | .C2, m => { g with C2 := m }
  | .C3, m => { g with C3 := m }

/-- Logged read of cell `(i, j)` of the global matrix `m`. -/
def Globals.readCell (g : Globals) (m : MatId) (i j : Nat) : Option (Globals × Int) :=
  match (g.mat m).load i j with
  | none => none
  | some v => some ({ g with log := g.log ++ [Access.read m i j] }, v)

/-- Logged write of `v` to cell `(i, j)` of the global matrix `m`. -/
def Globals.writeCell (g : Globals) (m : MatId) (i j : Nat) (v : Int) : Option Globals :=
  match (g.mat m).store i j v with
  | none => none
  | some mat' =>
    some { g.setMat m mat' with log := g.log ++ [Access.write m i j] }

/-! ## Loops -/

/-- The loop `for (x = 0; x < n; x++) body`, threading a state that the body
may fail on: the first `n` iterations are the first `n - 1` followed by the
body at `x = n - 1`. The bound is not changed by any loop body of the
program. -/
def forLoop {σ : Type} : Nat → (Nat → σ → Option σ) → σ → Option σ
  | 0, _, s => some s
  | n + 1, body, s =>
    match forLoop n body s with
    | none => none
    | some s' => body n s'

/-! ## The three workers (source lines 81-144) -/

/-- One iteration `sum += A[i][k] * B[k][j]` of the dot-product loop. The
state is the globals together with the local `sum`. -/
def dotStep (i j k : Nat) (st : Globals × Int) : Option (Globals × Int) :=
  match st.1.readCell MatId.A i k with
  | none => none
  | some (g1, a) =>
    match g1.readCell MatId.B k j with
    | none => none
    | some (g2, b) => some (g2, wrapInt (st.2 + wrapInt (a * b)))

/-- The loop `sum = 0; for (k = 0; k < A_cols; k++) sum += A[i][k] * B[k][j]`
followed by the store `out[i][j] = sum`, shared by the three workers. -/
def computeCell (out : MatId) (i j : Nat) (g : Globals) : Option Globals :=
  match forLoop g.A_cols.toNat (dotStep i j) (g, 0) with
  | none => none
  | some (g1, sum) => g1.writeCell out i j sum

/-- Method 1 worker: the whole product into `C1`. -/
def multiplyMatrix (g : Globals) : Option Globals :=
  forLoop g.A_rows.toNat
    (fun i gi => forLoop gi.B_cols.toNat (fun j gj => computeCell MatId.C1 i j gj) gi) g

/-- Argument of a method 2 worker. -/
structure threadRowArg where
  row : Nat
  deriving DecidableEq, Repr

/-- Method 2 worker: row `arg.row` of the product into `C2`. -/
def multiplyRow (arg : threadRowArg) (g : Globals) : Option Globals :=
  forLoop g.B_cols.toNat (fun j gj => computeCell MatId.C2 arg.row j gj) g

/-- Argument of a method 3 worker. -/
structure threadElemArg where
  row : Nat
  col : Nat
  deriving DecidableEq, Repr

/-- Method 3 worker: cell `(arg.row, arg.col)` of the product into `C3`. -/
def multiplyElement (arg : threadElemArg) (g : Globals) : Option Globals :=
  computeCell MatId.C3 arg.row arg.col g

/-- What `pthread_create` is given: the start routine and its argument. -/
inductive ThreadStart
  | multiplyMatrix
  | multiplyRow (arg : threadRowArg)
  | multiplyElement (arg : threadElemArg)
  deriving DecidableEq, Repr

/-- The body of a thread. -/
def ThreadStart.run : ThreadStart → Globals → Option Globals
  | ThreadStart.multiplyMatrix, g => MatMultp.multiplyMatrix g
  | ThreadStart.multiplyRow arg, g => MatMultp.multiplyRow arg g
  | ThreadStart.multiplyElement arg, g => MatMultp.multiplyElement arg g

/-! ## Program runs: observable events and outcomes -/

/-- The two `struct timeval` locals of `main` (line 191). -/
inductive TimeVar
  | start
  | stop
  deriving DecidableEq, Repr

/-- Observable actions of the process. `gettimeofday target s us` is a call
`gettimeofday(&target, NULL)` that stored `s` seconds and `us` microseconds.
`report` stands for the line
`Method <k> (...): Threads = <n>, Time taken: <s> seconds and <us> microseconds`. -/
inductive Event
  | stdout (text : String)
  | fopenRead (filename : String)
  | fopenWrite (filename : String)
  | fileWritten (filename : String) (content : List Char)
  | threadCreate (method index : Nat) (start : ThreadStart)
  | threadJoin (method index : Nat)
  | gettimeofday (target : TimeVar) (seconds microseconds : Int)
  | report (method : Nat) (threads seconds microseconds : Int)
  deriving DecidableEq, Repr

/-- How a computation ends: normally with a value, by `exit(status)`, or by
undefined behaviour (an access outside allocated memory). -/
inductive Outcome (α : Type)
  | ok (a : α)
  | exit (status : Int)
  | undefined
  deriving DecidableEq, Repr

/-- A computation of the main thread: the events it produced, in order, and
how it ended. -/
structure Run (α : Type) where
  events : List Event
  outcome : Outcome α
  deriving DecidableEq, Repr

/-- Normal completion without events. -/
def Run.pure {α : Type} (a : α) : Run α := ⟨[], Outcome.ok a⟩

/-- Sequencing: the continuation runs only after normal completion. -/
def Run.bind {α β : Type} (r : Run α) (f : α → Run β) : Run β :=
  match r.outcome with
  | Outcome.ok a => ⟨r.events ++ (f a).events, (f a).outcome⟩
  | Outcome.exit status => ⟨r.events, Outcome.exit status⟩
  | Outcome.undefined => ⟨r.events, Outcome.undefined⟩

instance : Monad Run where
  pure := Run.pure
  bind := Run.bind

/-- Emission of one event. -/
def emit (e : Event) : Run Unit := ⟨[e], Outcome.ok ()⟩

/-- The call `exit(status)`. -/
def exitWith {α : Type} (status : Int) : Run α := ⟨[], Outcome.exit status⟩

/-- Lifting of a memory-safe-or-undefined computation. -/
def ofOption {α : Type} : Option α → Run α
  | some a => Run.pure a
  | none => ⟨[], Outcome.undefined⟩

/-- The loop `for (x = 0; x < n; x++) body` in the main thread. -/
def forRun {σ : Type} : Nat → (Nat → σ → Run σ) → σ → Run σ
  | 0, _, s => Run.pure s
  | n + 1, body, s => Run.bind (forRun n body s) (body n)

/-- The environment of one execution: the file system, the allocator, the
thread library and the clock.
* `files name` is the content `fopen(name, "r")` gives access to, if any.
* `writable name` tells whether `fopen(name, "w")` succeeds.
* `malloc size` tells whether a request of `size` bytes returns non-NULL.
* `junk slot i j` is the indeterminate initial content of cell `(i, j)` of
  the `slot`-th matrix allocated (`malloc` does not initialise memory).
* `create method index` / `join method index` tell whether `pthread_create` /
  `pthread_join` succeed for that thread.
* `clock k` is the `(tv_sec, tv_usec)` pair of the `k`-th `gettimeofday`. -/
structure Env where
  files : String → Option (List Char)
  writable : String → Bool
  malloc : Nat → Bool
  junk : Nat → Nat → Nat → Int
  create : Nat → Nat → Bool
  join : Nat → Nat → Bool
  clock : Nat → Int × Int

/-- The call `gettimeofday(&target, NULL)`, the `k`-th of the run: the clock
is read at the point of the call, and the value stored in `target` is the
result. -/
def gettimeofday (env : Env) (k : Nat) (target : TimeVar) : Run (Int × Int) :=
  ⟨[Event.gettimeofday target (env.clock k).1 (env.clock k).2], Outcome.ok (env.clock k)⟩

/-! ## Allocation (source lines 13-28) -/

/-- The `size_t` value of `n * size` for an `int n`, on an LP64 target. -/
def mallocSize (n : Int) (size : Nat) : Nat :=
  ((n % 18446744073709551616).toNat * size) % 18446744073709551616

/-- The row-allocation loop of `allocateMatrix`: rows `0 .. n-1`, each of
`cols` uninitialised cells. -/
def allocateRows (env : Env) (slot : Nat) (cols : Int) : Nat → Run Matrix
  | 0 => Run.pure []
  | n + 1 => do
    let mat ← allocateRows env slot cols n
    if env.malloc (mallocSize cols 4) then
      Run.pure (mat ++ [(List.range cols.toNat).map (fun j => wrapInt (env.junk slot n j))])
    else do
      emit (Event.stdout "Memory allocation error\n")
      exitWith 1

/-- Model of `allocateMatrix(rows, cols)`; `slot` numbers the allocation. -/
def allocateMatrix (env : Env) (slot : Nat) (rows cols : Int) : Run Matrix :=
  if env.malloc (mallocSize rows 8) then
    allocateRows env slot cols rows.toNat
  else do
    emit (Event.stdout "Memory allocation error\n")
    exitWith 1

/-! ## Text conversions -/

/-- The character `isspace` accepts in the C locale. -/
def isSpace (c : Char) : Bool :=
  c.toNat = 32 || (9 ≤ c.toNat && c.toNat ≤ 13)

/-- The character `isdigit` accepts. -/
def isDigit (c : Char) : Bool :=
  48 ≤ c.toNat && c.toNat ≤ 57

/-- Skipping of leading white space. -/
def skipSpaces : List Char → List Char
  | [] => []
  | c :: cs => if isSpace c then skipSpaces cs else c :: cs

/-- The longest run of decimal digits, accumulated into `acc`. -/
def scanDigits : Nat → List Char → Nat × List Char
  | acc, [] => (acc, [])
  | acc, c :: cs =>
    if isDigit c then scanDigits (acc * 10 + (c.toNat - 48)) cs else (acc, c :: cs)

/-- After an optional sign: the digits, or a matching failure. -/
def scanNumber (negative : Bool) (s : List Char) : Option Int × List Char :=
  match s with
  | [] => (none, [])
  | c :: cs =>
    if isDigit c then
      let r := scanDigits 0 (c :: cs)
      (some (wrapInt (if negative then -(r.1 : Int) else (r.1 : Int))), r.2)
    else (none, c :: cs)

/-- The conversion `%d` of the `scanf` family on the remaining input: white
space is skipped, then an optional sign and the longest run of digits are
consumed. The result is the converted value, or `none` on a matching failure
or end of input, and the input left unread. A value outside the `int` range
is stored reduced into it. -/
def scanInt (s : List Char) : Option Int × List Char :=
  match skipSpaces s with
  | [] => (none, [])
  | c :: cs =>
    if c.toNat = 45 then scanNumber true cs
    else if c.toNat = 43 then scanNumber false cs
    else scanNumber false (c :: cs)

/-- Matching of the literal characters of a `scanf` format. -/
def matchLiteral : List Char → List Char → Option (List Char)
  | [], s => some s
  | _ :: _, [] => none
  | l :: ls, c :: cs => if l = c then matchLiteral ls cs else none

/-- The call `sscanf(line, "row=%d col=%d", rows, cols)`: the new values of
`*rows` and `*cols`. A conversion that is not reached leaves its target as
it was; the return value is not looked at by the program. -/
def sscanfHeader (line : List Char) (rows cols : Int) : Int × Int :=
  match matchLiteral "row=".toList line with
  | none => (rows, cols)
  | some s1 =>
    match scanInt s1 with
    | (none, _) => (rows, cols)
    | (some r, s2) =>
      match matchLiteral "col=".toList (skipSpaces s2) with
      | none => (r, cols)
      | some s3 =>
        match scanInt s3 with
        | (none, _) => (r, cols)
        | (some c, _) => (r, c)

/-- Reading of at most `k` characters, up to and including a newline. -/
def fgetsChars : Nat → List Char → List Char × List Char
  | 0, s => ([], s)
  | _ + 1, [] => ([], [])
  | k + 1, c :: cs =>
    if c.toNat = 10 then ([c], cs)
    else ((fgetsChars k cs).1.cons c, (fgetsChars k cs).2)

/-- The call `fgets(line, size, fp)` on a stream that is not at its end: the
line read and the rest of the stream. -/
def fgets (size : Nat) (s : List Char) : List Char × List Char :=
  fgetsChars (size - 1) s

/-- Decimal digit character. -/
def digitChar (d : Nat) : Char := Char.ofNat (48 + d)

/-- Decimal digits of `n`, most significant first, in front of `acc`. -/
def fmtNatAux : Nat → Nat → List Char → List Char
  | 0, _, acc => acc
  | fuel + 1, n, acc =>
    if n < 10 then digitChar n :: acc
    else fmtNatAux fuel (n / 10) (digitChar (n % 10) :: acc)

/-- Decimal rendering of a natural number (`n + 1` steps always suffice). -/
def fmtNat (n : Nat) : List Char := fmtNatAux (n + 1) n []

/-- The conversion `%d` of `printf`. -/
def fmtInt (v : Int) : List Char :=
  if v < 0 then Char.ofNat 45 :: fmtNat v.natAbs else fmtNat v.natAbs

/-! ## Reading a matrix (source lines 40-58) -/

/-- The call `fscanf(fp, "%d", &mat[i][j])`: the state is the unread part of
the stream and the matrix. When the conversion fails the cell is not
assigned. -/
def readCell (i j : Nat) (st : List Char × Matrix) : Option (List Char × Matrix) :=
  match scanInt st.1 with
  | (none, rest) => some (rest, st.2)
  | (some v, rest) =>
    match st.2.store i j v with
    | none => none
    | some mat' => some (rest, mat')

/-- The nested read loops of `readMatrix`. -/
def readCells (rows cols : Int) (st : List Char × Matrix) : Option (List Char × Matrix) :=
  forLoop rows.toNat (fun i si => forLoop cols.toNat (fun j sj => readCell i j sj) si) st

/-- Model of `readMatrix(filename, rows, cols)`, where `rows` and `cols`
are the values `*rows` and `*cols` hold on entry. The result is the matrix
with the final `*rows` and `*cols`. `fgets` on an empty file leaves `line`
uninitialised, which makes the `sscanf` undefined. -/
def readMatrix (env : Env) (slot : Nat) (filename : String) (rows cols : Int) :
    Run (Matrix × Int × Int) := do
  emit (Event.fopenRead filename)
  match env.files filename with
  | none => do
    emit (Event.stdout ("Error opening file " ++ filename ++ "\n"))
    exitWith 1
  | some [] => ofOption none
  | some (c :: cs) => do
    let line := fgets 256 (c :: cs)
    let dims := sscanfHeader line.1 rows cols
    let mat ← allocateMatrix env slot dims.1 dims.2
    let st ← ofOption (readCells dims.1 dims.2 (line.2, mat))
    Run.pure (st.2, dims.1, dims.2)

/-! ## Writing a matrix (source lines 61-76) -/

/-- The output of `fprintf(fp, "row=%d col=%d\n", rows, cols)`. -/
def headerText (rows cols : Int) : List Char :=
  "row=".toList ++ fmtInt rows ++ " col=".toList ++ fmtInt cols ++ "\n".toList

/-- The call `fprintf(fp, "%d ", mat[i][j])` appending to the text so far. -/
def printCell (mat : Matrix) (i j : Nat) (text : List Char) : Option (List Char) :=
  match mat.load i j with
  | none => none
  | some v => some (text ++ fmtInt v ++ " ".toList)

/-- One iteration of the outer loop of `writeMatrix`: the cells of row `i`,
then a newline. -/
def printRow (mat : Matrix) (cols i : Nat) (text : List Char) : Option (List Char) :=
  match forLoop cols (printCell mat i) text with
  | none => none
  | some t => some (t ++ "\n".toList)

/-- The text `writeMatrix` sends to the file; `none` when a cell outside the
matrix would be read. -/
def matrixText (mat : Matrix) (rows cols : Int) : Option (List Char) :=
  forLoop rows.toNat (printRow mat cols.toNat) (headerText rows cols)

/-- Model of `writeMatrix(filename, mat, rows, cols)`. -/
def writeMatrix (env : Env) (filename : String) (mat : Matrix) (rows cols : Int) :
    Run Unit := do
  emit (Event.fopenWrite filename)
  if env.writable filename then do
    let text ← ofOption (matrixText mat rows cols)
    emit (Event.fileWritten filename text)
  else do
    emit (Event.stdout ("Error opening file " ++ filename ++ " for writing\n"))
    exitWith 1

/-! ## The main function (source lines 149-299) -/

/-- The three file-name buffers `main` fills from its arguments. -/
structure FileNames where
  inputFile1 : String
  inputFile2 : String
  outputPrefix : String
  deriving DecidableEq, Repr

/-- Argument handling (lines 154-169). `prog` is `argv[0]`, `args` are
`argv[1 .. argc-1]`. A `strcpy`/`strcat` that does not fit the 100-byte
buffer, terminator included, is undefined. -/
def resolveNames (prog : String) (args : List String) : Run FileNames :=
  match args with
  | [] => Run.pure ⟨"a.txt", "b.txt", "c"⟩
  | [x, y, p] =>
    if x.utf8ByteSize + 4 < 100 ∧ y.utf8ByteSize + 4 < 100 ∧ p.utf8ByteSize < 100 then
      Run.pure ⟨x ++ ".txt", y ++ ".txt", p⟩
    else ofOption none
  | _ => do
    emit (Event.stdout ("Usage: " ++ prog ++ " [Mat1 Mat2 MatOut]\n"))
    exitWith 1

/-- Method 1 (lines 197-216): one thread runs `multiplyMatrix`. Threads
are modelled under the schedule in which a created thread runs to completion
before `main` continues. `resultRows` and `resultCols` are the locals of
lines 182-183. -/
def method1 (env : Env) (outputPrefix : String) (resultRows resultCols : Int) (g : Globals) :
    Run Globals := do
  let start ← gettimeofday env 0 TimeVar.start
  if env.create 1 0 then do
    emit (Event.threadCreate 1 0 ThreadStart.multiplyMatrix)
    let g1 ← ofOption (ThreadStart.multiplyMatrix.run g)
    if env.join 1 0 then do
      emit (Event.threadJoin 1 0)
      let stop ← gettimeofday env 1 TimeVar.stop
      emit (Event.report 1 1 (stop.1 - start.1) (stop.2 - start.2))
      writeMatrix env (outputPrefix ++ "_per_matrix.txt") g1.C1 resultRows resultCols
      Run.pure g1
    else do
      emit (Event.stdout "Error joining thread for method 1\n")
      exitWith 1
  else do
    emit (Event.stdout "Error creating thread for method 1\n")
    exitWith 1

/-- The creation loop of method 2 (lines 223-231), iteration `i`. The
argument record is `malloc`ed unchecked, so a NULL result is dereferenced. -/
def createRow (env : Env) (i : Nat) (g : Globals) : Run Globals :=
  if env.malloc 4 then
    if env.create 2 i then do
      emit (Event.threadCreate 2 i (ThreadStart.multiplyRow ⟨i⟩))
      ofOption ((ThreadStart.multiplyRow ⟨i⟩).run g)
    else do
      emit (Event.stdout
        ("Error creating thread for row " ++ String.mk (fmtInt i) ++ " in method 2\n"))
      exitWith 1
  else ofOption none

/-- The join loop of method 2 (lines 233-238), iteration `i`. -/
def joinRow (env : Env) (i : Nat) (_ : Unit) : Run Unit :=
  if env.join 2 i then emit (Event.threadJoin 2 i)
  else do
    emit (Event.stdout
      ("Error joining thread for row " ++ String.mk (fmtInt i) ++ " in method 2\n"))
    exitWith 1

/-- Method 2 (lines 221-248): one thread per row of the result. -/
def method2 (env : Env) (outputPrefix : String) (resultRows resultCols : Int) (g : Globals) :
    Run Globals := do
  let start ← gettimeofday env 2 TimeVar.start
  let g1 ← forRun resultRows.toNat (createRow env) g
  forRun resultRows.toNat (joinRow env) ()
  let stop ← gettimeofday env 3 TimeVar.stop
  emit (Event.report 2 resultRows (stop.1 - start.1) (stop.2 - start.2))
  writeMatrix env (outputPrefix ++ "_per_row.txt") g1.C2 resultRows resultCols
  Run.pure g1

/-- The creation loop of method 3 (lines 258-269), inner iteration `(i, j)`.
The state is the globals and the counter `t`; `capacity` is the number of
handles `threads3` has room for. -/
def createElement (env : Env) (capacity i j : Nat) (st : Globals × Nat) :
    Run (Globals × Nat) :=
  if env.malloc 8 ∧ st.2 < capacity then
    if env.create 3 st.2 then do
      emit (Event.threadCreate 3 st.2 (ThreadStart.multiplyElement ⟨i, j⟩))
      let g1 ← ofOption ((ThreadStart.multiplyElement ⟨i, j⟩).run st.1)
      Run.pure (g1, st.2 + 1)
    else do
      emit (Event.stdout
        ("Error creating thread for element (" ++ String.mk (fmtInt i) ++ "," ++
          String.mk (fmtInt j) ++ ") in method 3\n"))
      exitWith 1
  else ofOption none

/-- The join loop of method 3 (lines 271-276), iteration `t`; `created` is
the number of handles the creation loop stored. Joining a handle that was
never stored is undefined. -/
def joinElement (env : Env) (created t : Nat) (_ : Unit) : Run Unit :=
  if t < created then
    if env.join 3 t then emit (Event.threadJoin 3 t)
    else do
      emit (Event.stdout ("Error joining thread " ++ String.mk (fmtInt t) ++ " in method 3\n"))
      exitWith 1
  else ofOption none

/-- Method 3 (lines 253-286): one thread per cell of the result. The handle
array is `malloc`ed unchecked: when the request fails it has no room. The
run yields the globals and the final value of the creation counter `t`. -/
def method3 (env : Env) (outputPrefix : String) (resultRows resultCols : Int) (g : Globals) :
    Run (Globals × Nat) := do
  let totalThreads := wrapInt (resultRows * resultCols)
  let capacity := if env.malloc (mallocSize totalThreads 8) then totalThreads.toNat else 0
  let start ← gettimeofday env 4 TimeVar.start
  let st ← forRun resultRows.toNat
    (fun i si => forRun resultCols.toNat (fun j sj => createElement env capacity i j sj) si)
    (g, 0)
  forRun totalThreads.toNat (joinElement env st.2) ()
  let stop ← gettimeofday env 5 TimeVar.stop
  emit (Event.report 3 totalThreads (stop.1 - start.1) (stop.2 - start.2))
  writeMatrix env (outputPrefix ++ "_per_element.txt") st.1.C3 resultRows resultCols
  Run.pure st

/-- The part of `main` after the dimension check (lines 181-298): allocation
of the three result matrices, then the three methods. `a` and `b` are the
loaded matrices with their dimensions. -/
def runMethods (env : Env) (outputPrefix : String) (a b : Matrix × Int × Int) : Run Int := do
  let resultRows := a.2.1
  let resultCols := b.2.2
  let c1 ← allocateMatrix env 2 resultRows resultCols
  let c2 ← allocateMatrix env 3 resultRows resultCols
  let c3 ← allocateMatrix env 4 resultRows resultCols
  let g : Globals :=
    { A_rows := a.2.1, A_cols := a.2.2, B_rows := b.2.1, B_cols := b.2.2,
      A := a.1, B := b.1, C1 := c1, C2 := c2, C3 := c3, log := [] }
  let g1 ← method1 env outputPrefix resultRows resultCols g
  let g2 ← method2 env outputPrefix resultRows resultCols g1
  let _ ← method3 env outputPrefix resultRows resultCols g2
  Run.pure 0

/-- The part of `main` after argument handling (lines 171-298). -/
def mainBody (env : Env) (names : FileNames) : Run Int := do
  let a ← readMatrix env 0 names.inputFile1 0 0
  let b ← readMatrix env 1 names.inputFile2 0 0
  if a.2.2 ≠ b.2.1 then do
    emit (Event.stdout "Matrix multiplication not possible. A_cols != B_rows\n")
    exitWith 1
  else runMethods env names.outputPrefix a b

/-- Model of `main(argc, argv)` with `argc = args.length + 1`. Normal
completion with value `0` is the `return 0` of line 298. -/
def main (env : Env) (prog : String) (args : List String) : Run Int := do
  let names ← resolveNames prog args
  mainBody env names

/-! ## Specification vocabulary -/

/-- Value of cell `(i, j)`, `0` outside the matrix. -/
def entry (mat : Matrix) (i j : Nat) : Int := (mat.load i j).getD 0

/-- Exact partial dot product: the sum over `k' < k` of `a[i][k'] * b[k'][j]`
in unbounded integers. -/
def refDot (a b : Matrix) (i j : Nat) : Nat → Int
  | 0 => 0
  | k + 1 => refDot a b i j k + entry a i k * entry b k j

/-- Partial dot product as the machine computes it, every product and every
sum reduced into the `int` range. -/
def wrapDot (a b : Matrix) (i j : Nat) : Nat → Int
  | 0 => 0
  | k + 1 => wrapInt (wrapDot a b i j k + wrapInt (entry a i k * entry b k j))

/-- The reference triple-loop product of an `m x n` by an `n x p` matrix. -/
def refProduct (a b : Matrix) (m n p : Nat) : Matrix :=
  (List.range m).map (fun i => (List.range p).map (fun j => refDot a b i j n))

/-- Every product and every partial sum of the product of `a` and `b` fits
the `int` range. -/
def NoOverflow (a b : Matrix) (m n p : Nat) : Prop :=
  ∀ i < m, ∀ j < p, ∀ k < n,
    inInt (entry a i k * entry b k j) ∧ inInt (refDot a b i j (k + 1))

instance (a b : Matrix) (m n p : Nat) : Decidable (NoOverflow a b m n p) := by
  unfold NoOverflow
  exact inferInstance

/-- The globals as `main` sets them up for an `m x n` matrix `A` and an
`n x p` matrix `B`: dimensions recorded, inputs and the three result
matrices allocated with their shapes. -/
def WellFormed (g : Globals) (m n p : Nat) : Prop :=
  g.A_rows = (m : Int) ∧ g.A_cols = (n : Int) ∧ g.B_rows = (n : Int) ∧ g.B_cols = (p : Int) ∧
    g.A.hasShape m n ∧ g.B.hasShape n p ∧
    g.C1.hasShape m p ∧ g.C2.hasShape m p ∧ g.C3.hasShape m p

instance (g : Globals) (m n p : Nat) : Decidable (WellFormed g m n p) := by
  unfold WellFormed
  exact inferInstance

/-- The three result matrices. -/
def MatId.isOut (out : MatId) : Prop := out = MatId.C1 ∨ out = MatId.C2 ∨ out = MatId.C3

/-- Post-state of a worker that started in `g`, writes to `out` and computes
the cells selected by `S`: dimensions and all other matrices are as before,
`out` keeps its shape, each selected cell holds the machine dot product and
each other cell its old value, and the log grew by `tr`. -/
structure Fills (out : MatId) (S : Nat → Nat → Bool) (tr : List Access)
    (g g' : Globals) : Prop where
  A_rows : g'.A_rows = g.A_rows
  A_cols : g'.A_cols = g.A_cols
  B_rows : g'.B_rows = g.B_rows
  B_cols : g'.B_cols = g.B_cols
  others : ∀ id, id ≠ out → g'.mat id = g.mat id
  shape : ∀ r c, (g.mat out).hasShape r c → (g'.mat out).hasShape r c
  cells : ∀ i j, (g'.mat out).load i j =
    if S i j then some (wrapDot g.A g.B i j g.A_cols.toNat) else (g.mat out).load i j
  log : g'.log = g.log ++ tr

/-- The matrix `allocateMatrix` returns for the `slot`-th allocation: the
requested shape, each cell holding whatever the memory held. -/
def freshMatrix (env : Env) (slot rows cols : Nat) : Matrix :=
  (List.range rows).map (fun i => (List.range cols).map (fun j => wrapInt (env.junk slot i j)))

/-- The text of one row as `writeMatrix` prints it. -/
def rowText (row : List Int) : List Char :=
  row.flatMap (fun v => fmtInt v ++ " ".toList) ++ "\n".toList

/-- The text of all rows as `writeMatrix` prints them. -/
def bodyText (mat : Matrix) : List Char := mat.flatMap rowText

/-- The stream `s` holds exactly the integers `toks`, in order, as decimal
tokens: each token is preceded by any amount of white space and followed by
white space or the end of the stream. -/
def Holds : List Int → List Char → Prop
  | [], s => ∀ c ∈ s, isSpace c = true
  | v :: vs, s =>
    ∃ pre rest, s = pre ++ (fmtInt v ++ rest) ∧ (∀ c ∈ pre, isSpace c = true) ∧
      (∀ c, rest.head? = some c → isSpace c = true) ∧ Holds vs rest

/-- A body laid out from tokens: each token comes with the white space that
precedes it, and `trail` follows the last token. -/
def render : List (List Char × Int) → List Char → List Char
  | [], trail => trail
  | (pre, v) :: rest, trail => pre ++ (fmtInt v ++ render rest trail)

/-- Validity of a layout: separators and trailer are white space, and every
separator between two tokens is non-empty. -/
def validLayout (layout : List (List Char × Int)) (trail : List Char) : Prop :=
  (∀ x ∈ layout, ∀ c ∈ x.1, isSpace c = true) ∧ (∀ x ∈ layout.tail, x.1 ≠ []) ∧
    (∀ c ∈ trail, isSpace c = true)

instance (layout : List (List Char × Int)) (trail : List Char) :
    Decidable (validLayout layout trail) := by
  unfold validLayout
  exact inferInstance

/-- The reads of the dot-product loop for cell `(i, j)` after `k` iterations. -/
def dotReads (i j : Nat) : Nat → List Access
  | 0 => []
  | k + 1 => dotReads i j k ++ [Access.read MatId.A i k, Access.read MatId.B k j]

/-- The accesses of computing cell `(i, j)` of `out` with inner dimension `n`. -/
def cellTrace (out : MatId) (n i j : Nat) : List Access :=
  dotReads i j n ++ [Access.write out i j]

/-- The accesses of computing the first `j` cells of row `i` of `out`. -/
def rowTrace (out : MatId) (n i : Nat) : Nat → List Access
  | 0 => []
  | j + 1 => rowTrace out n i j ++ cellTrace out n i j

/-- The accesses of computing the first `i` rows, of `p` cells, of `out`. -/
def matTrace (out : MatId) (n p : Nat) : Nat → List Access
  | 0 => []
  | i + 1 => matTrace out n p i ++ rowTrace out n i p

/-- The cells written among a list of accesses, with the matrix written. -/
def writesOf : List Access → List (MatId × Nat × Nat)
  | [] => []
  | Access.write m i j :: rest => (m, i, j) :: writesOf rest
  | Access.read _ _ _ :: rest => writesOf rest

/-- The write set of a thread started in state `g`: the cells its body
stores to, read off the access log. -/
def ThreadStart.writeSet (start : ThreadStart) (g : Globals) : List (MatId × Nat × Nat) :=
  match start.run { g with log := [] } with
  | none => []
  | some g' => writesOf g'.log

/-- The start routine of a thread-creation event. -/
def Event.startOf : Event → Option ThreadStart
  | Event.threadCreate _ _ start => some start
  | _ => none

/-- The threads a run created, in creation order. -/
def startsOf (events : List Event) : List ThreadStart :=
  events.filterMap Event.startOf

/-- The handle index of a thread-creation event of one method. -/
def Event.createdIndex (method : Nat) : Event → Option Nat
  | Event.threadCreate k index _ => if k = method then some index else none
  | _ => none

/-- The handle indices of the threads of one method a run created. -/
def createdOf (method : Nat) (events : List Event) : List Nat :=
  events.filterMap (Event.createdIndex method)

/-- The thread count of a report line of one method. -/
def Event.reportedThreads (method : Nat) : Event → Option Int
  | Event.report k threads _ _ => if k = method then some threads else none
  | _ => none

/-- The thread counts a run reported for one method. -/
def reportedOf (method : Nat) (events : List Event) : List Int :=
  events.filterMap (Event.reportedThreads method)

/-- The threads `units`, with write sets taken in state `g`, cover the
`rows x cols` cells of `out` exactly once: every write goes to a cell of
`out` inside the matrix, every such cell is written by exactly one thread,
and the write sets of two distinct threads are disjoint. -/
def ExactCover (units : List ThreadStart) (g : Globals) (out : MatId) (rows cols : Nat) :
    Prop :=
  (∀ u ∈ units, ∀ x ∈ u.writeSet g, ∃ i j, i < rows ∧ j < cols ∧ x = (out, i, j)) ∧
  (∀ i j, i < rows → j < cols →
    units.countP (fun u => decide ((out, i, j) ∈ u.writeSet g)) = 1) ∧
  units.Pairwise (fun u v => ∀ x ∈ u.writeSet g, x ∉ v.writeSet g)

/-- The events of loading the inputs and of reporting errors. -/
def Event.isReadOrPrint : Event → Bool
  | Event.fopenRead _ => true
  | Event.stdout _ => true
  | _ => false

/-- The name of the file an event opens for reading. -/
def Event.readName : Event → Option String
  | Event.fopenRead filename => some filename
  | _ => none

/-- The files a run opened for reading, in order. -/
def readOf (events : List Event) : List String := events.filterMap Event.readName

/-- The name of the file an event reports as written. -/
def Event.writtenName : Event → Option String
  | Event.fileWritten filename _ => some filename
  | _ => none

/-- The files a run wrote, in order. -/
def writtenOf (events : List Event) : List String := events.filterMap Event.writtenName

/-- No resource request fails: allocations, thread creation and joining, and
opening files for writing all succeed. -/
def Env.permissive (env : Env) : Prop :=
  (∀ size, env.malloc size = true) ∧ (∀ k i, env.create k i = true) ∧
    (∀ k i, env.join k i = true) ∧ (∀ name, env.writable name = true)

/-- The handle index of a join event of one method. -/
def Event.joinedIndex (method : Nat) : Event → Option Nat
  | Event.threadJoin k index => if k = method then some index else none
  | _ => none

/-- The handle indices of the threads of one method a run joined, in order. -/
def joinedOf (method : Nat) (events : List Event) : List Nat :=
  events.filterMap (Event.joinedIndex method)

/-- The handle index and start routine of a thread-creation event of one
method. -/
def Event.createdHandle (method : Nat) : Event → Option (Nat × ThreadStart)
  | Event.threadCreate k index start => if k = method then some (index, start) else none
  | _ => none

/-- The handles of one method a run stored, each with the thread it names. -/
def handlesOf (method : Nat) (events : List Event) : List (Nat × ThreadStart) :=
  events.filterMap (Event.createdHandle method)

/-- The seconds and microseconds of a report line of one method. -/
def Event.reportedTime (method : Nat) : Event → Option (Int × Int)
  | Event.report k _ seconds microseconds =>
    if k = method then some (seconds, microseconds) else none
  | _ => none

/-- The `(seconds, microseconds)` pairs a run reported for one method. -/
def timesOf (method : Nat) (events : List Event) : List (Int × Int) :=
  events.filterMap (Event.reportedTime method)

/-- The value a stop timestamp stored. -/
def Event.stopTime : Event → Option (Int × Int)
  | Event.gettimeofday TimeVar.stop seconds microseconds => some (seconds, microseconds)
  | _ => none

/-- The stop timestamps a run took, in order. -/
def stopsOf (events : List Event) : List (Int × Int) := events.filterMap Event.stopTime

/-- The actions of a method that have to wait for its threads: taking the
stop timestamp, printing the report line, and opening and writing the result
file (`writeMatrix` reads the result matrix). -/
def Event.waitsForThreads : Event → Bool
  | Event.gettimeofday TimeVar.stop _ _ => true
  | Event.report _ _ _ _ => true
  | Event.fopenWrite _ => true
  | Event.fileWritten _ _ => true
  | _ => false

/-- Thread creation and join events. -/
def Event.isThread : Event → Bool
  | Event.threadCreate _ _ _ => true
  | Event.threadJoin _ _ => true
  | _ => false

/-- The run did not complete normally: it ended by `exit` or by undefined
behaviour. -/
def Run.failed {α : Type} (r : Run α) : Prop := ∀ a, r.outcome ≠ Outcome.ok a

/-- Join-all barrier on the events of one method: whenever the run takes the
stop timestamp, prints the report line or opens or writes the result file,
the threads the run creates are exactly the handles `0 .. count-1`, and the
joins that came before that event are exactly the handles `0 .. count-1`. -/
def JoinAll (method count : Nat) (events : List Event) : Prop :=
  ∀ before e after, events = before ++ e :: after → e.waitsForThreads = true →
    createdOf method events = List.range count ∧
    joinedOf method before = List.range count

/-- Execution of threads one after another, in list order. -/
def runUnits : List ThreadStart → Globals → Option Globals
  | [], g => some g
  | u :: rest, g =>
    match u.run g with
    | none => none
    | some g' => runUnits rest g'

/-- The dimensions of a global matrix in a state set up for an `m x n` by
`n x p` product. -/
def MatId.dims (m n p : Nat) : MatId → Nat × Nat
  | MatId.A => (m, n)
  | MatId.B => (n, p)
  | _ => (m, p)

/-- The matrix an access goes to. -/
def Access.matrix : Access → MatId
  | Access.read id _ _ => id
  | Access.write id _ _ => id

/-- The row index of an access. -/
def Access.rowIndex : Access → Nat
  | Access.read _ i _ => i
  | Access.write _ i _ => i

/-- The column index of an access. -/
def Access.colIndex : Access → Nat
  | Access.read _ _ j => j
  | Access.write _ _ j => j

/-- The access stays inside the matrix it goes to. -/
def Access.inBounds (m n p : Nat) (a : Access) : Prop :=
  a.rowIndex < (a.matrix.dims m n p).1 ∧ a.colIndex < (a.matrix.dims m n p).2

instance (m n p : Nat) (a : Access) : Decidable (a.inBounds m n p) := by
  unfold Access.inBounds
  exact inferInstance

/-- The access reads a cell of a result matrix. -/
def Access.readsOutput : Access → Bool
  | Access.read MatId.C1 _ _ => true
  | Access.read MatId.C2 _ _ => true
  | Access.read MatId.C3 _ _ => true
  | _ => false

/-- The product as the machine computes it: every cell is `wrapDot`. -/
def machineProduct (a b : Matrix) (m n p : Nat) : Matrix :=
  (List.range m).map (fun i => (List.range p).map (fun j => wrapDot a b i j n))

/-- The work of the three methods in the order `main` starts them, every
thread run to completion before the next: `multiplyMatrix`, then
`multiplyRow` for the rows `0 .. m-1`, then `multiplyElement` for the cells in
row-major order. -/
def runWorkers (m p : Nat) (g : Globals) : Option Globals :=
  match multiplyMatrix g with
  | none => none
  | some g1 =>
    match forLoop m (fun i s => multiplyRow ⟨i⟩ s) g1 with
    | none => none
    | some g2 => forLoop m (fun i s => forLoop p (fun j s' => multiplyElement ⟨i, j⟩ s') s) g2

/-- The events of method 1 in a run without resource failures. -/
def method1Events (env : Env) (outputPrefix : String) (text : List Char) : List Event :=
  [Event.gettimeofday TimeVar.start (env.clock 0).1 (env.clock 0).2,
    Event.threadCreate 1 0 ThreadStart.multiplyMatrix, Event.threadJoin 1 0,
    Event.gettimeofday TimeVar.stop (env.clock 1).1 (env.clock 1).2,
    Event.report 1 1 ((env.clock 1).1 - (env.clock 0).1) ((env.clock 1).2 - (env.clock 0).2),
    Event.fopenWrite (outputPrefix ++ "_per_matrix.txt"),
    Event.fileWritten (outputPrefix ++ "_per_matrix.txt") text]

/-- The events of method 2 in a run without resource failures. -/
def method2Events (env : Env) (outputPrefix : String) (m : Nat) (text : List Char) :
    List Event :=
  Event.gettimeofday TimeVar.start (env.clock 2).1 (env.clock 2).2 ::
    ((List.range m).flatMap (fun i => [Event.threadCreate 2 i (ThreadStart.multiplyRow ⟨i⟩)]) ++
    ((List.range m).flatMap (fun i => [Event.threadJoin 2 i]) ++
      [Event.gettimeofday TimeVar.stop (env.clock 3).1 (env.clock 3).2,
        Event.report 2 m ((env.clock 3).1 - (env.clock 2).1) ((env.clock 3).2 - (env.clock 2).2),
        Event.fopenWrite (outputPrefix ++ "_per_row.txt"),
        Event.fileWritten (outputPrefix ++ "_per_row.txt") text]))

/-- The events of method 3 in a run without resource failures. -/
def method3Events (env : Env) (outputPrefix : String) (m p : Nat) (text : List Char) :
    List Event :=
  Event.gettimeofday TimeVar.start (env.clock 4).1 (env.clock 4).2 ::
    ((List.range m).flatMap (fun i => (List.range p).flatMap (fun j =>
      [Event.threadCreate 3 (i * p + j) (ThreadStart.multiplyElement ⟨i, j⟩)])) ++
    ((List.range (m * p)).flatMap (fun t => [Event.threadJoin 3 t]) ++
      [Event.gettimeofday TimeVar.stop (env.clock 5).1 (env.clock 5).2,
        Event.report 3 ((m * p : Nat) : Int) ((env.clock 5).1 - (env.clock 4).1)
          ((env.clock 5).2 - (env.clock 4).2),
        Event.fopenWrite (outputPrefix ++ "_per_element.txt"),
        Event.fileWritten (outputPrefix ++ "_per_element.txt") text]))

/-! ## Sample inputs -/

/-- Sample state: `A = [[1,2],[3,4]]`, `B = [[5,6],[7,8]]`, the result
matrices holding arbitrary values. -/
def sampleGlobals : Globals :=
  { A_rows := 2, A_cols := 2, B_rows := 2, B_cols := 2,
    A := [[1, 2], [3, 4]], B := [[5, 6], [7, 8]],
    C1 := [[9, 9], [9, 9]], C2 := [[-1, 0], [0, -1]], C3 := [[0, 0], [0, 0]], log := [] }

/-- Sample state: `A` is `1 x 3` all ones, `B` is `3 x 1` all ones. -/
def onesGlobals : Globals :=
  { A_rows := 1, A_cols := 3, B_rows := 3, B_cols := 1,
    A := [[1, 1, 1]], B := [[1], [1], [1]],
    C1 := [[7]], C2 := [[7]], C3 := [[7]], log := [] }

/-- Sample environment without resource failures: `a.txt` and `b.txt` hold
the matrices of `sampleGlobals`, fresh memory holds `77`. -/
def sampleEnv : Env :=
  { files := fun name =>
      if name = "a.txt" then some "row=2 col=2\n1 2 \n3 4 \n".toList
      else if name = "b.txt" then some "row=2 col=2\n5 6\n7 8\n".toList
      else none,
    writable := fun _ => true,
    malloc := fun _ => true,
    junk := fun _ _ _ => 77,
    create := fun _ _ => true,
    join := fun _ _ => true,
    clock := fun k => (k, 0) }

/-- Environment whose `a.txt` has the header `row=2` with `col=` missing. -/
def headerlessEnv : Env :=
  { sampleEnv with files := fun _ => some "row=2\n1 2\n3 4\n".toList }

/-- Environment whose allocator refuses every request above `PTRDIFF_MAX`
bytes, as the one of glibc does, and grants the others (a request of `0`
bytes included). The file `zero.txt` has the header `row=0 col=-1`, the file
`negative.txt` the header `row=-1 col=2`, and `negcol.txt` the header
`row=2 col=-1`. -/
def boundedEnv : Env :=
  { sampleEnv with
    malloc := fun size => decide (size < 9223372036854775808),
    files := fun name =>
      if name = "zero.txt" then some "row=0 col=-1\n".toList
      else if name = "negative.txt" then some "row=-1 col=2\n1 2\n".toList
      else if name = "negcol.txt" then some "row=2 col=-1\n".toList
      else none }

/-- Environment whose `a.txt` announces `1 x 2` but holds a single value. -/
def shortBodyEnv : Env :=
  { sampleEnv with files := fun _ => some "row=1 col=2\n5\n".toList }

/-- The tokens `1 2 3 4`, one row per line. -/
def layoutByRows : List (List Char × Int) :=
  [([], 1), ([Char.ofNat 32], 2), ([Char.ofNat 10], 3), ([Char.ofNat 32], 4)]

/-- The tokens `1 2 3 4`, one per line after a blank line, tab-indented. -/
def layoutByLines : List (List Char × Int) :=
  [([Char.ofNat 10, Char.ofNat 9], 1), ([Char.ofNat 10, Char.ofNat 9], 2),
    ([Char.ofNat 13, Char.ofNat 10], 3), ([Char.ofNat 32, Char.ofNat 32], 4)]

/-- Environment with the same `2 x 2` matrix laid out in two ways. -/
def layoutEnv : Env :=
  { sampleEnv with
    files := fun name =>
      if name = "rows.txt" then some (headerText 2 2 ++ render layoutByRows [Char.ofNat 10])
      else if name = "lines.txt" then some (headerText 2 2 ++ render layoutByLines [])
      else none }

/-- Environment whose inputs do not fit: `a.txt` is `2 x 2`, `b.txt` is `3 x 1`. -/
def mismatchEnv : Env :=
  { sampleEnv with
    files := fun name =>
      if name = "a.txt" then some "row=2 col=2\n1 2\n3 4\n".toList
      else if name = "b.txt" then some "row=3 col=1\n1\n1\n1\n".toList
      else none }

/-- Sample state whose products overflow: `A = [[2147483647, 2147483647]]`,
`B = [[2], [-2]]`; the exact dot product is `0`. -/
def overflowGlobals : Globals :=
  { A_rows := 1, A_cols := 2, B_rows := 2, B_cols := 1,
    A := [[2147483647, 2147483647]], B := [[2], [-2]],
    C1 := [[5]], C2 := [[6]], C3 := [[7]], log := [] }

/-- The state `sampleGlobals` with other values in the result matrices. -/
def sampleGlobalsAlt : Globals :=
  { sampleGlobals with
    C1 := [[0, 1], [2, 3]], C2 := [[4, 5], [6, 7]], C3 := [[-8, -9], [10, 11]] }

/-- Environment whose clock runs from `1 s 900000 us` to `2 s 100000 us`
around method 1: `0.2 s` elapse. -/
def borrowEnv : Env :=
  { sampleEnv with
    clock := fun k => if k = 0 then (1, 900000) else (2, 100000) }

/-! ## Theory -/

/-! ### Integers, loops and matrices -/

theorem forLoop_succ {σ : Type} (n : Nat) (body : Nat → σ → Option σ) (s : σ) :
    forLoop (n + 1) body s = (forLoop n body s).bind (body n) := by
  simp only [forLoop]
  cases forLoop n body s <;> rfl

theorem wrapInt_of_inInt {x : Int} (h : inInt x) : wrapInt x = x := by
  unfold inInt at h
  unfold wrapInt
  omega

theorem inInt_wrapInt (x : Int) : inInt (wrapInt x) := by
  unfold inInt wrapInt
  omega

theorem Matrix.load_some_of_shape {mat : Matrix} {rows cols i j : Nat}
    (h : mat.hasShape rows cols) (hi : i < rows) (hj : j < cols) :
    ∃ v, mat.load i j = some v := by
  obtain ⟨hl, hr⟩ := h
  have hi' : i < mat.length := by omega
  have hrow : (mat[i]).length = cols := hr _ (List.getElem_mem _)
  refine ⟨(mat[i])[j], ?_⟩
  simp [Matrix.load, List.getElem?_eq_getElem hi', List.getElem?_eq_getElem (hrow ▸ hj)]

theorem Matrix.load_eq_entry {mat : Matrix} {rows cols i j : Nat}
    (h : mat.hasShape rows cols) (hi : i < rows) (hj : j < cols) :
    mat.load i j = some (entry mat i j) := by
  obtain ⟨v, hv⟩ := Matrix.load_some_of_shape h hi hj
  simp [entry, hv]

theorem Matrix.store_of_shape {mat : Matrix} {rows cols i j : Nat} (v : Int)
    (h : mat.hasShape rows cols) (hi : i < rows) (hj : j < cols) :
    ∃ mat', mat.store i j v = some mat' ∧ mat'.hasShape rows cols ∧
      ∀ i' j', mat'.load i' j' = if i' = i ∧ j' = j then some v else mat.load i' j' := by
  obtain ⟨hl, hr⟩ := h
  have hi' : i < mat.length := by omega
  have hrow : (mat[i]).length = cols := hr _ (List.getElem_mem _)
  refine ⟨mat.set i ((mat[i]).set j v), ?_, ⟨?_, ?_⟩, ?_⟩
  · simp [Matrix.store, List.getElem?_eq_getElem hi', hrow, hj]
  · simpa using hl
  · intro row hrow'
    rcases List.mem_or_eq_of_mem_set hrow' with h1 | h1
    · exact hr _ h1
    · simp [h1, hrow]
  · intro i' j'
    by_cases hii : i' = i
    · subst hii
      by_cases hjj : j' = j
      · subst hjj
        simp [Matrix.load, List.getElem?_set, hi', hrow, hj]
      · simp [Matrix.load, List.getElem?_set, hi', hjj, List.getElem?_eq_getElem hi']
        intro h; exact absurd h.symm hjj
    · have hii' : ¬ i = i' := fun h => hii h.symm
      simp [Matrix.load, List.getElem?_set, hii, hii']

theorem Matrix.ext_load {m1 m2 : Matrix} {rows cols : Nat}
    (h1 : m1.hasShape rows cols) (h2 : m2.hasShape rows cols)
    (h : ∀ i j, i < rows → j < cols → m1.load i j = m2.load i j) : m1 = m2 := by
  obtain ⟨hl1, hr1⟩ := h1
  obtain ⟨hl2, hr2⟩ := h2
  apply List.ext_getElem (by omega)
  intro i hi1 hi2
  have e1 : (m1[i]).length = cols := hr1 _ (List.getElem_mem _)
  have e2 : (m2[i]).length = cols := hr2 _ (List.getElem_mem _)
  apply List.ext_getElem (by omega)
  intro j hj1 hj2
  have := h i j (by omega) (by omega)
  simp [Matrix.load, List.getElem?_eq_getElem hi1, List.getElem?_eq_getElem hi2,
    List.getElem?_eq_getElem hj1, List.getElem?_eq_getElem hj2] at this
  exact this

/-- Loads outside the shape fail. -/
theorem Matrix.load_none_of_shape {mat : Matrix} {rows cols i j : Nat}
    (h : mat.hasShape rows cols) (hij : ¬ (i < rows ∧ j < cols)) :
    mat.load i j = none := by
  obtain ⟨hl, hr⟩ := h
  unfold Matrix.load
  by_cases hi : i < mat.length
  · have hrow : (mat[i]).length = cols := hr _ (List.getElem_mem _)
    simp [List.getElem?_eq_getElem hi]
    omega
  · simp [List.getElem?_eq_none (Nat.le_of_not_lt hi)]

theorem refProduct_hasShape (a b : Matrix) (m n p : Nat) :
    (refProduct a b m n p).hasShape m p := by
  constructor
  · simp [refProduct]
  · intro row hrow
    simp [refProduct] at hrow
    obtain ⟨i, _, rfl⟩ := hrow
    simp

theorem refProduct_load (a b : Matrix) {m n p i j : Nat} (hi : i < m) (hj : j < p) :
    (refProduct a b m n p).load i j = some (refDot a b i j n) := by
  simp [refProduct, Matrix.load, hi, hj, List.getElem?_eq_getElem]

theorem wrapDot_eq_refDot {a b : Matrix} {i j n : Nat}
    (h : ∀ k < n, inInt (entry a i k * entry b k j) ∧ inInt (refDot a b i j (k + 1))) :
    ∀ k ≤ n, wrapDot a b i j k = refDot a b i j k := by
  intro k
  induction k with
  | zero => intro _; rfl
  | succ k ih =>
    intro hk
    have hk' : k < n := hk
    obtain ⟨h1, h2⟩ := h k hk'
    simp only [wrapDot, refDot] at *
    rw [ih (Nat.le_of_lt hk'), wrapInt_of_inInt h1, wrapInt_of_inInt h2]

theorem MatId.isOut.ne_A {out : MatId} (h : out.isOut) : MatId.A ≠ out := by
  rcases h with h | h | h <;> simp [h]

theorem MatId.isOut.ne_B {out : MatId} (h : out.isOut) : MatId.B ≠ out := by
  rcases h with h | h | h <;> simp [h]

theorem Fills.inputA {out : MatId} {S tr g g'} (h : Fills out S tr g g') (ho : out.isOut) :
    g'.A = g.A := h.others MatId.A ho.ne_A

theorem Fills.inputB {out : MatId} {S tr g g'} (h : Fills out S tr g g') (ho : out.isOut) :
    g'.B = g.B := h.others MatId.B ho.ne_B

theorem Fills.refl (out : MatId) (g : Globals) : Fills out (fun _ _ => false) [] g g where
  A_rows := rfl
  A_cols := rfl
  B_rows := rfl
  B_cols := rfl
  others := fun _ _ => rfl
  shape := fun _ _ h => h
  cells := fun _ _ => by simp
  log := by simp

theorem Fills.trans {out : MatId} {S1 S2 tr1 tr2 g g1 g2} (ho : out.isOut)
    (h1 : Fills out S1 tr1 g g1) (h2 : Fills out S2 tr2 g1 g2) :
    Fills out (fun i j => S1 i j || S2 i j) (tr1 ++ tr2) g g2 where
  A_rows := h2.A_rows.trans h1.A_rows
  A_cols := h2.A_cols.trans h1.A_cols
  B_rows := h2.B_rows.trans h1.B_rows
  B_cols := h2.B_cols.trans h1.B_cols
  others := fun id hid => (h2.others id hid).trans (h1.others id hid)
  shape := fun r c h => h2.shape r c (h1.shape r c h)
  cells := fun i j => by
    rw [h2.cells, h1.cells, h1.inputA ho, h1.inputB ho, h1.A_cols]
    cases S1 i j <;> cases S2 i j <;> simp
  log := by rw [h2.log, h1.log, List.append_assoc]

theorem Fills.congr {out : MatId} {S S' tr g g'} (h : Fills out S tr g g')
    (hS : ∀ i j, S i j = S' i j) : Fills out S' tr g g' := by
  have : S = S' := funext fun i => funext fun j => hS i j
  exact this ▸ h

theorem WellFormed.mat_out {g : Globals} {m n p : Nat} (h : WellFormed g m n p)
    {out : MatId} (ho : out.isOut) : (g.mat out).hasShape m p := by
  obtain ⟨_, _, _, _, _, _, h1, h2, h3⟩ := h
  rcases ho with e | e | e <;> subst e <;> assumption

theorem Fills.wellFormed {out : MatId} {S tr g g'} {m n p : Nat} (ho : out.isOut)
    (h : Fills out S tr g g') (hg : WellFormed g m n p) : WellFormed g' m n p := by
  have hout := h.shape m p (hg.mat_out ho)
  obtain ⟨h1, h2, h3, h4, hA, hB, hC1, hC2, hC3⟩ := hg
  refine ⟨h.A_rows.trans h1, h.A_cols.trans h2, h.B_rows.trans h3, h.B_cols.trans h4,
    ?_, ?_, ?_, ?_, ?_⟩
  · rw [h.inputA ho]; exact hA
  · rw [h.inputB ho]; exact hB
  · by_cases e : MatId.C1 = out
    · subst e; exact hout
    · have := h.others MatId.C1 e; simp only [Globals.mat] at this; rw [this]; exact hC1
  · by_cases e : MatId.C2 = out
    · subst e; exact hout
    · have := h.others MatId.C2 e; simp only [Globals.mat] at this; rw [this]; exact hC2
  · by_cases e : MatId.C3 = out
    · subst e; exact hout
    · have := h.others MatId.C3 e; simp only [Globals.mat] at this; rw [this]; exact hC3

theorem dotLoop_eq {g : Globals} {m n p i j : Nat} (hg : WellFormed g m n p)
    (hi : i < m) (hj : j < p) :
    ∀ k ≤ n, forLoop k (dotStep i j) (g, 0) =
      some ({ g with log := g.log ++ dotReads i j k }, wrapDot g.A g.B i j k) := by
  obtain ⟨_, _, _, _, hA, hB, _⟩ := hg
  intro k
  induction k with
  | zero => intro _; simp [forLoop, dotReads, wrapDot]
  | succ k ih =>
    intro hk
    have hk' : k < n := hk
    rw [forLoop_succ, ih (Nat.le_of_lt hk')]
    simp [dotStep, Globals.readCell, Globals.mat, Matrix.load_eq_entry hA hi hk',
      Matrix.load_eq_entry hB hk' hj, dotReads, wrapDot]

theorem computeCell_fills {g : Globals} {m n p i j : Nat} {out : MatId}
    (hg : WellFormed g m n p) (ho : out.isOut) (hi : i < m) (hj : j < p) :
    ∃ g', computeCell out i j g = some g' ∧
      Fills out (fun i' j' => decide (i' = i ∧ j' = j)) (cellTrace out n i j) g g' := by
  have hn : g.A_cols.toNat = n := by rw [hg.2.1]; simp
  obtain ⟨mat', hst, hsh, hld⟩ :=
    Matrix.store_of_shape (wrapDot g.A g.B i j n) (hg.mat_out ho) hi hj
  have hdot := dotLoop_eq hg hi hj n (Nat.le_refl n)
  refine ⟨{ g.setMat out mat' with log := g.log ++ cellTrace out n i j }, ?_, ?_⟩
  · unfold computeCell
    rw [hn, hdot]
    have hm : ({ g with log := g.log ++ dotReads i j n } : Globals).mat out = g.mat out := by
      cases out <;> rfl
    simp only [Globals.writeCell, hm, hst]
    rcases ho with e | e | e <;> subst e <;> simp [Globals.setMat, cellTrace]
  · have hmat : ({ g.setMat out mat' with log := g.log ++ cellTrace out n i j } : Globals).mat out
        = mat' := by
      rcases ho with e | e | e <;> subst e <;> rfl
    refine ⟨?_, ?_, ?_, ?_, ?_, ?_, ?_, ?_⟩
    · rcases ho with e | e | e <;> subst e <;> rfl
    · rcases ho with e | e | e <;> subst e <;> rfl
    · rcases ho with e | e | e <;> subst e <;> rfl
    · rcases ho with e | e | e <;> subst e <;> rfl
    · intro id hid
      rcases ho with e | e | e <;> subst e <;> cases id <;> first | rfl | exact absurd rfl hid
    · intro r c hrc
      rw [hmat]
      have e1 : m = r := by rw [← (hg.mat_out ho).1, hrc.1]
      subst e1
      by_cases hp : p = c
      · subst hp; exact hsh
      · exfalso
        have hlen : i < (g.mat out).length := by rw [hrc.1]; exact hi
        have h1 := (hg.mat_out ho).2 _ (List.getElem_mem hlen)
        have h2 := hrc.2 _ (List.getElem_mem hlen)
        exact hp (h1.symm.trans h2)
    · intro i' j'
      rw [hmat, hld, hn]
      by_cases h : i' = i ∧ j' = j <;> simp [h]
    · rfl

theorem rowLoop_fills {g : Globals} {m n p i : Nat} {out : MatId}
    (hg : WellFormed g m n p) (ho : out.isOut) (hi : i < m) :
    ∀ j ≤ p, ∃ g', forLoop j (fun j gj => computeCell out i j gj) g = some g' ∧
      Fills out (fun i' j' => decide (i' = i ∧ j' < j)) (rowTrace out n i j) g g' := by
  intro j
  induction j with
  | zero =>
    intro _
    exact ⟨g, rfl, (Fills.refl out g).congr (by simp)⟩
  | succ j ih =>
    intro hj
    have hj' : j < p := hj
    obtain ⟨g1, hrun, hf⟩ := ih (Nat.le_of_lt hj')
    obtain ⟨g2, hrun2, hf2⟩ := computeCell_fills (hf.wellFormed ho hg) ho hi hj'
    refine ⟨g2, ?_, ?_⟩
    · rw [forLoop_succ, hrun]; exact hrun2
    · refine (Fills.trans ho hf hf2).congr ?_
      intro i' j'
      by_cases h1 : i' = i <;> simp [h1, Nat.lt_succ_iff, Nat.le_iff_lt_or_eq]

theorem matLoop_fills {g : Globals} {m n p : Nat} {out : MatId}
    (body : Nat → Globals → Option Globals)
    (hbody : ∀ i gi, WellFormed gi m n p →
      body i gi = forLoop p (fun j gj => computeCell out i j gj) gi)
    (hg : WellFormed g m n p) (ho : out.isOut) :
    ∀ i ≤ m, ∃ g', forLoop i body g = some g' ∧
      Fills out (fun i' j' => decide (i' < i ∧ j' < p)) (matTrace out n p i) g g' := by
  intro i
  induction i with
  | zero =>
    intro _
    exact ⟨g, rfl, (Fills.refl out g).congr (by simp)⟩
  | succ i ih =>
    intro hi
    have hi' : i < m := hi
    obtain ⟨g1, hrun, hf⟩ := ih (Nat.le_of_lt hi')
    have hg1 := hf.wellFormed ho hg
    obtain ⟨g2, hrun2, hf2⟩ := rowLoop_fills hg1 ho hi' p (Nat.le_refl p)
    refine ⟨g2, ?_, ?_⟩
    · rw [forLoop_succ, hrun]
      simp only [Option.bind]
      rw [hbody i g1 hg1]; exact hrun2
    · refine (Fills.trans ho hf hf2).congr ?_
      intro i' j'
      by_cases h1 : j' < p <;> simp [h1, Nat.lt_succ_iff, Nat.le_iff_lt_or_eq]

theorem WellFormed.B_cols_toNat {g : Globals} {m n p : Nat} (hg : WellFormed g m n p) :
    g.B_cols.toNat = p := by
  rw [hg.2.2.2.1]; simp

theorem WellFormed.A_rows_toNat {g : Globals} {m n p : Nat} (hg : WellFormed g m n p) :
    g.A_rows.toNat = m := by
  rw [hg.1]; simp

theorem WellFormed.A_cols_toNat {g : Globals} {m n p : Nat} (hg : WellFormed g m n p) :
    g.A_cols.toNat = n := by
  rw [hg.2.1]; simp

theorem multiplyElement_fills {g : Globals} {m n p i j : Nat} (hg : WellFormed g m n p)
    (hi : i < m) (hj : j < p) :
    ∃ g', multiplyElement ⟨i, j⟩ g = some g' ∧
      Fills MatId.C3 (fun i' j' => decide (i' = i ∧ j' = j)) (cellTrace MatId.C3 n i j) g g' :=
  computeCell_fills hg (Or.inr (Or.inr rfl)) hi hj

theorem multiplyRow_fills {g : Globals} {m n p i : Nat} (hg : WellFormed g m n p)
    (hi : i < m) :
    ∃ g', multiplyRow ⟨i⟩ g = some g' ∧
      Fills MatId.C2 (fun i' j' => decide (i' = i ∧ j' < p)) (rowTrace MatId.C2 n i p) g g' := by
  unfold multiplyRow
  rw [hg.B_cols_toNat]
  exact rowLoop_fills hg (Or.inr (Or.inl rfl)) hi p (Nat.le_refl p)

theorem multiplyMatrix_fills {g : Globals} {m n p : Nat} (hg : WellFormed g m n p) :
    ∃ g', multiplyMatrix g = some g' ∧
      Fills MatId.C1 (fun i' j' => decide (i' < m ∧ j' < p)) (matTrace MatId.C1 n p m) g g' := by
  unfold multiplyMatrix
  rw [hg.A_rows_toNat]
  exact matLoop_fills _ (fun i gi hgi => by rw [hgi.B_cols_toNat]) hg (Or.inl rfl) m
    (Nat.le_refl m)

/-- Method 2 as a whole: the row workers for rows `0 .. m-1`, one after another. -/
theorem rowWorkers_fills {g : Globals} {m n p : Nat} (hg : WellFormed g m n p) :
    ∀ i ≤ m, ∃ g', forLoop i (fun i s => multiplyRow ⟨i⟩ s) g = some g' ∧
      Fills MatId.C2 (fun i' j' => decide (i' < i ∧ j' < p)) (matTrace MatId.C2 n p i) g g' :=
  matLoop_fills _ (fun i gi hgi => by unfold multiplyRow; rw [hgi.B_cols_toNat]) hg
    (Or.inr (Or.inl rfl))

/-- Method 3 as a whole: the element workers in row-major order. -/
theorem elementWorkers_fills {g : Globals} {m n p : Nat} (hg : WellFormed g m n p) :
    ∀ i ≤ m, ∃ g', forLoop i
        (fun i s => forLoop p (fun j s' => multiplyElement ⟨i, j⟩ s') s) g = some g' ∧
      Fills MatId.C3 (fun i' j' => decide (i' < i ∧ j' < p)) (matTrace MatId.C3 n p i) g g' :=
  matLoop_fills _ (fun _ _ _ => rfl) hg (Or.inr (Or.inr rfl))

/-- A result matrix every cell of which was filled is the machine product. -/
theorem Fills.load_full {out : MatId} {tr g g'} {m n p i j : Nat}
    (h : Fills out (fun i' j' => decide (i' < m ∧ j' < p)) tr g g')
    (hg : WellFormed g m n p) (hi : i < m) (hj : j < p) :
    (g'.mat out).load i j = some (wrapDot g.A g.B i j n) := by
  rw [h.cells, hg.A_cols_toNat]
  simp [hi, hj]

/-! ### Text conversions -/

theorem digitChar_toNat {d : Nat} (hd : d < 10) : (digitChar d).toNat = 48 + d := by
  interval_cases d <;> rfl

theorem isDigit_digitChar {d : Nat} (hd : d < 10) : isDigit (digitChar d) = true := by
  interval_cases d <;> rfl

theorem isSpace_digitChar {d : Nat} (hd : d < 10) : isSpace (digitChar d) = false := by
  interval_cases d <;> rfl

theorem isDigit_of_isSpace {c : Char} (h : isSpace c = true) : isDigit c = false := by
  unfold isSpace at h
  unfold isDigit
  simp only [Bool.or_eq_true, Bool.and_eq_true, decide_eq_true_eq] at h
  simp only [Bool.and_eq_false_imp, decide_eq_true_eq, decide_eq_false_iff_not]
  omega

/-- Appending to the accumulator commutes with formatting. -/
theorem fmtNatAux_append (fuel n : Nat) (acc rest : List Char) :
    fmtNatAux fuel n acc ++ rest = fmtNatAux fuel n (acc ++ rest) := by
  induction fuel generalizing n acc with
  | zero => rfl
  | succ fuel ih =>
    simp only [fmtNatAux]
    split
    · rfl
    · rw [ih]; rfl

theorem fmtNat_append (n : Nat) (rest : List Char) :
    fmtNat n ++ rest = fmtNatAux (n + 1) n rest := by
  unfold fmtNat
  rw [fmtNatAux_append]; rfl

/-- Scanning the digits that `fmtNatAux` produced recovers the number. -/
theorem scanDigits_fmtNatAux (fuel : Nat) :
    ∀ (n a : Nat) (acc : List Char), n < fuel →
      ∃ d, scanDigits a (fmtNatAux fuel n acc) = scanDigits (a * 10 ^ d + n) acc := by
  induction fuel with
  | zero => intro n a acc h; omega
  | succ fuel ih =>
    intro n a acc h
    simp only [fmtNatAux]
    split
    · rename_i hn
      refine ⟨1, ?_⟩
      simp [scanDigits, isDigit_digitChar hn, digitChar_toNat hn]
    · rename_i hn
      have hlt : n / 10 < fuel := by omega
      obtain ⟨d, hd⟩ := ih (n / 10) a (digitChar (n % 10) :: acc) hlt
      refine ⟨d + 1, ?_⟩
      rw [hd]
      have hm : n % 10 < 10 := Nat.mod_lt _ (by decide)
      simp only [scanDigits, isDigit_digitChar hm, digitChar_toNat hm, if_true]
      congr 1
      rw [pow_succ]
      have := Nat.div_add_mod n 10
      have e : 48 + n % 10 - 48 = n % 10 := by omega
      rw [e]
      nlinarith [this]

theorem scanDigits_stop (a : Nat) (rest : List Char)
    (hrest : ∀ c, rest.head? = some c → isDigit c = false) :
    scanDigits a rest = (a, rest) := by
  cases rest with
  | nil => rfl
  | cons c cs =>
    have := hrest c rfl
    simp [scanDigits, this]

theorem scanDigits_fmtNat (n : Nat) (rest : List Char)
    (hrest : ∀ c, rest.head? = some c → isDigit c = false) :
    scanDigits 0 (fmtNat n ++ rest) = (n, rest) := by
  rw [fmtNat_append]
  obtain ⟨d, hd⟩ := scanDigits_fmtNatAux (n + 1) n 0 rest (Nat.lt_succ_self n)
  rw [hd, scanDigits_stop _ _ hrest]
  simp

/-- The rendering of a number starts with a digit. -/
theorem fmtNatAux_head (fuel : Nat) :
    ∀ (n : Nat) (acc : List Char), n < fuel →
      ∃ d tl, d < 10 ∧ fmtNatAux fuel n acc = digitChar d :: tl := by
  induction fuel with
  | zero => intro n acc h; omega
  | succ fuel ih =>
    intro n acc h
    simp only [fmtNatAux]
    split
    · rename_i hn
      exact ⟨n, acc, hn, rfl⟩
    · exact ih (n / 10) _ (by omega)

theorem fmtNat_head (n : Nat) (rest : List Char) :
    ∃ d tl, d < 10 ∧ fmtNat n ++ rest = digitChar d :: tl := by
  rw [fmtNat_append]
  exact fmtNatAux_head (n + 1) n rest (Nat.lt_succ_self n)

theorem scanNumber_fmtNat (negative : Bool) (n : Nat) (rest : List Char)
    (hrest : ∀ c, rest.head? = some c → isDigit c = false) :
    scanNumber negative (fmtNat n ++ rest) =
      (some (wrapInt (if negative then -(n : Int) else (n : Int))), rest) := by
  obtain ⟨d, tl, hd, he⟩ := fmtNat_head n rest
  have hs := scanDigits_fmtNat n rest hrest
  rw [he] at hs ⊢
  simp [scanNumber, isDigit_digitChar hd, hs]

theorem skipSpaces_append {pre : List Char} (hpre : ∀ c ∈ pre, isSpace c = true)
    (s : List Char) : skipSpaces (pre ++ s) = skipSpaces s := by
  induction pre with
  | nil => rfl
  | cons c cs ih =>
    have hc := hpre c (List.mem_cons_self _ _)
    simp only [List.cons_append, skipSpaces, hc, if_true]
    exact ih (fun c' hc' => hpre c' (List.mem_cons_of_mem _ hc'))

theorem skipSpaces_of_not_space {c : Char} (hc : isSpace c = false) (cs : List Char) :
    skipSpaces (c :: cs) = c :: cs := by
  simp [skipSpaces, hc]

theorem skipSpaces_all {s : List Char} (hs : ∀ c ∈ s, isSpace c = true) :
    skipSpaces s = [] := by
  have := skipSpaces_append hs []
  simpa using this

/-- The conversion `%d` reads back what `%d` printed, past any white space. -/
theorem scanInt_fmtInt {v : Int} (hv : inInt v) {pre : List Char}
    (hpre : ∀ c ∈ pre, isSpace c = true) (rest : List Char)
    (hrest : ∀ c, rest.head? = some c → isDigit c = false) :
    scanInt (pre ++ (fmtInt v ++ rest)) = (some v, rest) := by
  unfold scanInt
  rw [skipSpaces_append hpre]
  unfold fmtInt
  by_cases hneg : v < 0
  · simp only [hneg, if_true, List.cons_append]
    rw [skipSpaces_of_not_space (by rfl)]
    have h45 : (Char.ofNat 45).toNat = 45 := rfl
    simp only [h45, if_true]
    rw [scanNumber_fmtNat true _ _ hrest]
    have : -((v.natAbs : Nat) : Int) = v := by omega
    simp only [reduceIte, this, wrapInt_of_inInt hv]
  · simp only [hneg, if_false]
    obtain ⟨d, tl, hd, he⟩ := fmtNat_head v.natAbs rest
    have hsc := scanNumber_fmtNat false v.natAbs rest hrest
    rw [he] at hsc ⊢
    rw [skipSpaces_of_not_space (isSpace_digitChar hd)]
    have h1 : ¬ (digitChar d).toNat = 45 := by rw [digitChar_toNat hd]; omega
    have h2 : ¬ (digitChar d).toNat = 43 := by rw [digitChar_toNat hd]; omega
    simp only [h1, h2, if_false]
    rw [hsc]
    have : ((v.natAbs : Nat) : Int) = v := by omega
    simp only [Bool.false_eq_true, reduceIte, this, wrapInt_of_inInt hv]

/-- Length bound for the rendering of a number below `10 ^ e`. -/
theorem fmtNatAux_length (fuel : Nat) :
    ∀ (n e : Nat) (acc : List Char), n < 10 ^ (e + 1) →
      (fmtNatAux fuel n acc).length ≤ e + 1 + acc.length := by
  induction fuel with
  | zero => intro n e acc _; simp [fmtNatAux]
  | succ fuel ih =>
    intro n e acc h
    simp only [fmtNatAux]
    split
    · simp only [List.length_cons]; omega
    · rename_i hn
      cases e with
      | zero => simp at h; omega
      | succ e =>
        have hlt : n / 10 < 10 ^ (e + 1) := by
          rw [Nat.div_lt_iff_lt_mul (by decide)]
          rw [pow_succ] at h; exact h
        have := ih (n / 10) e (digitChar (n % 10) :: acc) hlt
        simp only [List.length_cons] at this
        omega

theorem fmtInt_length {v : Int} (hv : inInt v) : (fmtInt v).length ≤ 11 := by
  unfold inInt at hv
  have hn : v.natAbs < 10 ^ (9 + 1) := by
    have : (10 : Nat) ^ (9 + 1) = 10000000000 := by norm_num
    omega
  have := fmtNatAux_length (v.natAbs + 1) v.natAbs 9 [] hn
  unfold fmtInt fmtNat
  split <;> simp only [List.length_cons, List.length_nil] at * <;> omega

/-- Every character `fmtNatAux` adds is a digit. -/
theorem fmtNatAux_chars (fuel : Nat) :
    ∀ (n : Nat) (acc : List Char) (P : Char → Prop), (∀ d < 10, P (digitChar d)) →
      (∀ c ∈ acc, P c) → ∀ c ∈ fmtNatAux fuel n acc, P c := by
  induction fuel with
  | zero => intro n acc P _ hacc; simpa [fmtNatAux] using hacc
  | succ fuel ih =>
    intro n acc P hP hacc
    simp only [fmtNatAux]
    split
    · rename_i hn
      intro c hc
      rcases List.mem_cons.1 hc with h | h
      · rw [h]; exact hP n hn
      · exact hacc c h
    · apply ih _ _ P hP
      intro c hc
      rcases List.mem_cons.1 hc with h | h
      · rw [h]; exact hP _ (Nat.mod_lt _ (by decide))
      · exact hacc c h

theorem fmtInt_no_newline (v : Int) : ∀ c ∈ fmtInt v, ¬ c.toNat = 10 := by
  have hd : ∀ d < 10, ¬ (digitChar d).toNat = 10 := by
    intro d hd; rw [digitChar_toNat hd]; omega
  have hn := fmtNatAux_chars (v.natAbs + 1) v.natAbs [] (fun c => ¬ c.toNat = 10) hd
    (by simp)
  unfold fmtInt fmtNat
  split
  · intro c hc
    rcases List.mem_cons.1 hc with h | h
    · rw [h]; decide
    · exact hn c h
  · exact hn

theorem fgetsChars_line (k : Nat) :
    ∀ (l rest : List Char), (∀ c ∈ l, ¬ c.toNat = 10) → l.length < k →
      fgetsChars k (l ++ Char.ofNat 10 :: rest) = (l ++ [Char.ofNat 10], rest) := by
  induction k with
  | zero => intro l rest _ h; omega
  | succ k ih =>
    intro l rest hl hlen
    cases l with
    | nil => simp [fgetsChars]
    | cons c cs =>
      have hc := hl c (List.mem_cons_self _ _)
      have := ih cs rest (fun c' hc' => hl c' (List.mem_cons_of_mem _ hc'))
        (by simp at hlen; omega)
      simp [fgetsChars, hc, this]

theorem matchLiteral_append (lit s : List Char) : matchLiteral lit (lit ++ s) = some s := by
  induction lit with
  | nil => cases s <;> rfl
  | cons c cs ih => simp [matchLiteral, ih]

theorem headerText_eq (rows cols : Int) :
    headerText rows cols =
      ("row=".toList ++ fmtInt rows ++ " col=".toList ++ fmtInt cols) ++
        Char.ofNat 10 :: [] := rfl

/-- The call `fgets` reads exactly the header line that `writeMatrix` printed. -/
theorem fgets_headerText {rows cols : Int} (hr : inInt rows) (hc : inInt cols)
    (body : List Char) :
    fgets 256 (headerText rows cols ++ body) = (headerText rows cols, body) := by
  unfold fgets
  rw [headerText_eq, List.append_assoc]
  simp only [List.singleton_append]
  apply fgetsChars_line
  · intro c hc'
    simp only [List.mem_append] at hc'
    rcases hc' with ((h | h) | h) | h
    · revert c; decide
    · exact fmtInt_no_newline _ c h
    · revert c; decide
    · exact fmtInt_no_newline _ c h
  · have h1 := fmtInt_length hr
    have h2 := fmtInt_length hc
    simp only [List.length_append]
    have e1 : "row=".toList.length = 4 := rfl
    have e2 : " col=".toList.length = 5 := rfl
    omega

/-- The header conversion reads back the dimensions `writeMatrix` printed. -/
theorem sscanfHeader_headerText {rows cols : Int} (hr : inInt rows) (hc : inInt cols)
    (r0 c0 : Int) : sscanfHeader (headerText rows cols) r0 c0 = (rows, cols) := by
  have e : headerText rows cols =
      "row=".toList ++ ([] ++ (fmtInt rows ++ (" col=".toList ++
        ([] ++ (fmtInt cols ++ "\n".toList))))) := by
    simp [headerText]
  have h1 : scanInt ([] ++ (fmtInt rows ++ (" col=".toList ++
        ([] ++ (fmtInt cols ++ "\n".toList))))) =
      (some rows, " col=".toList ++ ([] ++ (fmtInt cols ++ "\n".toList))) :=
    scanInt_fmtInt hr (by simp) _ (by intro c h; cases h; rfl)
  have h2 : scanInt ([] ++ (fmtInt cols ++ "\n".toList)) = (some cols, "\n".toList) :=
    scanInt_fmtInt hc (by simp) _ (by intro c h; cases h; rfl)
  have h3 : skipSpaces (" col=".toList ++ ([] ++ (fmtInt cols ++ "\n".toList))) =
      "col=".toList ++ ([] ++ (fmtInt cols ++ "\n".toList)) := by
    have : " col=".toList = [Char.ofNat 32] ++ "col=".toList := rfl
    rw [this, List.append_assoc, skipSpaces_append (by decide)]
    exact skipSpaces_of_not_space (by rfl) _
  unfold sscanfHeader
  rw [e, matchLiteral_append]
  simp only [h1, h3, matchLiteral_append, h2]

theorem writeRow_eq (mat : Matrix) (i : Nat) (row : List Int) (hrow : mat[i]? = some row)
    (t : List Char) :
    ∀ j ≤ row.length,
      forLoop j (printCell mat i) t =
        some (t ++ (row.take j).flatMap (fun v => fmtInt v ++ " ".toList)) := by
  intro j
  induction j with
  | zero => intro _; simp [forLoop]
  | succ j ih =>
    intro hj
    have hj' : j < row.length := hj
    rw [forLoop_succ, ih (Nat.le_of_lt hj')]
    have hl : mat.load i j = some row[j] := by
      simp [Matrix.load, hrow, List.getElem?_eq_getElem hj']
    simp only [Option.bind, printCell, hl, List.take_succ, List.getElem?_eq_getElem hj',
      List.flatMap_append, Option.toList, List.flatMap_cons, List.flatMap_nil,
      List.append_nil, List.append_assoc]

theorem writeRows_eq (mat : Matrix) (cols : Nat) (hcols : ∀ row ∈ mat, row.length = cols)
    (t : List Char) :
    ∀ i ≤ mat.length,
      forLoop i (printRow mat cols) t = some (t ++ (mat.take i).flatMap rowText) := by
  intro i
  induction i with
  | zero => intro _; simp [forLoop]
  | succ i ih =>
    intro hi
    have hi' : i < mat.length := hi
    rw [forLoop_succ, ih (Nat.le_of_lt hi')]
    have hrow : mat[i]? = some mat[i] := List.getElem?_eq_getElem hi'
    have hlen : (mat[i]).length = cols := hcols _ (List.getElem_mem _)
    have := writeRow_eq mat i mat[i] hrow (t ++ (mat.take i).flatMap rowText) cols
      (by omega)
    have htake : (mat[i]).take cols = mat[i] := by rw [← hlen]; exact List.take_length _
    simp only [Option.bind, printRow, this, htake, List.take_succ, hrow,
      List.flatMap_append, Option.toList, List.flatMap_cons, List.flatMap_nil,
      List.append_nil, List.append_assoc, rowText]

/-- The text `writeMatrix` prints for a matrix of the stated shape. -/
theorem matrixText_eq {mat : Matrix} {m p : Nat} (h : mat.hasShape m p) :
    matrixText mat m p = some (headerText m p ++ bodyText mat) := by
  unfold matrixText
  simp only [Int.toNat_ofNat]
  have := writeRows_eq mat p h.2 (headerText m p) m (by rw [h.1])
  rw [this]
  have : mat.take m = mat := by rw [← h.1]; exact List.take_length _
  rw [this]; rfl

theorem Holds.prepend {toks : List Int} {s ws : List Char}
    (hws : ∀ c ∈ ws, isSpace c = true) (h : Holds toks s) : Holds toks (ws ++ s) := by
  cases toks with
  | nil =>
    intro c hc
    rcases List.mem_append.1 hc with h1 | h1
    · exact hws c h1
    · exact h c h1
  | cons v vs =>
    obtain ⟨pre, rest, he, hpre, hrest, hh⟩ := h
    refine ⟨ws ++ pre, rest, ?_, ?_, hrest, hh⟩
    · rw [he, List.append_assoc]
    · intro c hc
      rcases List.mem_append.1 hc with h1 | h1
      · exact hws c h1
      · exact hpre c h1

theorem holds_rowText (row : List Int) (toks : List Int) (s : List Char)
    (h : Holds toks s) : Holds (row ++ toks) (rowText row ++ s) := by
  induction row with
  | nil =>
    have : rowText [] ++ s = "\n".toList ++ s := rfl
    rw [this]
    exact Holds.prepend (by decide) h
  | cons v row ih =>
    have e : rowText (v :: row) ++ s = [] ++ (fmtInt v ++ (" ".toList ++ (rowText row ++ s))) := by
      simp [rowText]
    rw [e]
    refine ⟨[], _, rfl, by simp, ?_, Holds.prepend (by decide) ih⟩
    intro c hc
    cases hc
    rfl

theorem holds_bodyText (mat : Matrix) : Holds mat.flatten (bodyText mat) := by
  induction mat with
  | nil => intro c hc; cases hc
  | cons row mat ih =>
    have e : bodyText (row :: mat) = rowText row ++ bodyText mat := by
      simp [bodyText]
    rw [e, List.flatten_cons]
    exact holds_rowText row _ _ ih

theorem holds_render {layout : List (List Char × Int)} {trail : List Char}
    (hsp : ∀ x ∈ layout, ∀ c ∈ x.1, isSpace c = true)
    (hne : ∀ x ∈ layout.tail, x.1 ≠ [])
    (htr : ∀ c ∈ trail, isSpace c = true) :
    Holds (layout.map Prod.snd) (render layout trail) := by
  induction layout with
  | nil => exact htr
  | cons x rest ih =>
    obtain ⟨pre, v⟩ := x
    have hrest := ih (fun y hy => hsp y (List.mem_cons_of_mem _ hy))
      (fun y hy => hne y (List.mem_of_mem_tail hy))
    refine ⟨pre, render rest trail, rfl, hsp _ (List.mem_cons_self _ _), ?_, hrest⟩
    intro c hc
    cases rest with
    | nil =>
      simp only [render] at hc
      cases trail with
      | nil => cases hc
      | cons t ts =>
        simp at hc
        rw [← hc]; exact htr t (List.mem_cons_self _ _)
    | cons y ys =>
      obtain ⟨pre', v'⟩ := y
      have hne' : pre' ≠ [] := hne (pre', v') (by simp)
      cases pre' with
      | nil => exact absurd rfl hne'
      | cons q qs =>
        simp [render] at hc
        rw [← hc]
        exact hsp (q :: qs, v') (by simp) q (List.mem_cons_self _ _)

/-- Row-major indexing of the flattened matrix. -/
theorem flatten_getElem? {mat : Matrix} {m p : Nat} (h : mat.hasShape m p) :
    ∀ i j, j < p → mat.flatten[i * p + j]? = mat.load i j := by
  induction mat generalizing m with
  | nil => intro i j _; simp [Matrix.load]
  | cons row mat ih =>
    intro i j hj
    have hrow : row.length = p := h.2 row (List.mem_cons_self _ _)
    have hrest : Matrix.hasShape mat mat.length p :=
      ⟨rfl, fun r hr => h.2 r (List.mem_cons_of_mem _ hr)⟩
    cases i with
    | zero =>
      simp [Matrix.load, List.getElem?_append_left (hrow ▸ hj)]
    | succ i =>
      have e : (i + 1) * p + j = row.length + (i * p + j) := by rw [hrow]; ring
      rw [List.flatten_cons, e, List.getElem?_append_right (Nat.le_add_right _ _)]
      simp only [Nat.add_sub_cancel_left]
      rw [ih hrest i j hj]
      simp [Matrix.load]

theorem Run.bind_eq {α β : Type} (r : Run α) (f : α → Run β) : (r >>= f) = Run.bind r f := rfl

theorem Run.pure_eq {α : Type} (a : α) : (pure a : Run α) = Run.pure a := rfl

theorem Run.bind_ok {α β : Type} (ev : List Event) (a : α) (f : α → Run β) :
    Run.bind ⟨ev, Outcome.ok a⟩ f = ⟨ev ++ (f a).events, (f a).outcome⟩ := rfl

theorem Run.bind_exit {α β : Type} (ev : List Event) (st : Int) (f : α → Run β) :
    Run.bind ⟨ev, Outcome.exit st⟩ f = ⟨ev, Outcome.exit st⟩ := rfl

theorem Run.bind_undefined {α β : Type} (ev : List Event) (f : α → Run β) :
    Run.bind ⟨ev, Outcome.undefined⟩ f = ⟨ev, Outcome.undefined⟩ := rfl

theorem Run.bind_pure {α β : Type} (a : α) (f : α → Run β) :
    Run.bind (Run.pure a) f = f a := by
  simp [Run.bind, Run.pure]

theorem Run.bind_emit {β : Type} (e : Event) (f : Unit → Run β) :
    Run.bind (emit e) f = ⟨e :: (f ()).events, (f ()).outcome⟩ := rfl

theorem Run.bind_gettimeofday {β : Type} (env : Env) (k : Nat) (target : TimeVar)
    (f : Int × Int → Run β) :
    Run.bind (gettimeofday env k target) f =
      ⟨Event.gettimeofday target (env.clock k).1 (env.clock k).2 :: (f (env.clock k)).events,
        (f (env.clock k)).outcome⟩ := rfl

theorem freshMatrix_hasShape (env : Env) (slot rows cols : Nat) :
    (freshMatrix env slot rows cols).hasShape rows cols := by
  constructor
  · simp [freshMatrix]
  · intro row hrow
    simp [freshMatrix] at hrow
    obtain ⟨i, _, rfl⟩ := hrow
    simp

theorem freshMatrix_load (env : Env) (slot : Nat) {rows cols i j : Nat}
    (hi : i < rows) (hj : j < cols) :
    (freshMatrix env slot rows cols).load i j = some (wrapInt (env.junk slot i j)) := by
  simp [freshMatrix, Matrix.load, hi, hj, List.getElem?_eq_getElem]

theorem allocateRows_ok (env : Env) (hm : ∀ size, env.malloc size = true)
    (slot : Nat) (cols : Int) :
    ∀ n, allocateRows env slot cols n = ⟨[], Outcome.ok (freshMatrix env slot n cols.toNat)⟩ := by
  intro n
  induction n with
  | zero => rfl
  | succ n ih =>
    simp only [allocateRows, ih, hm, if_true, Run.bind_eq, Run.bind_ok, Run.pure]
    simp [freshMatrix, List.range_succ]

theorem allocateMatrix_ok (env : Env) (hm : ∀ size, env.malloc size = true)
    (slot : Nat) (rows cols : Int) :
    allocateMatrix env slot rows cols =
      ⟨[], Outcome.ok (freshMatrix env slot rows.toNat cols.toNat)⟩ := by
  simp only [allocateMatrix, hm, if_true, allocateRows_ok env hm]

/-- One `fscanf` on a stream that holds tokens. -/
theorem readCell_holds {toks : List Int} (htoks : ∀ v ∈ toks, inInt v) {s : List Char}
    (hs : Holds toks s) {mat : Matrix} {rows cols i j : Nat} (hm : mat.hasShape rows cols)
    (hi : i < rows) (hj : j < cols) :
    ∃ s' mat', readCell i j (s, mat) = some (s', mat') ∧ Holds toks.tail s' ∧
      mat'.hasShape rows cols ∧
      ∀ i' j', mat'.load i' j' =
        if i' = i ∧ j' = j then (toks.head? <|> mat.load i j) else mat.load i' j' := by
  cases toks with
  | nil =>
    refine ⟨[], mat, ?_, ?_, hm, ?_⟩
    · have : scanInt s = (none, []) := by
        unfold scanInt
        rw [skipSpaces_all hs]
      simp [readCell, this]
    · intro c hc; cases hc
    · intro i' j'
      by_cases h : i' = i ∧ j' = j
      · simp [h]
      · simp [h]
  | cons v vs =>
    obtain ⟨pre, rest, he, hpre, hrest, hh⟩ := hs
    have hv : inInt v := htoks v (List.mem_cons_self _ _)
    have hsc : scanInt s = (some v, rest) := by
      rw [he]
      exact scanInt_fmtInt hv hpre rest (fun c hc => isDigit_of_isSpace (hrest c hc))
    obtain ⟨mat', hst, hsh, hld⟩ := Matrix.store_of_shape v hm hi hj
    refine ⟨rest, mat', ?_, hh, hsh, ?_⟩
    · simp [readCell, hsc, hst]
    · intro i' j'
      rw [hld]
      by_cases h : i' = i ∧ j' = j <;> simp [h]

/-- Invariant rule for `forLoop`. -/
theorem forLoop_inv {σ : Type} (n : Nat) (body : Nat → σ → Option σ) (I : Nat → σ → Prop)
    (s : σ) (h0 : I 0 s)
    (hstep : ∀ k < n, ∀ t, I k t → ∃ t', body k t = some t' ∧ I (k + 1) t') :
    ∃ s', forLoop n body s = some s' ∧ I n s' := by
  induction n with
  | zero => exact ⟨s, rfl, h0⟩
  | succ n ih =>
    obtain ⟨s1, h1, hI⟩ := ih (fun k hk t ht => hstep k (Nat.lt_succ_of_lt hk) t ht)
    obtain ⟨s2, h2, hI2⟩ := hstep n (Nat.lt_succ_self n) s1 hI
    exact ⟨s2, by rw [forLoop_succ, h1]; exact h2, hI2⟩

theorem readRow_holds {toks : List Int} (htoks : ∀ v ∈ toks, inInt v) {rows cols i : Nat}
    (hi : i < rows) (k0 : Nat) {s0 : List Char} {mat0 : Matrix}
    (hs : Holds (toks.drop k0) s0) (hm : mat0.hasShape rows cols) :
    ∃ st, forLoop cols (fun j sj => readCell i j sj) (s0, mat0) = some st ∧
      Holds (toks.drop (k0 + cols)) st.1 ∧ st.2.hasShape rows cols ∧
      ∀ i' j', st.2.load i' j' =
        if i' = i ∧ j' < cols then (toks[k0 + j']? <|> mat0.load i' j') else mat0.load i' j' := by
  apply forLoop_inv cols (fun j sj => readCell i j sj)
    (fun j st => Holds (toks.drop (k0 + j)) st.1 ∧ st.2.hasShape rows cols ∧
      ∀ i' j', st.2.load i' j' =
        if i' = i ∧ j' < j then (toks[k0 + j']? <|> mat0.load i' j') else mat0.load i' j')
  · exact ⟨hs, hm, fun i' j' => by simp⟩
  · rintro j hj ⟨s, mat⟩ ⟨h1, h2, h3⟩
    obtain ⟨s', mat', hr, hh, hsh, hld⟩ :=
      readCell_holds (fun v hv => htoks v (List.mem_of_mem_drop hv)) h1 h2 hi hj
    refine ⟨(s', mat'), hr, ?_, hsh, ?_⟩
    · rw [List.tail_drop] at hh; exact hh
    · intro i' j'
      rw [hld, h3, h3]
      rw [List.head?_drop]
      by_cases e1 : i' = i
      · subst e1
        by_cases e2 : j' = j
        · subst e2; simp
        · by_cases e3 : j' < j
          · have : j' < j + 1 := by omega
            simp [e2, e3, this]
          · have : ¬ j' < j + 1 := by omega
            simp [e2, e3, this]
      · simp [e1]

theorem readCells_holds {toks : List Int} (htoks : ∀ v ∈ toks, inInt v) (rows cols : Int)
    {s0 : List Char} {mat0 : Matrix} (hs : Holds toks s0)
    (hm : mat0.hasShape rows.toNat cols.toNat) :
    ∃ st, readCells rows cols (s0, mat0) = some st ∧ st.2.hasShape rows.toNat cols.toNat ∧
      ∀ i j, i < rows.toNat → j < cols.toNat →
        st.2.load i j = (toks[i * cols.toNat + j]? <|> mat0.load i j) := by
  unfold readCells
  generalize rows.toNat = m at *
  generalize cols.toNat = p at *
  obtain ⟨st, hrun, _, hsh, hld⟩ := forLoop_inv m
    (fun i si => forLoop p (fun j sj => readCell i j sj) si)
    (fun i st => Holds (toks.drop (i * p)) st.1 ∧ st.2.hasShape m p ∧
      ∀ i' j', st.2.load i' j' =
        if i' < i ∧ j' < p then (toks[i' * p + j']? <|> mat0.load i' j')
        else mat0.load i' j')
    (s0, mat0) ⟨by simpa using hs, hm, fun i' j' => by simp⟩
    (by
      rintro i hi ⟨s, mat⟩ ⟨h1, h2, h3⟩
      obtain ⟨st, hr, hh, hsh, hld⟩ := readRow_holds htoks hi (i * p) h1 h2
      refine ⟨st, hr, ?_, hsh, ?_⟩
      · have : (i + 1) * p = i * p + p := by ring
        rw [this]; exact hh
      · intro i' j'
        rw [hld, h3]
        by_cases e1 : i' = i
        · subst e1
          by_cases e2 : j' < p <;> simp [e2]
        · by_cases e3 : i' < i
          · have : i' < i + 1 := by omega
            simp [e1, e3, this]
          · have : ¬ i' < i + 1 := by omega
            simp [e1, e3, this])
  refine ⟨st, hrun, hsh, ?_⟩
  intro i j hi hj
  rw [hld]; simp [hi, hj]

/-- The read loops never fail on a matrix of the dimensions they run over. -/
theorem readCells_total (rows cols : Int) (s0 : List Char) {mat0 : Matrix}
    (hm : mat0.hasShape rows.toNat cols.toNat) :
    ∃ st, readCells rows cols (s0, mat0) = some st ∧ st.2.hasShape rows.toNat cols.toNat := by
  unfold readCells
  generalize rows.toNat = m at *
  generalize cols.toNat = p at *
  apply forLoop_inv m _ (fun _ st => st.2.hasShape m p) (s0, mat0) hm
  rintro i hi ⟨s, mat⟩ h
  apply forLoop_inv p _ (fun _ st => st.2.hasShape m p) (s, mat) h
  rintro j hj ⟨s', mat'⟩ h'
  unfold readCell
  rcases hsc : scanInt s' with ⟨_ | v, rest⟩
  · exact ⟨(rest, mat'), rfl, h'⟩
  · obtain ⟨mat'', hst, hsh, _⟩ := Matrix.store_of_shape v h' hi hj
    exact ⟨(rest, mat''), by simp [hst], hsh⟩

/-- What `readMatrix` does on any non-empty file when allocation succeeds. -/
theorem readMatrix_run (env : Env) (hmal : ∀ size, env.malloc size = true) (slot : Nat)
    (name : String) (c : Char) (cs : List Char) (hfile : env.files name = some (c :: cs))
    (r0 c0 : Int) :
    ∃ mat, readMatrix env slot name r0 c0 =
        ⟨[Event.fopenRead name], Outcome.ok (mat,
          (sscanfHeader (fgets 256 (c :: cs)).1 r0 c0).1,
          (sscanfHeader (fgets 256 (c :: cs)).1 r0 c0).2)⟩ ∧
      mat.hasShape (sscanfHeader (fgets 256 (c :: cs)).1 r0 c0).1.toNat
        (sscanfHeader (fgets 256 (c :: cs)).1 r0 c0).2.toNat := by
  obtain ⟨st, hst, hsh⟩ := readCells_total (sscanfHeader (fgets 256 (c :: cs)).1 r0 c0).1
    (sscanfHeader (fgets 256 (c :: cs)).1 r0 c0).2 (fgets 256 (c :: cs)).2
    (freshMatrix_hasShape env slot _ _)
  refine ⟨st.2, ?_, hsh⟩
  simp only [readMatrix, hfile, Run.bind_eq, Run.bind_emit, allocateMatrix_ok env hmal,
    Run.bind_ok, hst, ofOption, Run.pure, List.append_nil, List.nil_append]

/-- What `readMatrix` does on a file whose body holds the tokens `toks`. -/
theorem readMatrix_holds (env : Env) (hmal : ∀ size, env.malloc size = true) (slot : Nat)
    (name : String) (c : Char) (cs : List Char) (hfile : env.files name = some (c :: cs))
    (r0 c0 : Int) {toks : List Int} (htoks : ∀ v ∈ toks, inInt v)
    (hs : Holds toks (fgets 256 (c :: cs)).2) :
    ∃ mat, readMatrix env slot name r0 c0 =
        ⟨[Event.fopenRead name], Outcome.ok (mat,
          (sscanfHeader (fgets 256 (c :: cs)).1 r0 c0).1,
          (sscanfHeader (fgets 256 (c :: cs)).1 r0 c0).2)⟩ ∧
      mat.hasShape (sscanfHeader (fgets 256 (c :: cs)).1 r0 c0).1.toNat
        (sscanfHeader (fgets 256 (c :: cs)).1 r0 c0).2.toNat ∧
      ∀ i j, i < (sscanfHeader (fgets 256 (c :: cs)).1 r0 c0).1.toNat →
        j < (sscanfHeader (fgets 256 (c :: cs)).1 r0 c0).2.toNat →
        mat.load i j =
          (toks[i * (sscanfHeader (fgets 256 (c :: cs)).1 r0 c0).2.toNat + j]? <|>
            some (wrapInt (env.junk slot i j))) := by
  obtain ⟨st, hst, hsh, hld⟩ := readCells_holds htoks
    (sscanfHeader (fgets 256 (c :: cs)).1 r0 c0).1
    (sscanfHeader (fgets 256 (c :: cs)).1 r0 c0).2 hs
    (freshMatrix_hasShape env slot _ _)
  refine ⟨st.2, ?_, hsh, ?_⟩
  · simp only [readMatrix, hfile, Run.bind_eq, Run.bind_emit, allocateMatrix_ok env hmal,
      Run.bind_ok, hst, ofOption, Run.pure, List.append_nil, List.nil_append]
  · intro i j hi hj
    rw [hld i j hi hj, freshMatrix_load env slot hi hj]

theorem matchLiteral_some {lit s t : List Char} (h : matchLiteral lit s = some t) :
    s = lit ++ t := by
  induction lit generalizing s with
  | nil =>
    cases s <;> simp only [matchLiteral, Option.some.injEq] at h <;> simp [h]
  | cons l ls ih =>
    cases s with
    | nil => simp [matchLiteral] at h
    | cons c cs =>
      simp only [matchLiteral] at h
      split at h
      · rename_i hlc
        rw [hlc, ih h]; rfl
      · cases h

theorem matchLiteral_none {lit s : List Char} (h : matchLiteral lit s = none) :
    ¬ lit <+: s := by
  rintro ⟨t, rfl⟩
  rw [matchLiteral_append] at h
  cases h

theorem scanNumber_inInt {negative : Bool} {s : List Char} {v : Int}
    (h : (scanNumber negative s).1 = some v) : inInt v := by
  unfold scanNumber at h
  split at h
  · cases h
  · split at h
    · simp only [Option.some.injEq] at h
      rw [← h]; exact inInt_wrapInt _
    · cases h

theorem scanInt_inInt {s : List Char} {v : Int} (h : (scanInt s).1 = some v) : inInt v := by
  unfold scanInt at h
  split at h
  · cases h
  · split at h
    · exact scanNumber_inInt h
    · split at h <;> exact scanNumber_inInt h

/-- What the header conversion leaves in `*rows` and `*cols`, stage by stage:
a target is assigned exactly when the conversion reaches it. -/
theorem sscanfHeader_cases (line : List Char) (r0 c0 : Int) :
    (¬ "row=".toList <+: line → sscanfHeader line r0 c0 = (r0, c0)) ∧
    ∀ s1, line = "row=".toList ++ s1 →
      ((scanInt s1).1 = none → sscanfHeader line r0 c0 = (r0, c0)) ∧
      ∀ r, (scanInt s1).1 = some r →
        (sscanfHeader line r0 c0).1 = r ∧
        (¬ "col=".toList <+: skipSpaces (scanInt s1).2 →
          (sscanfHeader line r0 c0).2 = c0) ∧
        ∀ s3, skipSpaces (scanInt s1).2 = "col=".toList ++ s3 →
          ((scanInt s3).1 = none → (sscanfHeader line r0 c0).2 = c0) ∧
          ∀ c, (scanInt s3).1 = some c → (sscanfHeader line r0 c0).2 = c := by
  refine ⟨?_, ?_⟩
  · intro hp
    rcases hm : matchLiteral "row=".toList line with _ | s1
    · simp only [sscanfHeader, hm]
    · exact absurd ⟨s1, (matchLiteral_some hm).symm⟩ hp
  · intro s1 hline
    have hm : matchLiteral "row=".toList line = some s1 := by
      rw [hline]; exact matchLiteral_append _ _
    rcases h1 : scanInt s1 with ⟨_ | r, s2⟩
    · refine ⟨fun _ => by simp only [sscanfHeader, hm, h1], ?_⟩
      intro r hr
      cases hr
    · refine ⟨(fun hn => by cases hn), ?_⟩
      intro r' hr
      simp only [Option.some.injEq] at hr
      subst hr
      rcases hm2 : matchLiteral "col=".toList (skipSpaces s2) with _ | s3
      · refine ⟨by simp only [sscanfHeader, hm, h1, hm2], fun _ => by
          simp only [sscanfHeader, hm, h1, hm2], ?_⟩
        intro s3 hs3
        rw [hs3, matchLiteral_append] at hm2
        cases hm2
      · have hs2 := matchLiteral_some hm2
        rcases h3 : scanInt s3 with ⟨_ | c, s4⟩
        · refine ⟨by simp only [sscanfHeader, hm, h1, hm2, h3], fun hp => ?_, ?_⟩
          · exact absurd ⟨s3, hs2.symm⟩ hp
          · intro s3' hs3'
            have e : s3' = s3 := by
              rw [hs2] at hs3'
              exact (List.append_cancel_left hs3').symm
            subst e
            refine ⟨fun _ => by simp only [sscanfHeader, hm, h1, hm2, h3], ?_⟩
            intro c hc
            rw [h3] at hc
            cases hc
        · refine ⟨by simp only [sscanfHeader, hm, h1, hm2, h3], fun hp => ?_, ?_⟩
          · exact absurd ⟨s3, hs2.symm⟩ hp
          · intro s3' hs3'
            have e : s3' = s3 := by
              rw [hs2] at hs3'
              exact (List.append_cancel_left hs3').symm
            subst e
            refine ⟨(fun hn => by rw [h3] at hn; cases hn), ?_⟩
            intro c' hc
            rw [h3] at hc
            simp only [Option.some.injEq] at hc
            subst hc
            simp only [sscanfHeader, hm, h1, hm2, h3]

theorem sscanfHeader_inInt (line : List Char) {r0 c0 : Int} (hr0 : inInt r0)
    (hc0 : inInt c0) :
    inInt (sscanfHeader line r0 c0).1 ∧ inInt (sscanfHeader line r0 c0).2 := by
  rcases hm : matchLiteral "row=".toList line with _ | s1
  · simp only [sscanfHeader, hm]; exact ⟨hr0, hc0⟩
  · rcases h1 : scanInt s1 with ⟨_ | r, s2⟩
    · simp only [sscanfHeader, hm, h1]; exact ⟨hr0, hc0⟩
    · have hr : inInt r := scanInt_inInt (s := s1) (by rw [h1])
      rcases hm2 : matchLiteral "col=".toList (skipSpaces s2) with _ | s3
      · simp only [sscanfHeader, hm, h1, hm2]; exact ⟨hr, hc0⟩
      · rcases h3 : scanInt s3 with ⟨_ | c, s4⟩
        · simp only [sscanfHeader, hm, h1, hm2, h3]; exact ⟨hr, hc0⟩
        · simp only [sscanfHeader, hm, h1, hm2, h3]
          exact ⟨hr, scanInt_inInt (s := s3) (by rw [h3])⟩

/-- The request for a negative number of objects is a request for more than
`PTRDIFF_MAX` bytes. -/
theorem mallocSize_neg {n : Int} (hn : inInt n) (hneg : n < 0) :
    9223372036854775808 ≤ mallocSize n 8 ∧ 9223372036854775808 ≤ mallocSize n 4 := by
  unfold inInt at hn
  unfold mallocSize
  omega

theorem allocateRows_ok_of (env : Env) (slot : Nat) (cols : Int)
    (hm : env.malloc (mallocSize cols 4) = true) :
    ∀ n, allocateRows env slot cols n = ⟨[], Outcome.ok (freshMatrix env slot n cols.toNat)⟩ := by
  intro n
  induction n with
  | zero => rfl
  | succ n ih =>
    simp only [allocateRows, ih, hm, if_true, Run.bind_eq, Run.bind_ok, Run.pure]
    simp [freshMatrix, List.range_succ]

theorem allocateRows_fail (env : Env) (slot : Nat) (cols : Int)
    (hm : env.malloc (mallocSize cols 4) = false) :
    ∀ n, 0 < n → allocateRows env slot cols n =
      ⟨[Event.stdout "Memory allocation error\n"], Outcome.exit 1⟩ := by
  intro n hn
  induction n with
  | zero => exact absurd hn (Nat.lt_irrefl 0)
  | succ n ih =>
    cases n with
    | zero =>
      simp only [allocateRows, hm, Run.bind_eq, Run.bind_pure, Run.bind_emit, exitWith,
        Bool.false_eq_true, if_false]
    | succ k =>
      have hk := ih (Nat.succ_pos k)
      rw [allocateRows, Run.bind_eq, hk]
      rfl

/-- The four ways `readMatrix` ends on a non-empty file, by what the
allocator answers to the two requests. -/
theorem readMatrix_outcomes (env : Env) (slot : Nat) (name : String) (c : Char)
    (cs : List Char) (hfile : env.files name = some (c :: cs)) (r0 c0 rows cols : Int)
    (hd : sscanfHeader (fgets 256 (c :: cs)).1 r0 c0 = (rows, cols)) :
    (env.malloc (mallocSize rows 8) = false →
      readMatrix env slot name r0 c0 =
        ⟨[Event.fopenRead name, Event.stdout "Memory allocation error\n"],
          Outcome.exit 1⟩) ∧
    (env.malloc (mallocSize rows 8) = true → rows ≤ 0 →
      readMatrix env slot name r0 c0 =
        ⟨[Event.fopenRead name], Outcome.ok ([], rows, cols)⟩) ∧
    (env.malloc (mallocSize rows 8) = true → 0 < rows →
      env.malloc (mallocSize cols 4) = false →
      readMatrix env slot name r0 c0 =
        ⟨[Event.fopenRead name, Event.stdout "Memory allocation error\n"],
          Outcome.exit 1⟩) ∧
    (env.malloc (mallocSize rows 8) = true → 0 < rows →
      env.malloc (mallocSize cols 4) = true →
      ∃ mat, readMatrix env slot name r0 c0 =
          ⟨[Event.fopenRead name], Outcome.ok (mat, rows, cols)⟩ ∧
        mat.hasShape rows.toNat cols.toNat) := by
  refine ⟨?_, ?_, ?_, ?_⟩
  · intro h1
    simp only [readMatrix, hfile, hd, Run.bind_eq, Run.bind_emit, allocateMatrix, h1,
      Bool.false_eq_true, if_false, exitWith]
    rfl
  · intro h1 hle
    have hz : rows.toNat = 0 := Int.toNat_eq_zero.2 hle
    simp only [readMatrix, hfile, hd, Run.bind_eq, Run.bind_emit, allocateMatrix, h1, if_true,
      hz, allocateRows, readCells, forLoop, Run.bind_pure, ofOption, Run.pure, Run.bind_ok,
      List.append_nil, List.nil_append]
  · intro h1 hpos h2
    have hz : 0 < rows.toNat := by omega
    simp only [readMatrix, hfile, hd, Run.bind_eq, Run.bind_emit, allocateMatrix, h1, if_true,
      allocateRows_fail env slot cols h2 _ hz]
    rfl
  · intro h1 _ h2
    obtain ⟨st, hst, hsh⟩ := readCells_total rows cols (fgets 256 (c :: cs)).2
      (freshMatrix_hasShape env slot rows.toNat cols.toNat)
    refine ⟨st.2, ?_, hsh⟩
    simp only [readMatrix, hfile, hd, Run.bind_eq, Run.bind_emit, allocateMatrix, h1, if_true,
      allocateRows_ok_of env slot cols h2, Run.bind_ok, hst, ofOption, Run.pure,
      List.append_nil, List.nil_append]

/-! ### Runs of the three methods -/

theorem forRun_succ {σ : Type} (n : Nat) (body : Nat → σ → Run σ) (s : σ) :
    forRun (n + 1) body s = Run.bind (forRun n body s) (body n) := rfl

/-- Invariant rule for `forRun` when every iteration completes normally. -/
theorem forRun_ok {σ : Type} (n : Nat) (body : Nat → σ → Run σ) (I : Nat → σ → Prop)
    (ev : Nat → List Event) (s : σ) (h0 : I 0 s)
    (hstep : ∀ k < n, ∀ t, I k t → ∃ t', body k t = ⟨ev k, Outcome.ok t'⟩ ∧ I (k + 1) t') :
    ∃ s', forRun n body s = ⟨(List.range n).flatMap ev, Outcome.ok s'⟩ ∧ I n s' := by
  induction n with
  | zero => exact ⟨s, rfl, h0⟩
  | succ n ih =>
    obtain ⟨s1, h1, hI⟩ := ih (fun k hk t ht => hstep k (Nat.lt_succ_of_lt hk) t ht)
    obtain ⟨s2, h2, hI2⟩ := hstep n (Nat.lt_succ_self n) s1 hI
    refine ⟨s2, ?_, hI2⟩
    rw [forRun_succ, h1, Run.bind_ok, h2]
    simp [List.range_succ, List.flatMap_append]

theorem writeMatrix_run (env : Env) (hw : ∀ name, env.writable name = true) (name : String)
    {mat : Matrix} {m p : Nat} (h : mat.hasShape m p) :
    writeMatrix env name mat m p =
      ⟨[Event.fopenWrite name, Event.fileWritten name (headerText m p ++ bodyText mat)],
        Outcome.ok ()⟩ := by
  simp only [writeMatrix, hw, if_true, matrixText_eq h, Run.bind_eq, Run.bind_emit, ofOption,
    Run.bind_pure]
  rfl

theorem method1_run (env : Env) (henv : env.permissive) (pre : String) {g : Globals}
    {m n p : Nat} (hg : WellFormed g m n p) :
    ∃ g', multiplyMatrix g = some g' ∧
      Fills MatId.C1 (fun i j => decide (i < m ∧ j < p)) (matTrace MatId.C1 n p m) g g' ∧
      method1 env pre m p g =
        ⟨method1Events env pre (headerText m p ++ bodyText g'.C1), Outcome.ok g'⟩ := by
  obtain ⟨hmal, hcr, hjo, hwr⟩ := henv
  obtain ⟨g', hrun, hf⟩ := multiplyMatrix_fills hg
  have hg' := hf.wellFormed (Or.inl rfl) hg
  refine ⟨g', hrun, hf, ?_⟩
  have hw := writeMatrix_run env hwr (pre ++ "_per_matrix.txt") hg'.2.2.2.2.2.2.1
  simp only [method1, hcr, hjo, if_true, ThreadStart.run, hrun, Run.bind_eq, Run.bind_emit,
    Run.bind_gettimeofday, ofOption, Run.bind_pure, hg'.1, hg'.2.2.2.1, hw, Run.bind_ok, Run.pure, method1Events,
    List.cons_append, List.nil_append, List.append_nil]

theorem method2_run (env : Env) (henv : env.permissive) (pre : String) {g : Globals}
    {m n p : Nat} (hg : WellFormed g m n p) :
    ∃ g', forLoop m (fun i s => multiplyRow ⟨i⟩ s) g = some g' ∧
      Fills MatId.C2 (fun i j => decide (i < m ∧ j < p)) (matTrace MatId.C2 n p m) g g' ∧
      method2 env pre m p g =
        ⟨method2Events env pre m (headerText m p ++ bodyText g'.C2), Outcome.ok g'⟩ := by
  obtain ⟨hmal, hcr, hjo, hwr⟩ := henv
  obtain ⟨g', hcreate, hloop⟩ := forRun_ok m (createRow env)
    (fun i s => forLoop i (fun i s => multiplyRow ⟨i⟩ s) g = some s)
    (fun i => [Event.threadCreate 2 i (ThreadStart.multiplyRow ⟨i⟩)]) g rfl
    (by
      intro k hk t ht
      obtain ⟨t', ht', _⟩ := rowWorkers_fills hg (k + 1) hk
      have hstep : multiplyRow ⟨k⟩ t = some t' := by
        rw [forLoop_succ, ht] at ht'; exact ht'
      refine ⟨t', ?_, ht'⟩
      simp only [createRow, hmal, hcr, if_true, ThreadStart.run, hstep, Run.bind_eq,
        Run.bind_emit, ofOption, Run.pure])
  obtain ⟨u, hjoin, _⟩ := forRun_ok m (joinRow env) (fun _ _ => True)
    (fun i => [Event.threadJoin 2 i]) () trivial
    (by
      intro k _ t _
      refine ⟨(), ?_, trivial⟩
      simp only [joinRow, hjo, if_true, emit])
  obtain ⟨g'', hrun, hf⟩ := rowWorkers_fills hg m (Nat.le_refl m)
  have e : g'' = g' := Option.some.inj (hrun.symm.trans hloop)
  subst e
  have hg' := hf.wellFormed (Or.inr (Or.inl rfl)) hg
  refine ⟨g'', hrun, hf, ?_⟩
  have hw := writeMatrix_run env hwr (pre ++ "_per_row.txt") hg'.2.2.2.2.2.2.2.1
  simp only [method2, hg.A_rows_toNat, hcreate, hjoin, Run.bind_eq, Run.bind_ok, Run.bind_emit, Run.bind_gettimeofday,
    hg'.1, hg'.2.2.2.1, hw, hg.1, Run.pure, method2Events, List.append_nil, List.cons_append,
    List.nil_append, List.append_assoc, Int.toNat_ofNat]

theorem wrapInt_mul_of_lt {m p : Nat} (h : m * p < 2147483648) :
    wrapInt ((m : Int) * (p : Int)) = ((m * p : Nat) : Int) := by
  have : inInt (((m * p : Nat) : Int)) := by
    unfold inInt
    omega
  rw [← Nat.cast_mul]
  exact wrapInt_of_inInt this

theorem method3_run (env : Env) (henv : env.permissive) (pre : String) {g : Globals}
    {m n p : Nat} (hg : WellFormed g m n p) (hmp : m * p < 2147483648) :
    ∃ g', forLoop m (fun i s => forLoop p (fun j s' => multiplyElement ⟨i, j⟩ s') s) g
        = some g' ∧
      Fills MatId.C3 (fun i j => decide (i < m ∧ j < p)) (matTrace MatId.C3 n p m) g g' ∧
      method3 env pre m p g =
        ⟨method3Events env pre m p (headerText m p ++ bodyText g'.C3),
          Outcome.ok (g', m * p)⟩ := by
  obtain ⟨hmal, hcr, hjo, hwr⟩ := henv
  have o3 : MatId.C3.isOut := Or.inr (Or.inr rfl)
  obtain ⟨st, hcreate, hloop, hcount⟩ := forRun_ok m
    (fun i si => forRun p (fun j sj => createElement env (m * p) i j sj) si)
    (fun i (st : Globals × Nat) =>
      forLoop i (fun i s => forLoop p (fun j s' => multiplyElement ⟨i, j⟩ s') s) g = some st.1 ∧
        st.2 = i * p)
    (fun i => (List.range p).flatMap (fun j =>
      [Event.threadCreate 3 (i * p + j) (ThreadStart.multiplyElement ⟨i, j⟩)]))
    (g, 0) ⟨rfl, by simp⟩
    (by
      rintro i hi ⟨gi, ti⟩ ⟨hgi, hti⟩
      simp only at hgi hti
      obtain ⟨gi', hgi', hfi⟩ := elementWorkers_fills hg i (Nat.le_of_lt hi)
      have e : gi' = gi := Option.some.inj (hgi'.symm.trans hgi)
      subst e
      have hwf := hfi.wellFormed o3 hg
      obtain ⟨st', hrow, hI, hc⟩ := forRun_ok p
        (fun j sj => createElement env (m * p) i j sj)
        (fun j (sj : Globals × Nat) =>
          forLoop j (fun j s' => multiplyElement ⟨i, j⟩ s') gi' = some sj.1 ∧ sj.2 = i * p + j)
        (fun j => [Event.threadCreate 3 (i * p + j) (ThreadStart.multiplyElement ⟨i, j⟩)])
        (gi', ti) ⟨rfl, by simpa using hti⟩
        (by
          rintro j hj ⟨gj, tj⟩ ⟨hgj, htj⟩
          simp only at hgj htj
          obtain ⟨gj', hgj', _⟩ := rowLoop_fills hwf o3 hi (j + 1) hj
          have hstep : multiplyElement ⟨i, j⟩ gj = some gj' := by
            have h' : forLoop (j + 1) (fun j s' => multiplyElement ⟨i, j⟩ s') gi' = some gj' :=
              hgj'
            rw [forLoop_succ, hgj] at h'; exact h'
          have hcap : tj < m * p := by
            rw [htj]
            calc i * p + j < i * p + p := by omega
              _ = (i + 1) * p := by ring
              _ ≤ m * p := Nat.mul_le_mul_right p hi
          subst htj
          refine ⟨(gj', i * p + j + 1), ?_, ?_, ?_⟩
          · simp only [createElement, hmal, hcap, hcr, and_self, if_true, ThreadStart.run,
              hstep, Run.bind_eq, Run.bind_emit, ofOption, Run.bind_pure, Run.pure, Run.bind_ok,
              List.nil_append]
          · exact hgj'
          · simp only; ring)
      refine ⟨st', hrow, ?_, ?_⟩
      · rw [forLoop_succ, hgi]; exact hI
      · rw [hc]; ring)
  obtain ⟨g', t⟩ := st
  simp only at hloop hcount
  obtain ⟨u, hjoin, _⟩ := forRun_ok (m * p) (joinElement env (m * p)) (fun _ _ => True)
    (fun t => [Event.threadJoin 3 t]) () trivial
    (by
      intro k hk t _
      refine ⟨(), ?_, trivial⟩
      simp only [joinElement, hk, hjo, if_true, emit])
  obtain ⟨g'', hrun, hf⟩ := elementWorkers_fills hg m (Nat.le_refl m)
  have e : g'' = g' := Option.some.inj (hrun.symm.trans hloop)
  subst e
  subst hcount
  have hg' := hf.wellFormed o3 hg
  refine ⟨g'', hrun, hf, ?_⟩
  have hw := writeMatrix_run env hwr (pre ++ "_per_element.txt") hg'.2.2.2.2.2.2.2.2
  have htot : wrapInt ((m : Int) * (p : Int)) = ((m * p : Nat) : Int) :=
    wrapInt_mul_of_lt hmp
  simp only [method3, htot, hmal, if_true, Int.toNat_ofNat, hg.A_rows_toNat, hg.B_cols_toNat,
    hcreate, hjoin, Run.bind_eq, Run.bind_ok, Run.bind_emit, Run.bind_gettimeofday, hg'.1, hg'.2.2.2.1, hw, Run.pure,
    method3Events, List.append_nil, List.cons_append, List.nil_append, List.append_assoc]

/-! ### Write sets and thread counts -/

theorem writesOf_append (l1 l2 : List Access) :
    writesOf (l1 ++ l2) = writesOf l1 ++ writesOf l2 := by
  induction l1 with
  | nil => rfl
  | cons a l ih => cases a <;> simp [writesOf, ih]

theorem writesOf_dotReads (i j k : Nat) : writesOf (dotReads i j k) = [] := by
  induction k with
  | zero => rfl
  | succ k ih => simp [dotReads, writesOf_append, ih, writesOf]

theorem writesOf_cellTrace (out : MatId) (n i j : Nat) :
    writesOf (cellTrace out n i j) = [(out, i, j)] := by
  simp [cellTrace, writesOf_append, writesOf_dotReads, writesOf]

theorem writesOf_rowTrace (out : MatId) (n i j : Nat) :
    writesOf (rowTrace out n i j) = (List.range j).flatMap (fun j' => [(out, i, j')]) := by
  induction j with
  | zero => rfl
  | succ j ih =>
    simp [rowTrace, writesOf_append, ih, writesOf_cellTrace, List.range_succ,
      List.flatMap_append]

theorem writesOf_matTrace (out : MatId) (n p i : Nat) :
    writesOf (matTrace out n p i) =
      (List.range i).flatMap (fun i' => (List.range p).flatMap (fun j' => [(out, i', j')])) := by
  induction i with
  | zero => rfl
  | succ i ih =>
    simp [matTrace, writesOf_append, ih, writesOf_rowTrace, List.range_succ,
      List.flatMap_append]

theorem WellFormed.clearLog {g : Globals} {m n p : Nat} (hg : WellFormed g m n p) :
    WellFormed { g with log := [] } m n p := hg

theorem writeSet_multiplyMatrix {g : Globals} {m n p : Nat} (hg : WellFormed g m n p) :
    ThreadStart.multiplyMatrix.writeSet g =
      (List.range m).flatMap (fun i => (List.range p).flatMap (fun j => [(MatId.C1, i, j)])) := by
  obtain ⟨g', hrun, hf⟩ := multiplyMatrix_fills hg.clearLog
  simp only [ThreadStart.writeSet, ThreadStart.run, hrun, hf.log, List.nil_append,
    writesOf_matTrace]

theorem writeSet_multiplyRow {g : Globals} {m n p i : Nat} (hg : WellFormed g m n p)
    (hi : i < m) :
    (ThreadStart.multiplyRow ⟨i⟩).writeSet g =
      (List.range p).flatMap (fun j => [(MatId.C2, i, j)]) := by
  obtain ⟨g', hrun, hf⟩ := multiplyRow_fills hg.clearLog hi
  simp only [ThreadStart.writeSet, ThreadStart.run, hrun, hf.log, List.nil_append,
    writesOf_rowTrace]

theorem writeSet_multiplyElement {g : Globals} {m n p i j : Nat} (hg : WellFormed g m n p)
    (hi : i < m) (hj : j < p) :
    (ThreadStart.multiplyElement ⟨i, j⟩).writeSet g = [(MatId.C3, i, j)] := by
  obtain ⟨g', hrun, hf⟩ := multiplyElement_fills hg.clearLog hi hj
  simp only [ThreadStart.writeSet, ThreadStart.run, hrun, hf.log, List.nil_append,
    writesOf_cellTrace]

theorem filterMap_flatMap_range {α β : Type} (g : α → Option β) (f : Nat → List α) (m : Nat) :
    ((List.range m).flatMap f).filterMap g = (List.range m).flatMap (fun i => (f i).filterMap g) := by
  induction m with
  | zero => rfl
  | succ m ih => simp [List.range_succ, List.flatMap_append, List.filterMap_append, ih]

theorem flatMap_range_nil {α : Type} (m : Nat) :
    (List.range m).flatMap (fun _ => ([] : List α)) = [] := by
  induction m with
  | zero => rfl
  | succ m ih => simp [List.range_succ, List.flatMap_append, ih]

theorem length_flatMap_range_singleton {α : Type} (f : Nat → α) (m : Nat) :
    ((List.range m).flatMap (fun i => [f i])).length = m := by
  induction m with
  | zero => rfl
  | succ m ih => simp [List.range_succ, List.flatMap_append, ih]

theorem length_flatMap_range_grid {α : Type} (f : Nat → Nat → α) (m p : Nat) :
    ((List.range m).flatMap (fun i => (List.range p).flatMap (fun j => [f i j]))).length
      = m * p := by
  induction m with
  | zero => simp
  | succ m ih =>
    simp only [List.range_succ, List.flatMap_append, List.length_append, ih,
      List.flatMap_cons, List.flatMap_nil, List.append_nil, length_flatMap_range_singleton]
    ring

/-- Row-major numbering of a grid enumerates `0 .. m * p - 1`. -/
theorem flatMap_range_grid_index (m p : Nat) :
    (List.range m).flatMap (fun i => (List.range p).flatMap (fun j => [i * p + j]))
      = List.range (m * p) := by
  have hrow : ∀ (a p : Nat), (List.range p).flatMap (fun j => [a + j]) =
      (List.range p).map (a + ·) := by
    intro a p
    induction p with
    | zero => rfl
    | succ p ih => simp [List.range_succ, List.flatMap_append, ih]
  induction m with
  | zero => simp
  | succ m ih =>
    have e : (m + 1) * p = m * p + p := by ring
    rw [e, List.range_add (m * p) p, ← ih, ← hrow]
    simp [List.range_succ, List.flatMap_append]

theorem countP_flatMap_range {α : Type} (q : α → Bool) (f : Nat → List α) (i m : Nat)
    (h1 : (f i).countP q = 1) (h0 : ∀ i', i' < m → i' ≠ i → (f i').countP q = 0) :
    ∀ k ≤ m, ((List.range k).flatMap f).countP q = if i < k then 1 else 0 := by
  intro k
  induction k with
  | zero => intro _; simp
  | succ k ih =>
    intro hk
    simp only [List.range_succ, List.flatMap_append, List.countP_append, ih (Nat.le_of_lt hk),
      List.flatMap_cons, List.flatMap_nil, List.append_nil]
    by_cases e : k = i
    · subst e; simp [h1]
    · rw [h0 k hk e]
      by_cases h : i < k
      · have : i < k + 1 := by omega
        simp [h, this]
      · have : ¬ i < k + 1 := by omega
        simp [h, this]

theorem pairwise_of_countP_le_one {α β : Type} (ws : α → List β) (q : β → α → Bool)
    (hq : ∀ x u, q x u = true ↔ x ∈ ws u)
    (l : List α) (h : ∀ x, l.countP (q x) ≤ 1) :
    l.Pairwise (fun u v => ∀ x ∈ ws u, x ∉ ws v) := by
  induction l with
  | nil => exact List.Pairwise.nil
  | cons u rest ih =>
    refine List.Pairwise.cons ?_ (ih ?_)
    · intro v hv x hxu hxv
      have h1 := h x
      rw [List.countP_cons] at h1
      have hpos : 0 < rest.countP (q x) :=
        List.countP_pos_iff.2 ⟨v, hv, (hq x v).2 hxv⟩
      simp only [(hq x u).2 hxu, if_true] at h1
      omega
    · intro x
      have h1 := h x
      rw [List.countP_cons] at h1
      omega

theorem exactCover_of {units : List ThreadStart} {g : Globals} {out : MatId} {rows cols : Nat}
    (ha : ∀ u ∈ units, ∀ x ∈ u.writeSet g, ∃ i j, i < rows ∧ j < cols ∧ x = (out, i, j))
    (hb : ∀ i j, i < rows → j < cols →
      units.countP (fun u => decide ((out, i, j) ∈ u.writeSet g)) = 1) :
    ExactCover units g out rows cols := by
  refine ⟨ha, hb, pairwise_of_countP_le_one (fun u => u.writeSet g)
    (fun x u => decide (x ∈ u.writeSet g)) (fun x u => by simp) units ?_⟩
  intro x
  show units.countP (fun u => decide (x ∈ u.writeSet g)) ≤ 1
  by_cases h : ∃ i j, i < rows ∧ j < cols ∧ x = (out, i, j)
  · obtain ⟨i, j, hi, hj, rfl⟩ := h
    rw [hb i j hi hj]
  · have : units.countP (fun u => decide (x ∈ u.writeSet g)) = 0 := by
      rw [List.countP_eq_zero]
      intro u hu hx
      exact h (ha u hu x (by simpa using hx))
    omega

theorem exactCover_whole {g : Globals} {m n p : Nat} (hg : WellFormed g m n p) :
    ExactCover [ThreadStart.multiplyMatrix] g MatId.C1 m p := by
  have hws := writeSet_multiplyMatrix hg
  apply exactCover_of
  · intro u hu x hx
    rw [List.mem_singleton.1 hu, hws] at hx
    simp only [List.mem_flatMap, List.mem_range, List.mem_singleton] at hx
    obtain ⟨i, hi, j, hj, rfl⟩ := hx
    exact ⟨i, j, hi, hj, rfl⟩
  · intro i j hi hj
    have : (MatId.C1, i, j) ∈ ThreadStart.multiplyMatrix.writeSet g := by
      rw [hws]
      simp only [List.mem_flatMap, List.mem_range, List.mem_singleton]
      exact ⟨i, hi, j, hj, rfl⟩
    simp [List.countP_cons, this]

theorem exactCover_rows {g : Globals} {m n p : Nat} (hg : WellFormed g m n p) :
    ExactCover ((List.range m).flatMap (fun i => [ThreadStart.multiplyRow ⟨i⟩])) g
      MatId.C2 m p := by
  have hmem : ∀ i' < m, ∀ x, x ∈ (ThreadStart.multiplyRow ⟨i'⟩).writeSet g ↔
      ∃ j, j < p ∧ x = (MatId.C2, i', j) := by
    intro i' hi' x
    rw [writeSet_multiplyRow hg hi']
    simp only [List.mem_flatMap, List.mem_range, List.mem_singleton]
  apply exactCover_of
  · intro u hu x hx
    simp only [List.mem_flatMap, List.mem_range, List.mem_singleton] at hu
    obtain ⟨i', hi', rfl⟩ := hu
    obtain ⟨j, hj, rfl⟩ := (hmem i' hi' x).1 hx
    exact ⟨i', j, hi', hj, rfl⟩
  · intro i j hi hj
    have := countP_flatMap_range
      (fun u => decide ((MatId.C2, i, j) ∈ ThreadStart.writeSet u g))
      (fun i => [ThreadStart.multiplyRow ⟨i⟩]) i m
      (by
        have : (MatId.C2, i, j) ∈ (ThreadStart.multiplyRow ⟨i⟩).writeSet g :=
          (hmem i hi _).2 ⟨j, hj, rfl⟩
        simp [List.countP_cons, this])
      (by
        intro i' hi' hne
        have : (MatId.C2, i, j) ∉ (ThreadStart.multiplyRow ⟨i'⟩).writeSet g := by
          intro h
          obtain ⟨j', _, he⟩ := (hmem i' hi' _).1 h
          simp only [Prod.mk.injEq, true_and] at he
          exact hne he.1.symm
        simp [List.countP_cons, this])
      m (Nat.le_refl m)
    rw [this]; simp [hi]

theorem exactCover_elements {g : Globals} {m n p : Nat} (hg : WellFormed g m n p) :
    ExactCover ((List.range m).flatMap (fun i => (List.range p).flatMap (fun j =>
      [ThreadStart.multiplyElement ⟨i, j⟩]))) g MatId.C3 m p := by
  apply exactCover_of
  · intro u hu x hx
    simp only [List.mem_flatMap, List.mem_range, List.mem_singleton] at hu
    obtain ⟨i', hi', j', hj', rfl⟩ := hu
    rw [writeSet_multiplyElement hg hi' hj'] at hx
    exact ⟨i', j', hi', hj', List.mem_singleton.1 hx⟩
  · intro i j hi hj
    have hrow := countP_flatMap_range
      (fun u => decide ((MatId.C3, i, j) ∈ ThreadStart.writeSet u g))
      (fun j' => [ThreadStart.multiplyElement ⟨i, j'⟩]) j p
      (by simp [List.countP_cons, writeSet_multiplyElement hg hi hj])
      (by
        intro j' hj' hne
        have : ¬ j = j' := fun h => hne h.symm
        simp [List.countP_cons, writeSet_multiplyElement hg hi hj', this])
      p (Nat.le_refl p)
    have := countP_flatMap_range
      (fun u => decide ((MatId.C3, i, j) ∈ ThreadStart.writeSet u g))
      (fun i' => (List.range p).flatMap (fun j' => [ThreadStart.multiplyElement ⟨i', j'⟩])) i m
      (by rw [hrow]; simp [hj])
      (by
        intro i' hi' hne
        rw [List.countP_eq_zero]
        intro u hu
        simp only [List.mem_flatMap, List.mem_range, List.mem_singleton] at hu
        obtain ⟨j', hj', rfl⟩ := hu
        have : ¬ i = i' := fun h => hne h.symm
        simp [writeSet_multiplyElement hg hi' hj', this])
      m (Nat.le_refl m)
    rw [this]; simp [hi]

/-! ### Claims on the workers and their dispatch -/

/-- C1: for an `m x n` matrix `A` and an `n x p` matrix `B` whose products
and partial sums all fit the `int` range, running `multiplyMatrix` once,
then `multiplyRow` once for each row `0 .. m-1`, then `multiplyElement` once
for each cell `(i, j)`, succeeds and leaves `C1`, `C2` and `C3` all equal to
the reference product: cell `(i, j)` is the sum over `k < n` of
`A[i][k] * B[k][j]`. -/
theorem three_methods_agree (g : Globals) (m n p : Nat) (hg : WellFormed g m n p)
    (hno : NoOverflow g.A g.B m n p) :
    ∃ g1 g2 g3, multiplyMatrix g = some g1 ∧
      forLoop m (fun i s => multiplyRow ⟨i⟩ s) g1 = some g2 ∧
      forLoop m (fun i s => forLoop p (fun j s' => multiplyElement ⟨i, j⟩ s') s) g2 = some g3 ∧
      g3.C1 = refProduct g.A g.B m n p ∧ g3.C2 = refProduct g.A g.B m n p ∧
      g3.C3 = refProduct g.A g.B m n p ∧
      ∀ i j, i < m → j < p → g3.C1.load i j = some (refDot g.A g.B i j n) ∧
        g3.C2.load i j = some (refDot g.A g.B i j n) ∧
        g3.C3.load i j = some (refDot g.A g.B i j n) := by
  have o1 : MatId.C1.isOut := Or.inl rfl
  have o2 : MatId.C2.isOut := Or.inr (Or.inl rfl)
  have o3 : MatId.C3.isOut := Or.inr (Or.inr rfl)
  obtain ⟨g1, h1, f1⟩ := multiplyMatrix_fills hg
  have hg1 := f1.wellFormed o1 hg
  obtain ⟨g2, h2, f2⟩ := rowWorkers_fills hg1 m (Nat.le_refl m)
  have hg2 := f2.wellFormed o2 hg1
  obtain ⟨g3, h3, f3⟩ := elementWorkers_fills hg2 m (Nat.le_refl m)
  have hg3 := f3.wellFormed o3 hg2
  have eA1 : g1.A = g.A := f1.inputA o1
  have eB1 : g1.B = g.B := f1.inputB o1
  have eA2 : g2.A = g.A := (f2.inputA o2).trans eA1
  have eB2 : g2.B = g.B := (f2.inputB o2).trans eB1
  have hdot : ∀ i j, i < m → j < p → wrapDot g.A g.B i j n = refDot g.A g.B i j n :=
    fun i j hi hj => wrapDot_eq_refDot (fun k hk => hno i hi j hj k hk) n (Nat.le_refl n)
  have c1 : ∀ i j, i < m → j < p → g3.C1.load i j = some (refDot g.A g.B i j n) := by
    intro i j hi hj
    have e3 : g3.C1 = g2.C1 := f3.others MatId.C1 (by decide)
    have e2 : g2.C1 = g1.C1 := f2.others MatId.C1 (by decide)
    rw [e3, e2]
    have := f1.load_full hg hi hj
    simp only [Globals.mat] at this
    rw [this, hdot i j hi hj]
  have c2 : ∀ i j, i < m → j < p → g3.C2.load i j = some (refDot g.A g.B i j n) := by
    intro i j hi hj
    have e3 : g3.C2 = g2.C2 := f3.others MatId.C2 (by decide)
    rw [e3]
    have := f2.load_full hg1 hi hj
    simp only [Globals.mat] at this
    rw [this, eA1, eB1, hdot i j hi hj]
  have c3 : ∀ i j, i < m → j < p → g3.C3.load i j = some (refDot g.A g.B i j n) := by
    intro i j hi hj
    have := f3.load_full hg2 hi hj
    simp only [Globals.mat] at this
    rw [this, eA2, eB2, hdot i j hi hj]
  have hp := refProduct_hasShape g.A g.B m n p
  refine ⟨g1, g2, g3, h1, h2, h3, ?_, ?_, ?_, fun i j hi hj => ⟨c1 i j hi hj, c2 i j hi hj, c3 i j hi hj⟩⟩
  · exact Matrix.ext_load hg3.2.2.2.2.2.2.1 hp
      (fun i j hi hj => by rw [c1 i j hi hj, refProduct_load _ _ hi hj])
  · exact Matrix.ext_load hg3.2.2.2.2.2.2.2.1 hp
      (fun i j hi hj => by rw [c2 i j hi hj, refProduct_load _ _ hi hj])
  · exact Matrix.ext_load hg3.2.2.2.2.2.2.2.2 hp
      (fun i j hi hj => by rw [c3 i j hi hj, refProduct_load _ _ hi hj])

/-- Witness for C1: `[[1,2],[3,4]]` times `[[5,6],[7,8]]` is `[[19,22],[43,50]]`
under all three methods. -/
theorem three_methods_agree_witness :
    WellFormed sampleGlobals 2 2 2 ∧ NoOverflow sampleGlobals.A sampleGlobals.B 2 2 2 ∧
    ∃ g1 g2 g3, multiplyMatrix sampleGlobals = some g1 ∧
      forLoop 2 (fun i s => multiplyRow ⟨i⟩ s) g1 = some g2 ∧
      forLoop 2 (fun i s => forLoop 2 (fun j s' => multiplyElement ⟨i, j⟩ s') s) g2 = some g3 ∧
      g3.C1 = [[19, 22], [43, 50]] ∧ g3.C2 = [[19, 22], [43, 50]] ∧
      g3.C3 = [[19, 22], [43, 50]] := by
  have hw : WellFormed sampleGlobals 2 2 2 := by decide
  have hn : NoOverflow sampleGlobals.A sampleGlobals.B 2 2 2 := by decide
  have hp : refProduct sampleGlobals.A sampleGlobals.B 2 2 2 = [[19, 22], [43, 50]] := by decide
  obtain ⟨g1, g2, g3, h1, h2, h3, e1, e2, e3, _⟩ :=
    three_methods_agree sampleGlobals 2 2 2 hw hn
  exact ⟨hw, hn, g1, g2, g3, h1, h2, h3, e1.trans hp, e2.trans hp, e3.trans hp⟩

theorem startsOf_method1Events (env : Env) (pre : String) (text : List Char) :
    startsOf (method1Events env pre text) = [ThreadStart.multiplyMatrix] := rfl

theorem startsOf_method2Events (env : Env) (pre : String) (m : Nat) (text : List Char) :
    startsOf (method2Events env pre m text) =
      (List.range m).flatMap (fun i => [ThreadStart.multiplyRow ⟨i⟩]) := by
  simp only [startsOf, method2Events, List.filterMap_append, filterMap_flatMap_range,
    List.filterMap_cons, List.filterMap_nil, Event.startOf, flatMap_range_nil, List.append_nil]

theorem startsOf_method3Events (env : Env) (pre : String) (m p : Nat) (text : List Char) :
    startsOf (method3Events env pre m p text) =
      (List.range m).flatMap (fun i => (List.range p).flatMap (fun j =>
        [ThreadStart.multiplyElement ⟨i, j⟩])) := by
  simp only [startsOf, method3Events, List.filterMap_append, filterMap_flatMap_range,
    List.filterMap_cons, List.filterMap_nil, Event.startOf, flatMap_range_nil, List.append_nil]

/-- C2: in a run without resource failures, for every output size
`rows x cols`, the threads each method creates have write sets that are
pairwise disjoint, lie inside the method's result matrix, and cover every
cell `(i, j)` with `i < rows` and `j < cols` exactly once. Write sets are taken
in any state `g'` of the same dimensions; method 3 needs `rows * cols` to
fit an `int`. -/
theorem dispatch_exact_cover (env : Env) (henv : env.permissive) (pre : String)
    (g g' : Globals) (rows n cols : Nat) (hg : WellFormed g rows n cols)
    (hg' : WellFormed g' rows n cols) :
    ExactCover (startsOf (method1 env pre rows cols g).events) g' MatId.C1 rows cols ∧
    ExactCover (startsOf (method2 env pre rows cols g).events) g' MatId.C2 rows cols ∧
    (rows * cols < 2147483648 →
      ExactCover (startsOf (method3 env pre rows cols g).events) g' MatId.C3 rows cols) := by
  obtain ⟨g1, _, _, h1⟩ := method1_run env henv pre hg
  obtain ⟨g2, _, _, h2⟩ := method2_run env henv pre hg
  refine ⟨?_, ?_, ?_⟩
  · rw [h1, startsOf_method1Events]; exact exactCover_whole hg'
  · rw [h2, startsOf_method2Events]; exact exactCover_rows hg'
  · intro hmp
    obtain ⟨g3, _, _, h3⟩ := method3_run env henv pre hg hmp
    rw [h3, startsOf_method3Events]; exact exactCover_elements hg'

theorem sampleEnv_permissive : sampleEnv.permissive :=
  ⟨fun _ => rfl, fun _ _ => rfl, fun _ _ => rfl, fun _ => rfl⟩

/-- Witness for C2 on the `2 x 2` sample. -/
theorem dispatch_exact_cover_witness :
    ExactCover (startsOf (method1 sampleEnv "c" ((2 : Nat) : Int) ((2 : Nat) : Int) sampleGlobals).events) sampleGlobals
      MatId.C1 2 2 ∧
    ExactCover (startsOf (method2 sampleEnv "c" ((2 : Nat) : Int) ((2 : Nat) : Int) sampleGlobals).events) sampleGlobals
      MatId.C2 2 2 ∧
    ExactCover (startsOf (method3 sampleEnv "c" ((2 : Nat) : Int) ((2 : Nat) : Int) sampleGlobals).events) sampleGlobals
      MatId.C3 2 2 := by
  have h := dispatch_exact_cover sampleEnv
    ⟨fun _ => rfl, fun _ _ => rfl, fun _ _ => rfl, fun _ => rfl⟩ "c" sampleGlobals
    sampleGlobals 2 2 2 (by decide) (by decide)
  exact ⟨h.1, h.2.1, h.2.2 (by decide)⟩

theorem createdOf_method2Events (env : Env) (pre : String) (m : Nat) (text : List Char) :
    createdOf 2 (method2Events env pre m text) = List.range m := by
  have : (List.range m).flatMap (fun i => [i]) = List.range m := by
    induction m with
    | zero => rfl
    | succ m ih => simp [List.range_succ, List.flatMap_append, ih]
  simp only [createdOf, method2Events, List.filterMap_append, filterMap_flatMap_range,
    List.filterMap_cons, List.filterMap_nil, Event.createdIndex, flatMap_range_nil,
    List.append_nil, if_true, this]

theorem createdOf_method3Events (env : Env) (pre : String) (m p : Nat) (text : List Char) :
    createdOf 3 (method3Events env pre m p text) = List.range (m * p) := by
  simp only [createdOf, method3Events, List.filterMap_append, filterMap_flatMap_range,
    List.filterMap_cons, List.filterMap_nil, Event.createdIndex, flatMap_range_nil,
    List.append_nil, if_true, flatMap_range_grid_index]

theorem reportedOf_method2Events (env : Env) (pre : String) (m : Nat) (text : List Char) :
    reportedOf 2 (method2Events env pre m text) = [(m : Int)] := by
  simp only [reportedOf, method2Events, List.filterMap_append, filterMap_flatMap_range,
    List.filterMap_cons, List.filterMap_nil, Event.reportedThreads, flatMap_range_nil,
    List.nil_append, if_true]

theorem reportedOf_method3Events (env : Env) (pre : String) (m p : Nat) (text : List Char) :
    reportedOf 3 (method3Events env pre m p text) = [((m * p : Nat) : Int)] := by
  simp only [reportedOf, method3Events, List.filterMap_append, filterMap_flatMap_range,
    List.filterMap_cons, List.filterMap_nil, Event.reportedThreads, flatMap_range_nil,
    List.nil_append, if_true]

/-- C3: in a run without resource failures, for every output size
`rows x cols`: method 1 creates exactly one thread (handle 0) and reports 1;
method 2 creates exactly `rows` threads (handles `0 .. rows-1`) and reports
`rows`; method 3, when `rows * cols` fits an `int`, creates exactly
`rows * cols` threads (handles `0 .. rows*cols-1`), reports `rows * cols`,
and ends with the counter `t` equal to `rows * cols`. -/
theorem thread_counts (env : Env) (henv : env.permissive) (pre : String)
    (g : Globals) (rows n cols : Nat) (hg : WellFormed g rows n cols) :
    ((startsOf (method1 env pre rows cols g).events).length = 1 ∧
      createdOf 1 (method1 env pre rows cols g).events = [0] ∧
      reportedOf 1 (method1 env pre rows cols g).events = [1]) ∧
    ((startsOf (method2 env pre rows cols g).events).length = rows ∧
      createdOf 2 (method2 env pre rows cols g).events = List.range rows ∧
      reportedOf 2 (method2 env pre rows cols g).events = [(rows : Int)]) ∧
    (rows * cols < 2147483648 →
      (startsOf (method3 env pre rows cols g).events).length = rows * cols ∧
      createdOf 3 (method3 env pre rows cols g).events = List.range (rows * cols) ∧
      reportedOf 3 (method3 env pre rows cols g).events = [((rows * cols : Nat) : Int)] ∧
      ∃ g3, (method3 env pre rows cols g).outcome = Outcome.ok (g3, rows * cols)) := by
  obtain ⟨g1, _, _, h1⟩ := method1_run env henv pre hg
  obtain ⟨g2, _, _, h2⟩ := method2_run env henv pre hg
  refine ⟨?_, ?_, ?_⟩
  · rw [h1]; exact ⟨rfl, rfl, rfl⟩
  · rw [h2]
    refine ⟨?_, createdOf_method2Events _ _ _ _, reportedOf_method2Events _ _ _ _⟩
    rw [startsOf_method2Events, length_flatMap_range_singleton]
  · intro hmp
    obtain ⟨g3, _, _, h3⟩ := method3_run env henv pre hg hmp
    rw [h3]
    refine ⟨?_, createdOf_method3Events _ _ _ _ _, reportedOf_method3Events _ _ _ _ _,
      g3, rfl⟩
    rw [startsOf_method3Events, length_flatMap_range_grid]

/-- Witness for C3: `A` is `1 x 3` all ones and `B` is `3 x 1` all ones; the
product is `[[3]]` and the three methods create 1, 1 and 1 threads. -/
theorem thread_counts_witness :
    refProduct onesGlobals.A onesGlobals.B 1 3 1 = [[3]] ∧
    (startsOf (method1 sampleEnv "c" ((1 : Nat) : Int) ((1 : Nat) : Int) onesGlobals).events).length = 1 ∧
    reportedOf 1 (method1 sampleEnv "c" ((1 : Nat) : Int) ((1 : Nat) : Int) onesGlobals).events = [1] ∧
    (startsOf (method2 sampleEnv "c" ((1 : Nat) : Int) ((1 : Nat) : Int) onesGlobals).events).length = 1 ∧
    reportedOf 2 (method2 sampleEnv "c" ((1 : Nat) : Int) ((1 : Nat) : Int) onesGlobals).events = [1] ∧
    (startsOf (method3 sampleEnv "c" ((1 : Nat) : Int) ((1 : Nat) : Int) onesGlobals).events).length = 1 ∧
    reportedOf 3 (method3 sampleEnv "c" ((1 : Nat) : Int) ((1 : Nat) : Int) onesGlobals).events = [1] := by
  have h := thread_counts sampleEnv
    ⟨fun _ => rfl, fun _ _ => rfl, fun _ _ => rfl, fun _ => rfl⟩ "c" onesGlobals 1 3 1
    (by decide)
  have h3 := h.2.2 (by decide)
  exact ⟨by decide, h.1.1, h.1.2.2, h.2.1.1, h.2.1.2.2, h3.1, h3.2.2.1⟩

/-- C9: frame of a work unit. In a state set up for an `m x n` by `n x p`
product, `multiplyMatrix` succeeds and leaves `A`, `B`, `C2` and `C3` as they
were, storing only to `C1`; for every row `i < m`, `multiplyRow(i)` succeeds
and leaves `A`, `B`, `C1`, `C3` and every cell of `C2` outside row `i` as
they were, storing only to row `i` of `C2`; for every `i < m` and `j < p`,
`multiplyElement(i, j)` succeeds and leaves `A`, `B`, `C1`, `C2` and every
cell of `C3` other than `(i, j)` as they were, storing only to that cell. -/
theorem worker_frame (g : Globals) (m n p : Nat) (hg : WellFormed g m n p) :
    (∃ g' tr, multiplyMatrix g = some g' ∧
      g'.A = g.A ∧ g'.B = g.B ∧ g'.C2 = g.C2 ∧ g'.C3 = g.C3 ∧
      g'.log = g.log ++ tr ∧ ∀ x ∈ writesOf tr, x.1 = MatId.C1) ∧
    (∀ i, i < m → ∃ g' tr, multiplyRow ⟨i⟩ g = some g' ∧
      g'.A = g.A ∧ g'.B = g.B ∧ g'.C1 = g.C1 ∧ g'.C3 = g.C3 ∧
      (∀ i' j', i' ≠ i → g'.C2.load i' j' = g.C2.load i' j') ∧
      g'.log = g.log ++ tr ∧ ∀ x ∈ writesOf tr, x.1 = MatId.C2 ∧ x.2.1 = i) ∧
    (∀ i j, i < m → j < p → ∃ g' tr, multiplyElement ⟨i, j⟩ g = some g' ∧
      g'.A = g.A ∧ g'.B = g.B ∧ g'.C1 = g.C1 ∧ g'.C2 = g.C2 ∧
      (∀ i' j', ¬ (i' = i ∧ j' = j) → g'.C3.load i' j' = g.C3.load i' j') ∧
      g'.log = g.log ++ tr ∧ writesOf tr = [(MatId.C3, i, j)]) := by
  refine ⟨?_, ?_, ?_⟩
  · obtain ⟨g', hrun, hf⟩ := multiplyMatrix_fills hg
    refine ⟨g', _, hrun, hf.others MatId.A (by decide), hf.others MatId.B (by decide),
      hf.others MatId.C2 (by decide), hf.others MatId.C3 (by decide), hf.log, ?_⟩
    intro x hx
    rw [writesOf_matTrace] at hx
    simp only [List.mem_flatMap, List.mem_range, List.mem_singleton] at hx
    obtain ⟨_, _, _, _, rfl⟩ := hx
    rfl
  · intro i hi
    obtain ⟨g', hrun, hf⟩ := multiplyRow_fills hg hi
    refine ⟨g', _, hrun, hf.others MatId.A (by decide), hf.others MatId.B (by decide),
      hf.others MatId.C1 (by decide), hf.others MatId.C3 (by decide), ?_, hf.log, ?_⟩
    · intro i' j' hne
      have := hf.cells i' j'
      simp only [Globals.mat] at this
      rw [this]; simp [hne]
    · intro x hx
      rw [writesOf_rowTrace] at hx
      simp only [List.mem_flatMap, List.mem_range, List.mem_singleton] at hx
      obtain ⟨_, _, rfl⟩ := hx
      exact ⟨rfl, rfl⟩
  · intro i j hi hj
    obtain ⟨g', hrun, hf⟩ := multiplyElement_fills hg hi hj
    refine ⟨g', _, hrun, hf.others MatId.A (by decide), hf.others MatId.B (by decide),
      hf.others MatId.C1 (by decide), hf.others MatId.C2 (by decide), ?_, hf.log,
      writesOf_cellTrace _ _ _ _⟩
    intro i' j' hne
    have := hf.cells i' j'
    simp only [Globals.mat] at this
    rw [this]; simp [hne]

/-- Witness for C9 on the `2 x 2` sample: row worker 1 leaves row 0 of `C2`
and the other matrices as they were. -/
theorem worker_frame_witness :
    ∃ g' tr, multiplyRow ⟨1⟩ sampleGlobals = some g' ∧
      g'.A = sampleGlobals.A ∧ g'.B = sampleGlobals.B ∧ g'.C1 = sampleGlobals.C1 ∧
      g'.C3 = sampleGlobals.C3 ∧
      (∀ i' j', i' ≠ 1 → g'.C2.load i' j' = sampleGlobals.C2.load i' j') ∧
      g'.log = sampleGlobals.log ++ tr ∧ ∀ x ∈ writesOf tr, x.1 = MatId.C2 ∧ x.2.1 = 1 :=
  (worker_frame sampleGlobals 2 2 2 (by decide)).2.1 1 (by decide)

/-! ### Claims on matrix files -/

theorem readMatrix_open_failure (env : Env) (slot : Nat) (name : String) (r0 c0 : Int)
    (hfile : env.files name = none) :
    readMatrix env slot name r0 c0 =
      ⟨[Event.fopenRead name, Event.stdout ("Error opening file " ++ name ++ "\n")],
        Outcome.exit 1⟩ := by
  simp only [readMatrix, hfile, Run.bind_eq, Run.bind_emit, exitWith]

theorem readMatrix_run_of_ne_nil (env : Env) (hmal : ∀ size, env.malloc size = true)
    (slot : Nat) (name : String) (content : List Char) (hne : content ≠ [])
    (hfile : env.files name = some content) (r0 c0 : Int) :
    ∃ mat, readMatrix env slot name r0 c0 =
        ⟨[Event.fopenRead name], Outcome.ok (mat,
          (sscanfHeader (fgets 256 content).1 r0 c0).1,
          (sscanfHeader (fgets 256 content).1 r0 c0).2)⟩ ∧
      mat.hasShape (sscanfHeader (fgets 256 content).1 r0 c0).1.toNat
        (sscanfHeader (fgets 256 content).1 r0 c0).2.toNat := by
  cases content with
  | nil => exact absurd rfl hne
  | cons c cs => exact readMatrix_run env hmal slot name c cs hfile r0 c0

theorem headerText_ne_nil (rows cols : Int) (body : List Char) :
    headerText rows cols ++ body ≠ [] := by
  simp [headerText]

/-- Reading a file that starts with the header `row=R col=C` and whose body
holds the tokens `toks`. -/
theorem readMatrix_header_holds (env : Env) (hmal : ∀ size, env.malloc size = true)
    (slot : Nat) (name : String) (rows cols : Nat) (hr : inInt rows) (hc : inInt cols)
    (body : List Char) (hfile : env.files name = some (headerText rows cols ++ body))
    (r0 c0 : Int) {toks : List Int} (htoks : ∀ v ∈ toks, inInt v) (hs : Holds toks body) :
    ∃ mat, readMatrix env slot name r0 c0 =
        ⟨[Event.fopenRead name], Outcome.ok (mat, (rows : Int), (cols : Int))⟩ ∧
      mat.hasShape rows cols ∧
      ∀ i j, i < rows → j < cols →
        mat.load i j = (toks[i * cols + j]? <|> some (wrapInt (env.junk slot i j))) := by
  have hfg := fgets_headerText hr hc body
  have hsc := sscanfHeader_headerText hr hc r0 c0
  rcases hcontent : headerText (rows : Int) (cols : Int) ++ body with _ | ⟨c, cs⟩
  · exact absurd hcontent (headerText_ne_nil _ _ _)
  · rw [hcontent] at hfile hfg
    have hs' : Holds toks (fgets 256 (c :: cs)).2 := by rw [hfg]; exact hs
    obtain ⟨mat, hrun, hsh, hld⟩ := readMatrix_holds env hmal slot name c cs hfile r0 c0 htoks hs'
    rw [hfg] at hrun hsh hld
    simp only [hsc, Int.toNat_ofNat] at hrun hsh hld
    exact ⟨mat, hrun, hsh, hld⟩

theorem mem_flatten_inInt {mat : Matrix} (h : ∀ row ∈ mat, ∀ v ∈ row, inInt v) :
    ∀ v ∈ mat.flatten, inInt v := by
  intro v hv
  obtain ⟨row, hrow, hvr⟩ := List.mem_flatten.1 hv
  exact h row hrow v hvr

/-- C4: round trip. For every matrix of `rows x cols` values in the `int`
range (dimensions in the `int` range too), `writeMatrix` produces a text, and
`readMatrix` on a file with that text, allocation succeeding, returns the
same `rows`, the same `cols` and the same matrix, negative values included. -/
theorem write_read_roundtrip (mat : Matrix) (rows cols : Nat)
    (hshape : mat.hasShape rows cols) (hr : inInt rows) (hc : inInt cols)
    (hvals : ∀ row ∈ mat, ∀ v ∈ row, inInt v) :
    ∃ text, matrixText mat rows cols = some text ∧
      ∀ (env : Env) (slot : Nat) (name : String) (r0 c0 : Int),
        (∀ size, env.malloc size = true) → env.files name = some text →
        readMatrix env slot name r0 c0 =
          ⟨[Event.fopenRead name], Outcome.ok (mat, (rows : Int), (cols : Int))⟩ := by
  refine ⟨_, matrixText_eq hshape, ?_⟩
  intro env slot name r0 c0 hmal hfile
  obtain ⟨mat', hrun, hsh, hld⟩ := readMatrix_header_holds env hmal slot name rows cols hr hc
    (bodyText mat) hfile r0 c0 (mem_flatten_inInt hvals) (holds_bodyText mat)
  have e : mat' = mat := by
    apply Matrix.ext_load hsh hshape
    intro i j hi hj
    rw [hld i j hi hj, flatten_getElem? hshape i j hj]
    obtain ⟨v, hv⟩ := Matrix.load_some_of_shape hshape hi hj
    simp [hv]
  rw [hrun, e]

/-- Witness for C4 on a `2 x 2` matrix with negative entries. -/
theorem write_read_roundtrip_witness :
    ∃ text, matrixText [[1, -2], [-2147483648, 40]] (2 : Nat) (2 : Nat) = some text ∧
      ∀ (env : Env) (slot : Nat) (name : String) (r0 c0 : Int),
        (∀ size, env.malloc size = true) → env.files name = some text →
        readMatrix env slot name r0 c0 =
          ⟨[Event.fopenRead name],
            Outcome.ok ([[1, -2], [-2147483648, 40]], ((2 : Nat) : Int), ((2 : Nat) : Int))⟩ :=
  write_read_roundtrip [[1, -2], [-2147483648, 40]] 2 2 (by decide) (by decide) (by decide)
    (by decide)

/-- Counterexample to C6: a file whose header is `row=2`, with `col=`
missing, is accepted. The conversion leaves `cols` as it was (here shown
with `7`; in `main` it is `0`), and `readMatrix` returns a `2 x 0` matrix. -/
theorem malformed_header_accepted :
    sscanfHeader "row=2\n".toList 0 7 = (2, 7) ∧
    readMatrix headerlessEnv 0 "a.txt" 0 0 =
      ⟨[Event.fopenRead "a.txt"], Outcome.ok ([[], []], 2, 0)⟩ := by
  decide

/-- C6, amended: `readMatrix` does not validate the header. When the file
cannot be opened it prints `Error opening file` and exits with status 1. On
every non-empty file, whatever its first line, there are dimensions `rows`
and `cols` in the `int` range such that:
* the conversion `row=%d col=%d` assigns `rows` only when the line starts with
  `row=` followed by a number, and `cols` only when, in addition, `col=` and a
  number follow after optional white space; a dimension that is not assigned
  keeps the value it had on entry;
* `readMatrix` exits with status 1 and `Memory allocation error` when the
  request for `rows` row pointers fails, or when `rows > 0` and the request
  for `cols` cells fails; otherwise it returns a matrix with the dimensions
  `rows` and `cols`: the empty matrix when `rows <= 0`, whatever `cols`;
* with an allocator that refuses requests above `PTRDIFF_MAX` bytes, it exits
  with status 1 when `rows < 0`, and when `rows > 0` and `cols < 0`. -/
theorem readMatrix_no_validation (env : Env) (slot : Nat) (name : String) (r0 c0 : Int)
    (hr0 : inInt r0) (hc0 : inInt c0) :
    (env.files name = none →
      readMatrix env slot name r0 c0 =
        ⟨[Event.fopenRead name, Event.stdout ("Error opening file " ++ name ++ "\n")],
          Outcome.exit 1⟩) ∧
    (∀ content, env.files name = some content → content ≠ [] →
      ∃ rows cols, inInt rows ∧ inInt cols ∧
        (¬ "row=".toList <+: (fgets 256 content).1 → rows = r0 ∧ cols = c0) ∧
        (∀ s1, (fgets 256 content).1 = "row=".toList ++ s1 →
          ((scanInt s1).1 = none → rows = r0 ∧ cols = c0) ∧
          ∀ r, (scanInt s1).1 = some r →
            rows = r ∧
            (¬ "col=".toList <+: skipSpaces (scanInt s1).2 → cols = c0) ∧
            ∀ s3, skipSpaces (scanInt s1).2 = "col=".toList ++ s3 →
              ((scanInt s3).1 = none → cols = c0) ∧
              ∀ c, (scanInt s3).1 = some c → cols = c) ∧
        (env.malloc (mallocSize rows 8) = false →
          readMatrix env slot name r0 c0 =
            ⟨[Event.fopenRead name, Event.stdout "Memory allocation error\n"],
              Outcome.exit 1⟩) ∧
        (env.malloc (mallocSize rows 8) = true → rows ≤ 0 →
          readMatrix env slot name r0 c0 =
            ⟨[Event.fopenRead name], Outcome.ok ([], rows, cols)⟩) ∧
        (env.malloc (mallocSize rows 8) = true → 0 < rows →
          env.malloc (mallocSize cols 4) = false →
          readMatrix env slot name r0 c0 =
            ⟨[Event.fopenRead name, Event.stdout "Memory allocation error\n"],
              Outcome.exit 1⟩) ∧
        (env.malloc (mallocSize rows 8) = true → 0 < rows →
          env.malloc (mallocSize cols 4) = true →
          ∃ mat, readMatrix env slot name r0 c0 =
              ⟨[Event.fopenRead name], Outcome.ok (mat, rows, cols)⟩ ∧
            mat.hasShape rows.toNat cols.toNat) ∧
        ((∀ size, 9223372036854775808 ≤ size → env.malloc size = false) →
          rows < 0 ∨ (0 < rows ∧ cols < 0) →
          readMatrix env slot name r0 c0 =
            ⟨[Event.fopenRead name, Event.stdout "Memory allocation error\n"],
              Outcome.exit 1⟩)) := by
  refine ⟨?_, ?_⟩
  · intro h
    exact readMatrix_open_failure env slot name r0 c0 h
  · intro content hfile hne
    cases content with
    | nil => exact absurd rfl hne
    | cons ch cs =>
      have hin := sscanfHeader_inInt (fgets 256 (ch :: cs)).1 hr0 hc0
      have hcases := sscanfHeader_cases (fgets 256 (ch :: cs)).1 r0 c0
      obtain ⟨o1, o2, o3, o4⟩ := readMatrix_outcomes env slot name ch cs hfile r0 c0
        (sscanfHeader (fgets 256 (ch :: cs)).1 r0 c0).1
        (sscanfHeader (fgets 256 (ch :: cs)).1 r0 c0).2 rfl
      refine ⟨(sscanfHeader (fgets 256 (ch :: cs)).1 r0 c0).1,
        (sscanfHeader (fgets 256 (ch :: cs)).1 r0 c0).2, hin.1, hin.2, ?_, ?_, o1, o2, o3, o4,
        ?_⟩
      · intro hp
        rw [hcases.1 hp]
        exact ⟨rfl, rfl⟩
      · intro s1 hs1
        obtain ⟨hnone, hsome⟩ := hcases.2 s1 hs1
        refine ⟨fun hn => ?_, hsome⟩
        rw [hnone hn]
        exact ⟨rfl, rfl⟩
      · intro hbig hneg
        rcases hneg with hr | ⟨hr, hc⟩
        · exact o1 (hbig _ (mallocSize_neg hin.1 hr).1)
        · cases hm : env.malloc (mallocSize (sscanfHeader (fgets 256 (ch :: cs)).1 r0 c0).1 8)
          · exact o1 hm
          · exact o3 hm hr (hbig _ (mallocSize_neg hin.2 hc).2)

/-- Witness for the amended C6. The header `row=2` gives a `2 x 0` matrix;
with an allocator that refuses requests above `PTRDIFF_MAX` bytes, the header
`row=0 col=-1` gives the empty matrix with the dimensions `0` and `-1`, and the
header `row=-1 col=2` ends the program with status 1. -/
theorem readMatrix_no_validation_witness :
    (∃ mat, readMatrix headerlessEnv 0 "a.txt" 0 0 =
        ⟨[Event.fopenRead "a.txt"], Outcome.ok (mat, 2, 0)⟩ ∧ mat.hasShape 2 0) ∧
    readMatrix boundedEnv 0 "zero.txt" 0 0 =
      ⟨[Event.fopenRead "zero.txt"], Outcome.ok ([], 0, -1)⟩ ∧
    readMatrix boundedEnv 0 "negative.txt" 0 0 =
      ⟨[Event.fopenRead "negative.txt", Event.stdout "Memory allocation error\n"],
        Outcome.exit 1⟩ := by
  refine ⟨?_, ?_, ?_⟩
  · obtain ⟨rows, cols, _, _, _, hh, _, _, _, h4, _⟩ :=
      (readMatrix_no_validation headerlessEnv 0 "a.txt" 0 0 (by decide) (by decide)).2
        "row=2\n1 2\n3 4\n".toList rfl (by decide)
    obtain ⟨hrows, hcols, _⟩ := (hh "2\n".toList (by decide)).2 2 (by decide)
    have hc := hcols (by decide)
    subst hrows
    subst hc
    exact h4 rfl (by decide) rfl
  · obtain ⟨rows, cols, _, _, _, hh, _, h2, _, _, _⟩ :=
      (readMatrix_no_validation boundedEnv 0 "zero.txt" 0 0 (by decide) (by decide)).2
        "row=0 col=-1\n".toList rfl (by decide)
    obtain ⟨hrows, _, hcols⟩ := (hh "0 col=-1\n".toList (by decide)).2 0 (by decide)
    have hc := (hcols "-1\n".toList (by decide)).2 (-1) (by decide)
    subst hrows
    subst hc
    exact h2 (by decide) (by decide)
  · obtain ⟨rows, cols, _, _, _, hh, _, _, _, _, h5⟩ :=
      (readMatrix_no_validation boundedEnv 0 "negative.txt" 0 0 (by decide) (by decide)).2
        "row=-1 col=2\n1 2\n".toList rfl (by decide)
    obtain ⟨hrows, _, _⟩ := (hh "-1 col=2\n".toList (by decide)).2 (-1) (by decide)
    subst hrows
    exact h5 (fun size h => decide_eq_false (Nat.not_lt.2 h)) (Or.inl (by decide))

theorem orElse_some_eq_getD {α : Type} (o : Option α) (d : α) :
    (o <|> some d) = some (o.getD d) := by
  cases o <;> rfl

theorem readMatrix_layout (env : Env) (hmal : ∀ size, env.malloc size = true)
    (slot : Nat) (name : String) (rows cols : Nat) (hr : inInt rows) (hc : inInt cols)
    (layout : List (List Char × Int)) (trail : List Char) (hvalid : validLayout layout trail)
    (htoks : ∀ x ∈ layout, inInt x.2)
    (hfile : env.files name = some (headerText rows cols ++ render layout trail))
    (r0 c0 : Int) :
    ∃ mat, readMatrix env slot name r0 c0 =
        ⟨[Event.fopenRead name], Outcome.ok (mat, (rows : Int), (cols : Int))⟩ ∧
      mat.hasShape rows cols ∧
      ∀ i j, i < rows → j < cols →
        mat.load i j =
          some (((layout.map Prod.snd)[i * cols + j]?).getD (wrapInt (env.junk slot i j))) := by
  have ht : ∀ v ∈ layout.map Prod.snd, inInt v := by
    intro v hv
    obtain ⟨x, hx, rfl⟩ := List.mem_map.1 hv
    exact htoks x hx
  obtain ⟨mat, hrun, hsh, hld⟩ := readMatrix_header_holds env hmal slot name rows cols hr hc
    (render layout trail) hfile r0 c0 ht (holds_render hvalid.1 hvalid.2.1 hvalid.2.2)
  refine ⟨mat, hrun, hsh, ?_⟩
  intro i j hi hj
  rw [hld i j hi hj, orElse_some_eq_getD]

/-- Counterexample to C7: the header `row=1 col=2` parses, the body holds one
value where two are announced, and `readMatrix` returns a matrix whose second
cell is whatever the fresh memory held (`77` in this environment). -/
theorem short_body_accepted :
    sscanfHeader "row=1 col=2\n".toList 0 0 = (1, 2) ∧
    readMatrix shortBodyEnv 0 "a.txt" 0 0 =
      ⟨[Event.fopenRead "a.txt"], Outcome.ok ([[5, 77]], 1, 2)⟩ := by
  decide

/-- C7, amended: `readMatrix` does not check how many values the body holds.
For every file whose header is `row=R col=C` and whose body holds `T` integer
tokens separated by white space, `T < R * C` included, `readMatrix`,
allocation succeeding, returns an `R x C` matrix in which cell `(i, j)` holds
token number `i * C + j` when there is one and otherwise keeps the
indeterminate content of the freshly allocated memory. -/
theorem short_body_keeps_fresh_cells (env : Env) (hmal : ∀ size, env.malloc size = true)
    (slot : Nat) (name : String) (R C : Nat) (hR : inInt R) (hC : inInt C)
    (layout : List (List Char × Int)) (trail : List Char) (hvalid : validLayout layout trail)
    (htoks : ∀ x ∈ layout, inInt x.2)
    (hfile : env.files name = some (headerText R C ++ render layout trail))
    (r0 c0 : Int) :
    ∃ mat, readMatrix env slot name r0 c0 =
        ⟨[Event.fopenRead name], Outcome.ok (mat, (R : Int), (C : Int))⟩ ∧
      mat.hasShape R C ∧
      ∀ i j, i < R → j < C →
        mat.load i j =
          some (((layout.map Prod.snd)[i * C + j]?).getD (wrapInt (env.junk slot i j))) :=
  readMatrix_layout env hmal slot name R C hR hC layout trail hvalid htoks hfile r0 c0

/-- Witness for the amended C7 on the file `row=1 col=2`, `5`. -/
theorem short_body_keeps_fresh_cells_witness :
    ∃ mat, readMatrix shortBodyEnv 0 "a.txt" 0 0 =
        ⟨[Event.fopenRead "a.txt"], Outcome.ok (mat, ((1 : Nat) : Int), ((2 : Nat) : Int))⟩ ∧
      mat.hasShape 1 2 ∧
      ∀ i j, i < 1 → j < 2 →
        mat.load i j =
          some ((([(([] : List Char), (5 : Int))].map Prod.snd)[i * 2 + j]?).getD
            (wrapInt (shortBodyEnv.junk 0 i j))) :=
  short_body_keeps_fresh_cells shortBodyEnv (fun _ => rfl) 0 "a.txt" 1 2 (by decide)
    (by decide) [([], 5)] [Char.ofNat 10] (by decide) (by decide) (by decide) 0 0

/-- C10: layout independence. For every header `row=R col=C` and every two
bodies that hold the same sequence of integer tokens and differ only in the
white space (spaces, tabs, line breaks) around them, `readMatrix`, allocation
succeeding, returns the same matrix for both, and its cell `(i, j)` is the
token at position `i * C + j` of the body. -/
theorem layout_independence (env : Env) (hmal : ∀ size, env.malloc size = true)
    (slot : Nat) (name1 name2 : String) (R C : Nat) (hR : inInt R) (hC : inInt C)
    (layout1 layout2 : List (List Char × Int)) (trail1 trail2 : List Char)
    (hv1 : validLayout layout1 trail1) (hv2 : validLayout layout2 trail2)
    (hsame : layout1.map Prod.snd = layout2.map Prod.snd)
    (htoks : ∀ x ∈ layout1, inInt x.2)
    (hf1 : env.files name1 = some (headerText R C ++ render layout1 trail1))
    (hf2 : env.files name2 = some (headerText R C ++ render layout2 trail2))
    (r0 c0 : Int) :
    ∃ mat, readMatrix env slot name1 r0 c0 =
        ⟨[Event.fopenRead name1], Outcome.ok (mat, (R : Int), (C : Int))⟩ ∧
      readMatrix env slot name2 r0 c0 =
        ⟨[Event.fopenRead name2], Outcome.ok (mat, (R : Int), (C : Int))⟩ ∧
      ∀ i j, i < R → j < C → i * C + j < layout1.length →
        mat.load i j = (layout1.map Prod.snd)[i * C + j]? := by
  have htoks2 : ∀ x ∈ layout2, inInt x.2 := by
    intro x hx
    have : x.2 ∈ layout1.map Prod.snd := by
      rw [hsame]; exact List.mem_map_of_mem _ hx
    obtain ⟨y, hy, he⟩ := List.mem_map.1 this
    rw [← he]; exact htoks y hy
  obtain ⟨mat1, hrun1, hsh1, hld1⟩ :=
    readMatrix_layout env hmal slot name1 R C hR hC layout1 trail1 hv1 htoks hf1 r0 c0
  obtain ⟨mat2, hrun2, hsh2, hld2⟩ :=
    readMatrix_layout env hmal slot name2 R C hR hC layout2 trail2 hv2 htoks2 hf2 r0 c0
  have e : mat2 = mat1 := by
    apply Matrix.ext_load hsh2 hsh1
    intro i j hi hj
    rw [hld1 i j hi hj, hld2 i j hi hj, hsame]
  refine ⟨mat1, hrun1, ?_, ?_⟩
  · rw [hrun2, e]
  · intro i j hi hj hk
    rw [hld1 i j hi hj]
    have hk' : i * C + j < (layout1.map Prod.snd).length := by simpa using hk
    rw [List.getElem?_eq_getElem hk']
    rfl

/-- Witness for C10: `1 2 3 4` laid out one row per line and one value per
line read as the same `2 x 2` matrix. -/
theorem layout_independence_witness :
    ∃ mat, readMatrix layoutEnv 0 "rows.txt" 0 0 =
        ⟨[Event.fopenRead "rows.txt"], Outcome.ok (mat, ((2 : Nat) : Int), ((2 : Nat) : Int))⟩ ∧
      readMatrix layoutEnv 0 "lines.txt" 0 0 =
        ⟨[Event.fopenRead "lines.txt"], Outcome.ok (mat, ((2 : Nat) : Int), ((2 : Nat) : Int))⟩ ∧
      ∀ i j, i < 2 → j < 2 → i * 2 + j < layoutByRows.length →
        mat.load i j = (layoutByRows.map Prod.snd)[i * 2 + j]? :=
  layout_independence layoutEnv (fun _ => rfl) 0 "rows.txt" "lines.txt" 2 2 (by decide)
    (by decide) layoutByRows layoutByLines [Char.ofNat 10] [] (by decide) (by decide)
    (by decide) (by decide) (by decide) (by decide) 0 0

/-! ### The main function -/

theorem Run.mem_bind_events {α β : Type} {r : Run α} {f : α → Run β} {e : Event}
    (h : e ∈ (Run.bind r f).events) :
    e ∈ r.events ∨ ∃ a, r.outcome = Outcome.ok a ∧ e ∈ (f a).events := by
  obtain ⟨ev, o⟩ := r
  cases o with
  | ok a =>
    rw [Run.bind_ok] at h
    rcases List.mem_append.1 h with h1 | h1
    · exact Or.inl h1
    · exact Or.inr ⟨a, rfl, h1⟩
  | exit st => exact Or.inl h
  | undefined => exact Or.inl h

theorem allocateRows_events (env : Env) (slot : Nat) (cols : Int) :
    ∀ n, ∀ e ∈ (allocateRows env slot cols n).events, e.isReadOrPrint = true := by
  intro n
  induction n with
  | zero => intro e he; cases he
  | succ n ih =>
    intro e he
    simp only [allocateRows, Run.bind_eq] at he
    rcases Run.mem_bind_events he with h | ⟨mat, _, h⟩
    · exact ih e h
    · split at h
      · cases h
      · simp only [Run.bind_emit, exitWith, List.mem_singleton] at h
        rw [h]; rfl

theorem allocateMatrix_events (env : Env) (slot : Nat) (rows cols : Int) :
    ∀ e ∈ (allocateMatrix env slot rows cols).events, e.isReadOrPrint = true := by
  intro e he
  unfold allocateMatrix at he
  split at he
  · exact allocateRows_events env slot cols _ e he
  · simp only [Run.bind_eq, Run.bind_emit, exitWith, List.mem_singleton] at he
    rw [he]; rfl

theorem ofOption_events {α : Type} (o : Option α) : (ofOption o).events = [] := by
  cases o <;> rfl

/-- Loading a matrix only opens the input file and prints. -/
theorem readMatrix_events (env : Env) (slot : Nat) (name : String) (r0 c0 : Int) :
    ∀ e ∈ (readMatrix env slot name r0 c0).events, e.isReadOrPrint = true := by
  intro e he
  simp only [readMatrix, Run.bind_eq, Run.bind_emit, List.mem_cons] at he
  rcases he with h | he
  · rw [h]; rfl
  · split at he
    · simp only [Run.bind_emit, exitWith, List.mem_singleton] at he
      rw [he]; rfl
    · simp [ofOption] at he
    · rcases Run.mem_bind_events he with h | ⟨mat, _, h⟩
      · exact allocateMatrix_events _ _ _ _ e h
      · rcases Run.mem_bind_events h with h' | ⟨st, _, h'⟩
        · rw [ofOption_events] at h'; cases h'
        · cases h'

theorem mainBody_mismatch (env : Env) (names : FileNames) {ev1 ev2 : List Event}
    {a b : Matrix × Int × Int}
    (h1 : readMatrix env 0 names.inputFile1 0 0 = ⟨ev1, Outcome.ok a⟩)
    (h2 : readMatrix env 1 names.inputFile2 0 0 = ⟨ev2, Outcome.ok b⟩)
    (hne : a.2.2 ≠ b.2.1) :
    mainBody env names =
      ⟨ev1 ++ (ev2 ++
        [Event.stdout "Matrix multiplication not possible. A_cols != B_rows\n"]),
        Outcome.exit 1⟩ := by
  simp only [mainBody, h1, h2, Run.bind_eq, Run.bind_ok, hne, ne_eq, not_false_eq_true,
    if_true, Run.bind_emit, exitWith]

theorem mainBody_match (env : Env) (names : FileNames) {ev1 ev2 : List Event}
    {a b : Matrix × Int × Int}
    (h1 : readMatrix env 0 names.inputFile1 0 0 = ⟨ev1, Outcome.ok a⟩)
    (h2 : readMatrix env 1 names.inputFile2 0 0 = ⟨ev2, Outcome.ok b⟩)
    (heq : a.2.2 = b.2.1) :
    mainBody env names =
      ⟨ev1 ++ (ev2 ++ (runMethods env names.outputPrefix a b).events),
        (runMethods env names.outputPrefix a b).outcome⟩ := by
  simp only [mainBody, h1, h2, Run.bind_eq, Run.bind_ok, heq, ne_eq, not_true_eq_false,
    if_false]

/-- The methods part of `main` in a run without resource failures. -/
theorem runMethods_run (env : Env) (henv : env.permissive) (pre : String)
    (a b : Matrix) (m n p : Nat) (ha : a.hasShape m n) (hb : b.hasShape n p)
    (hmp : m * p < 2147483648) :
    ∃ t1 t2 t3, runMethods env pre (a, (m : Int), (n : Int)) (b, (n : Int), (p : Int)) =
      ⟨method1Events env pre t1 ++ (method2Events env pre m t2 ++ method3Events env pre m p t3),
        Outcome.ok 0⟩ := by
  have hmal := henv.1
  let g : Globals :=
    { A_rows := m, A_cols := n, B_rows := n, B_cols := p, A := a, B := b,
      C1 := freshMatrix env 2 m p, C2 := freshMatrix env 3 m p, C3 := freshMatrix env 4 m p,
      log := [] }
  have hg : WellFormed g m n p :=
    ⟨rfl, rfl, rfl, rfl, ha, hb, freshMatrix_hasShape _ _ _ _, freshMatrix_hasShape _ _ _ _,
      freshMatrix_hasShape _ _ _ _⟩
  obtain ⟨g1, _, f1, h1⟩ := method1_run env henv pre hg
  have hg1 := f1.wellFormed (Or.inl rfl) hg
  obtain ⟨g2, _, f2, h2⟩ := method2_run env henv pre hg1
  have hg2 := f2.wellFormed (Or.inr (Or.inl rfl)) hg1
  obtain ⟨g3, _, f3, h3⟩ := method3_run env henv pre hg2 hmp
  refine ⟨headerText m p ++ bodyText g1.C1, headerText m p ++ bodyText g2.C2,
    headerText m p ++ bodyText g3.C3, ?_⟩
  simp only [runMethods, allocateMatrix_ok env hmal, Run.bind_eq, Run.bind_ok,
    Int.toNat_ofNat, List.nil_append]
  simp only [g] at h1
  rw [h1, Run.bind_ok, h2, Run.bind_ok, h3, Run.bind_ok]
  simp [Run.pure]

/-! ### Claims on the main function -/

theorem main_eq_mainBody (env : Env) (prog : String) (args : List String) (names : FileNames)
    (hres : resolveNames prog args = Run.pure names) :
    main env prog args = mainBody env names := by
  simp only [main, hres, Run.bind_eq, Run.bind_pure]

theorem startsOf_eq_nil_of_isReadOrPrint {l : List Event}
    (h : ∀ e ∈ l, e.isReadOrPrint = true) : startsOf l = [] ∧ writtenOf l = [] := by
  induction l with
  | nil => exact ⟨rfl, rfl⟩
  | cons e l ih =>
    have he := h e (List.mem_cons_self _ _)
    have hl := ih (fun e' he' => h e' (List.mem_cons_of_mem _ he'))
    cases e <;> simp_all [startsOf, writtenOf, Event.isReadOrPrint, Event.startOf,
      Event.writtenName]

/-- C5: dimension check. Once both matrices are loaded, if `A_cols` differs
from `B_rows` then `main` ends with exit status 1 and up to then has only
opened the inputs and printed: no thread was created and no output file was
written. If `A_cols = B_rows` the check does not abort: `main` goes on with
the allocation of the result matrices and the three methods. -/
theorem dimension_check (env : Env) (prog : String) (args : List String) (names : FileNames)
    (ev1 ev2 : List Event) (a b : Matrix × Int × Int)
    (hres : resolveNames prog args = Run.pure names)
    (h1 : readMatrix env 0 names.inputFile1 0 0 = ⟨ev1, Outcome.ok a⟩)
    (h2 : readMatrix env 1 names.inputFile2 0 0 = ⟨ev2, Outcome.ok b⟩) :
    (a.2.2 ≠ b.2.1 →
      (main env prog args).outcome = Outcome.exit 1 ∧
      (∀ e ∈ (main env prog args).events, e.isReadOrPrint = true) ∧
      startsOf (main env prog args).events = [] ∧
      writtenOf (main env prog args).events = []) ∧
    (a.2.2 = b.2.1 →
      main env prog args =
        ⟨ev1 ++ (ev2 ++ (runMethods env names.outputPrefix a b).events),
          (runMethods env names.outputPrefix a b).outcome⟩) := by
  rw [main_eq_mainBody env prog args names hres]
  refine ⟨?_, ?_⟩
  · intro hne
    have hrun := mainBody_mismatch env names h1 h2 hne
    have hev : ∀ e ∈ (mainBody env names).events, e.isReadOrPrint = true := by
      rw [hrun]
      intro e he
      simp only [List.mem_append, List.mem_singleton] at he
      rcases he with h | h | h
      · have := readMatrix_events env 0 names.inputFile1 0 0 e
        rw [h1] at this; exact this h
      · have := readMatrix_events env 1 names.inputFile2 0 0 e
        rw [h2] at this; exact this h
      · rw [h]; rfl
    refine ⟨by rw [hrun], hev, (startsOf_eq_nil_of_isReadOrPrint hev).1,
      (startsOf_eq_nil_of_isReadOrPrint hev).2⟩
  · intro heq
    exact mainBody_match env names h1 h2 heq

/-- Witness for C5: with a `2 x 2` matrix in `a.txt` and a `3 x 1` matrix in
`b.txt`, `main` exits with status 1 without creating a thread or writing. -/
theorem dimension_check_witness :
    (main mismatchEnv "matMultp" []).outcome = Outcome.exit 1 ∧
    (∀ e ∈ (main mismatchEnv "matMultp" []).events, e.isReadOrPrint = true) ∧
    startsOf (main mismatchEnv "matMultp" []).events = [] ∧
    writtenOf (main mismatchEnv "matMultp" []).events = [] :=
  (dimension_check mismatchEnv "matMultp" [] ⟨"a.txt", "b.txt", "c"⟩
    [Event.fopenRead "a.txt"] [Event.fopenRead "b.txt"]
    ([[1, 2], [3, 4]], 2, 2) ([[1], [1], [1]], 3, 1) rfl (by decide) (by decide)).1
    (by decide)

theorem readOf_methodEvents (env : Env) (pre : String) (m p : Nat) (t1 t2 t3 : List Char) :
    readOf (method1Events env pre t1 ++
      (method2Events env pre m t2 ++ method3Events env pre m p t3)) = [] := by
  simp only [readOf, method1Events, method2Events, method3Events, List.filterMap_append,
    filterMap_flatMap_range, List.filterMap_cons, List.filterMap_nil, Event.readName,
    flatMap_range_nil, List.append_nil]

theorem writtenOf_methodEvents (env : Env) (pre : String) (m p : Nat) (t1 t2 t3 : List Char) :
    writtenOf (method1Events env pre t1 ++
      (method2Events env pre m t2 ++ method3Events env pre m p t3)) =
      [pre ++ "_per_matrix.txt", pre ++ "_per_row.txt", pre ++ "_per_element.txt"] := by
  simp only [writtenOf, method1Events, method2Events, method3Events, List.filterMap_append,
    filterMap_flatMap_range, List.filterMap_cons, List.filterMap_nil, Event.writtenName,
    flatMap_range_nil, List.append_nil, List.nil_append, List.cons_append]

/-- A run of `main` without resource failures on two files whose headers
give fitting, non-negative dimensions. -/
theorem mainBody_run (env : Env) (henv : env.permissive) (names : FileNames)
    (content1 content2 : List Char) (m n p : Nat)
    (hf1 : env.files names.inputFile1 = some content1) (hne1 : content1 ≠ [])
    (hf2 : env.files names.inputFile2 = some content2) (hne2 : content2 ≠ [])
    (hd1 : sscanfHeader (fgets 256 content1).1 0 0 = ((m : Int), (n : Int)))
    (hd2 : sscanfHeader (fgets 256 content2).1 0 0 = ((n : Int), (p : Int)))
    (hmp : m * p < 2147483648) :
    (mainBody env names).outcome = Outcome.ok 0 ∧
    readOf (mainBody env names).events = [names.inputFile1, names.inputFile2] ∧
    writtenOf (mainBody env names).events =
      [names.outputPrefix ++ "_per_matrix.txt", names.outputPrefix ++ "_per_row.txt",
        names.outputPrefix ++ "_per_element.txt"] := by
  obtain ⟨a, hra, hsa⟩ := readMatrix_run_of_ne_nil env henv.1 0 names.inputFile1 content1 hne1
    hf1 0 0
  obtain ⟨b, hrb, hsb⟩ := readMatrix_run_of_ne_nil env henv.1 1 names.inputFile2 content2 hne2
    hf2 0 0
  rw [hd1] at hra hsa
  rw [hd2] at hrb hsb
  simp only [Int.toNat_ofNat] at hsa hsb
  obtain ⟨t1, t2, t3, hrun⟩ := runMethods_run env henv names.outputPrefix a b m n p hsa hsb hmp
  have hmain := mainBody_match env names hra hrb rfl
  rw [hrun] at hmain
  rw [hmain]
  refine ⟨rfl, ?_, ?_⟩
  · simp only [readOf, List.filterMap_append]
    have := readOf_methodEvents env names.outputPrefix m p t1 t2 t3
    simp only [readOf, List.filterMap_append] at this
    rw [this]
    rfl
  · simp only [writtenOf, List.filterMap_append]
    have := writtenOf_methodEvents env names.outputPrefix m p t1 t2 t3
    simp only [writtenOf, List.filterMap_append] at this
    rw [this]
    rfl

/-- C8: file-name resolution. With no argument the inputs are `a.txt` and
`b.txt` and the prefix is `c`; with exactly three arguments `X Y P` that fit
the buffers the inputs are `X.txt` and `Y.txt` and the prefix is `P`; with
any other number of arguments `main` prints the usage line and exits with
status 1 without opening a file. In the accepted cases a run without resource
failures on fitting inputs opens exactly the two inputs and writes exactly
`P_per_matrix.txt`, `P_per_row.txt` and `P_per_element.txt`. -/
theorem file_name_resolution (env : Env) (prog : String) :
    resolveNames prog [] = Run.pure ⟨"a.txt", "b.txt", "c"⟩ ∧
    (∀ X Y P : String, X.utf8ByteSize + 4 < 100 → Y.utf8ByteSize + 4 < 100 →
      P.utf8ByteSize < 100 →
      resolveNames prog [X, Y, P] = Run.pure ⟨X ++ ".txt", Y ++ ".txt", P⟩) ∧
    (∀ args : List String, args.length ≠ 0 → args.length ≠ 3 →
      main env prog args =
        ⟨[Event.stdout ("Usage: " ++ prog ++ " [Mat1 Mat2 MatOut]\n")], Outcome.exit 1⟩) ∧
    (∀ (args : List String) (names : FileNames) (content1 content2 : List Char) (m n p : Nat),
      resolveNames prog args = Run.pure names → env.permissive →
      env.files names.inputFile1 = some content1 → content1 ≠ [] →
      env.files names.inputFile2 = some content2 → content2 ≠ [] →
      sscanfHeader (fgets 256 content1).1 0 0 = ((m : Int), (n : Int)) →
      sscanfHeader (fgets 256 content2).1 0 0 = ((n : Int), (p : Int)) →
      m * p < 2147483648 →
      (main env prog args).outcome = Outcome.ok 0 ∧
      readOf (main env prog args).events = [names.inputFile1, names.inputFile2] ∧
      writtenOf (main env prog args).events =
        [names.outputPrefix ++ "_per_matrix.txt", names.outputPrefix ++ "_per_row.txt",
          names.outputPrefix ++ "_per_element.txt"]) := by
  refine ⟨rfl, ?_, ?_, ?_⟩
  · intro X Y P hX hY hP
    simp only [resolveNames, hX, hY, hP, and_self, if_true]
  · intro args h0 h3
    have hres : resolveNames prog args =
        ⟨[Event.stdout ("Usage: " ++ prog ++ " [Mat1 Mat2 MatOut]\n")], Outcome.exit 1⟩ := by
      match args, h0, h3 with
      | [], h0, _ => exact absurd rfl h0
      | [_], _, _ => rfl
      | [_, _], _, _ => rfl
      | [_, _, _], _, h3 => exact absurd rfl h3
      | _ :: _ :: _ :: _ :: _, _, _ => rfl
    simp only [main, hres, Run.bind_eq, Run.bind_exit]
  · intro args names content1 content2 m n p hres henv hf1 hne1 hf2 hne2 hd1 hd2 hmp
    rw [main_eq_mainBody env prog args names hres]
    exact mainBody_run env henv names content1 content2 m n p hf1 hne1 hf2 hne2 hd1 hd2 hmp

/-- Witness for C8: the default run on the sample files returns 0, opens
`a.txt` and `b.txt`, and writes the three `c_per_*.txt` files. -/
theorem file_name_resolution_witness :
    (main sampleEnv "matMultp" []).outcome = Outcome.ok 0 ∧
    readOf (main sampleEnv "matMultp" []).events = ["a.txt", "b.txt"] ∧
    writtenOf (main sampleEnv "matMultp" []).events =
      ["c" ++ "_per_matrix.txt", "c" ++ "_per_row.txt", "c" ++ "_per_element.txt"] :=
  (file_name_resolution sampleEnv "matMultp").2.2.2 [] ⟨"a.txt", "b.txt", "c"⟩
    "row=2 col=2\n1 2 \n3 4 \n".toList "row=2 col=2\n5 6\n7 8\n".toList 2 2 2 rfl
    ⟨fun _ => rfl, fun _ _ => rfl, fun _ _ => rfl, fun _ => rfl⟩ (by decide) (by decide)
    (by decide) (by decide) (by decide) (by decide) (by decide)

/-! ### Enumeration, bounds and the machine product -/

theorem flatMap_singleton_eq_map {α β : Type} (f : α → β) (l : List α) :
    l.flatMap (fun x => [f x]) = l.map f := by
  induction l with
  | nil => rfl
  | cons x l ih => simp [List.flatMap_cons, ih]

/-- Row-major enumeration of a grid: the element at position `t` belongs to
cell `(t / p, t % p)`. -/
theorem flatMap_range_grid_cell {β : Type} (f : Nat → Nat → Nat → β) (m p : Nat) :
    (List.range m).flatMap (fun i => (List.range p).flatMap (fun j => [f (i * p + j) i j])) =
      (List.range (m * p)).map (fun t => f t (t / p) (t % p)) := by
  induction m with
  | zero => simp
  | succ m ih =>
    have e : (m + 1) * p = m * p + p := by ring
    rw [e, List.range_add (m * p) p, List.map_append, ← ih, List.range_succ,
      List.flatMap_append]
    congr 1
    simp only [List.flatMap_cons, List.flatMap_nil, List.append_nil, List.map_map]
    rw [flatMap_singleton_eq_map]
    apply List.map_congr_left
    intro j hj
    have hj' : j < p := List.mem_range.1 hj
    have hp : 0 < p := by omega
    have h1 : (m * p + j) / p = m := by
      rw [Nat.add_comm, Nat.add_mul_div_right _ _ hp, Nat.div_eq_of_lt hj']; simp
    have h2 : (m * p + j) % p = j := by
      rw [Nat.add_comm, Nat.add_mul_mod_self_right, Nat.mod_eq_of_lt hj']
    simp only [Function.comp, h1, h2]

theorem handlesOf_method3Events (env : Env) (pre : String) (m p : Nat) (text : List Char) :
    handlesOf 3 (method3Events env pre m p text) =
      (List.range (m * p)).map
        (fun t => (t, ThreadStart.multiplyElement ⟨t / p, t % p⟩)) := by
  simp only [handlesOf, method3Events, List.filterMap_append, filterMap_flatMap_range,
    List.filterMap_cons, List.filterMap_nil, Event.createdHandle, flatMap_range_nil,
    List.append_nil, if_true]
  exact flatMap_range_grid_cell (fun t i j => (t, ThreadStart.multiplyElement ⟨i, j⟩)) m p

theorem mem_dotReads {m n p i j : Nat} (hi : i < m) (hj : j < p) :
    ∀ k ≤ n, ∀ a ∈ dotReads i j k, a.inBounds m n p ∧ a.readsOutput = false := by
  intro k
  induction k with
  | zero => intro _ a ha; cases ha
  | succ k ih =>
    intro hk a ha
    have hk' : k < n := hk
    simp only [dotReads, List.mem_append, List.mem_cons, List.mem_singleton,
      List.not_mem_nil, or_false] at ha
    rcases ha with h | h | h
    · exact ih (Nat.le_of_lt hk') a h
    · subst h; exact ⟨⟨hi, hk'⟩, rfl⟩
    · subst h; exact ⟨⟨hk', hj⟩, rfl⟩

theorem mem_cellTrace {out : MatId} (ho : out.isOut) {m n p i j : Nat} (hi : i < m)
    (hj : j < p) : ∀ a ∈ cellTrace out n i j, a.inBounds m n p ∧ a.readsOutput = false := by
  intro a ha
  simp only [cellTrace, List.mem_append, List.mem_singleton] at ha
  rcases ha with h | h
  · exact mem_dotReads hi hj n (Nat.le_refl n) a h
  · subst h
    rcases ho with e | e | e <;> subst e <;> exact ⟨⟨hi, hj⟩, rfl⟩

theorem mem_rowTrace {out : MatId} (ho : out.isOut) {m n p i : Nat} (hi : i < m) :
    ∀ j ≤ p, ∀ a ∈ rowTrace out n i j, a.inBounds m n p ∧ a.readsOutput = false := by
  intro j
  induction j with
  | zero => intro _ a ha; cases ha
  | succ j ih =>
    intro hj a ha
    have hj' : j < p := hj
    simp only [rowTrace, List.mem_append] at ha
    rcases ha with h | h
    · exact ih (Nat.le_of_lt hj') a h
    · exact mem_cellTrace ho hi hj' a h

theorem mem_matTrace {out : MatId} (ho : out.isOut) {m n p : Nat} :
    ∀ i ≤ m, ∀ a ∈ matTrace out n p i, a.inBounds m n p ∧ a.readsOutput = false := by
  intro i
  induction i with
  | zero => intro _ a ha; cases ha
  | succ i ih =>
    intro hi a ha
    have hi' : i < m := hi
    simp only [matTrace, List.mem_append] at ha
    rcases ha with h | h
    · exact ih (Nat.le_of_lt hi') a h
    · exact mem_rowTrace ho hi' p (Nat.le_refl p) a h

theorem wrapInt_add_wrapInt (x y : Int) :
    wrapInt (wrapInt x + wrapInt y) = wrapInt (x + y) := by
  unfold wrapInt
  omega

/-- The machine dot product is the exact one reduced into the `int` range. -/
theorem wrapDot_eq_wrapInt_refDot (a b : Matrix) (i j : Nat) :
    ∀ k, wrapDot a b i j k = wrapInt (refDot a b i j k) := by
  intro k
  induction k with
  | zero => rfl
  | succ k ih =>
    simp only [wrapDot, refDot]
    rw [ih]
    exact wrapInt_add_wrapInt _ _

theorem machineProduct_hasShape (a b : Matrix) (m n p : Nat) :
    (machineProduct a b m n p).hasShape m p := by
  constructor
  · simp [machineProduct]
  · intro row hrow
    simp [machineProduct] at hrow
    obtain ⟨i, _, rfl⟩ := hrow
    simp

theorem machineProduct_load (a b : Matrix) {m n p i j : Nat} (hi : i < m) (hj : j < p) :
    (machineProduct a b m n p).load i j = some (wrapDot a b i j n) := by
  simp [machineProduct, Matrix.load, hi, hj, List.getElem?_eq_getElem]

/-- A result matrix every cell of which was filled is the machine product. -/
theorem Fills.eq_machineProduct {out : MatId} {tr g g'} {m n p : Nat}
    (h : Fills out (fun i' j' => decide (i' < m ∧ j' < p)) tr g g')
    (hg : WellFormed g m n p) (ho : out.isOut) :
    g'.mat out = machineProduct g.A g.B m n p := by
  apply Matrix.ext_load (h.shape m p (hg.mat_out ho)) (machineProduct_hasShape _ _ _ _ _)
  intro i j hi hj
  rw [h.load_full hg hi hj, machineProduct_load _ _ hi hj]

/-- C11: in a run without resource failures (and with `rows * cols` within
`int`), method 3 stores its threads row-major, `i` outer and `j` inner: the
handles stored are `0 .. rows*cols-1` in order, and for every `t < rows * cols`
the thread stored at `threads3[t]` is `multiplyElement` for the cell
`(t / cols, t mod cols)`, which lies inside the result matrix. -/
theorem element_enumeration (env : Env) (henv : env.permissive) (pre : String)
    (g : Globals) (rows n cols : Nat) (hg : WellFormed g rows n cols)
    (hmp : rows * cols < 2147483648) :
    handlesOf 3 (method3 env pre rows cols g).events =
      (List.range (rows * cols)).map
        (fun t => (t, ThreadStart.multiplyElement ⟨t / cols, t % cols⟩)) ∧
    ∀ t, t < rows * cols →
      (handlesOf 3 (method3 env pre rows cols g).events)[t]? =
        some (t, ThreadStart.multiplyElement ⟨t / cols, t % cols⟩) ∧
      t / cols < rows ∧ t % cols < cols := by
  obtain ⟨g3, _, _, h3⟩ := method3_run env henv pre hg hmp
  have hh := handlesOf_method3Events env pre rows cols (headerText rows cols ++ bodyText g3.C3)
  rw [h3]
  refine ⟨hh, ?_⟩
  intro t ht
  have hc : 0 < cols := by
    rcases Nat.eq_zero_or_pos cols with h | h
    · subst h; simp at ht
    · exact h
  refine ⟨?_, ?_, Nat.mod_lt _ hc⟩
  · simp only [hh, List.getElem?_map, List.getElem?_range ht, Option.map_some']
  · exact Nat.div_lt_of_lt_mul (by rw [Nat.mul_comm]; exact ht)

/-- Witness for C11 on the `2 x 2` sample: `threads3[2]` is the thread for
cell `(1, 0)`. -/
theorem element_enumeration_witness :
    (handlesOf 3 (method3 sampleEnv "c" ((2 : Nat) : Int) ((2 : Nat) : Int)
        sampleGlobals).events)[2]? =
      some (2, ThreadStart.multiplyElement ⟨2 / 2, 2 % 2⟩) ∧ 2 / 2 < 2 ∧ 2 % 2 < 2 :=
  (element_enumeration sampleEnv
    ⟨fun _ => rfl, fun _ _ => rfl, fun _ _ => rfl, fun _ => rfl⟩ "c" sampleGlobals 2 2 2
    (by decide) (by decide)).2 2 (by decide)

/-- Counterexample to C12: where the fresh memory holds `77`,
`allocateMatrix(1, 1)` returns `[[77]]`, not `[[0]]`. -/
theorem allocateMatrix_not_zeroed :
    allocateMatrix sampleEnv 2 1 1 = ⟨[], Outcome.ok [[77]]⟩ ∧
    Matrix.load [[77]] 0 0 ≠ some 0 := by
  decide

/-- C12, amended: `allocateMatrix(rows, cols)`, every allocation succeeding,
returns a `rows x cols` matrix whose cells are not initialised: each holds
whatever the allocated memory held. When the first allocation fails it exits
with status 1. -/
theorem allocateMatrix_fresh (env : Env) (slot : Nat) (rows cols : Nat) :
    ((∀ size, env.malloc size = true) →
      ∃ mat, allocateMatrix env slot rows cols = ⟨[], Outcome.ok mat⟩ ∧
        mat.hasShape rows cols ∧
        ∀ i j, i < rows → j < cols → mat.load i j = some (wrapInt (env.junk slot i j))) ∧
    (env.malloc (mallocSize rows 8) = false →
      (allocateMatrix env slot rows cols).outcome = Outcome.exit 1) := by
  refine ⟨?_, ?_⟩
  · intro hmal
    refine ⟨freshMatrix env slot rows cols, ?_, freshMatrix_hasShape _ _ _ _, ?_⟩
    · rw [allocateMatrix_ok env hmal]; simp
    · intro i j hi hj
      exact freshMatrix_load env slot hi hj
  · intro h
    simp only [allocateMatrix, h, Bool.false_eq_true, if_false, Run.bind_eq, Run.bind_emit,
      exitWith]

/-- Witness for the amended C12 in the sample environment. -/
theorem allocateMatrix_fresh_witness :
    ∃ mat, allocateMatrix sampleEnv 2 ((1 : Nat) : Int) ((1 : Nat) : Int) =
        ⟨[], Outcome.ok mat⟩ ∧
      mat.hasShape 1 1 ∧
      ∀ i j, i < 1 → j < 1 → mat.load i j = some (wrapInt (sampleEnv.junk 2 i j)) :=
  (allocateMatrix_fresh sampleEnv 2 1 1).1 (fun _ => rfl)

/-- C13: bounds errors are unreachable. In a state set up for an `m x n`
matrix `A`, an `n x p` matrix `B` and `m x p` results, every work unit of the
three methods runs without a failing lookup or store, and every access it
makes is in bounds: `A[i][k]` with `i < m`, `k < n`; `B[k][j]` with `k < n`,
`j < p`; `C[i][j]` with `i < m`, `j < p`. -/
theorem accesses_in_bounds (g : Globals) (m n p : Nat) (hg : WellFormed g m n p) :
    (∃ g' tr, multiplyMatrix g = some g' ∧ g'.log = g.log ++ tr ∧
      ∀ a ∈ tr, a.inBounds m n p) ∧
    (∀ i, i < m → ∃ g' tr, multiplyRow ⟨i⟩ g = some g' ∧ g'.log = g.log ++ tr ∧
      ∀ a ∈ tr, a.inBounds m n p) ∧
    (∀ i j, i < m → j < p → ∃ g' tr, multiplyElement ⟨i, j⟩ g = some g' ∧
      g'.log = g.log ++ tr ∧ ∀ a ∈ tr, a.inBounds m n p) := by
  refine ⟨?_, ?_, ?_⟩
  · obtain ⟨g', hrun, hf⟩ := multiplyMatrix_fills hg
    exact ⟨g', _, hrun, hf.log,
      fun a ha => (mem_matTrace (Or.inl rfl) m (Nat.le_refl m) a ha).1⟩
  · intro i hi
    obtain ⟨g', hrun, hf⟩ := multiplyRow_fills hg hi
    exact ⟨g', _, hrun, hf.log,
      fun a ha => (mem_rowTrace (Or.inr (Or.inl rfl)) hi p (Nat.le_refl p) a ha).1⟩
  · intro i j hi hj
    obtain ⟨g', hrun, hf⟩ := multiplyElement_fills hg hi hj
    exact ⟨g', _, hrun, hf.log,
      fun a ha => (mem_cellTrace (Or.inr (Or.inr rfl)) hi hj a ha).1⟩

/-- Witness for C13 on the `2 x 2` sample, for the whole-matrix worker. -/
theorem accesses_in_bounds_witness :
    ∃ g' tr, multiplyMatrix sampleGlobals = some g' ∧ g'.log = sampleGlobals.log ++ tr ∧
      ∀ a ∈ tr, a.inBounds 2 2 2 :=
  (accesses_in_bounds sampleGlobals 2 2 2 (by decide)).1

/-! ### Orders of the units of work -/

/-- The three methods one after the other: every result matrix ends as the
machine product, the inputs are untouched, and the accesses are the three
traces. -/
theorem runWorkers_spec {g : Globals} {m n p : Nat} (hg : WellFormed g m n p) :
    ∃ g3, runWorkers m p g = some g3 ∧
      g3.C1 = machineProduct g.A g.B m n p ∧ g3.C2 = machineProduct g.A g.B m n p ∧
      g3.C3 = machineProduct g.A g.B m n p ∧ g3.A = g.A ∧ g3.B = g.B ∧
      g3.log = g.log ++
        (matTrace MatId.C1 n p m ++ (matTrace MatId.C2 n p m ++ matTrace MatId.C3 n p m)) := by
  have o1 : MatId.C1.isOut := Or.inl rfl
  have o2 : MatId.C2.isOut := Or.inr (Or.inl rfl)
  have o3 : MatId.C3.isOut := Or.inr (Or.inr rfl)
  obtain ⟨g1, h1, f1⟩ := multiplyMatrix_fills hg
  have hg1 := f1.wellFormed o1 hg
  obtain ⟨g2, h2, f2⟩ := rowWorkers_fills hg1 m (Nat.le_refl m)
  have hg2 := f2.wellFormed o2 hg1
  obtain ⟨g3, h3, f3⟩ := elementWorkers_fills hg2 m (Nat.le_refl m)
  have eA1 : g1.A = g.A := f1.inputA o1
  have eB1 : g1.B = g.B := f1.inputB o1
  have eA2 : g2.A = g.A := (f2.inputA o2).trans eA1
  have eB2 : g2.B = g.B := (f2.inputB o2).trans eB1
  refine ⟨g3, ?_, ?_, ?_, ?_, (f3.inputA o3).trans eA2, (f3.inputB o3).trans eB2, ?_⟩
  · simp only [runWorkers, h1, h2, h3]
  · have e3 : g3.C1 = g2.C1 := f3.others MatId.C1 (by decide)
    have e2 : g2.C1 = g1.C1 := f2.others MatId.C1 (by decide)
    rw [e3, e2]
    exact f1.eq_machineProduct hg o1
  · have e3 : g3.C2 = g2.C2 := f3.others MatId.C2 (by decide)
    rw [e3, ← eA1, ← eB1]
    exact f2.eq_machineProduct hg1 o2
  · rw [← eA2, ← eB2]
    exact f3.eq_machineProduct hg2 o3
  · rw [f3.log, f2.log, f1.log]
    simp only [List.append_assoc]

/-- Two post-states of the same start state that filled the same cells of
`out` hold the same matrices. -/
theorem Fills.same_matrices {out : MatId} {S1 S2 tr1 tr2 g g1 g2} {m n p : Nat}
    (ho : out.isOut) (hg : WellFormed g m n p)
    (h1 : Fills out S1 tr1 g g1) (h2 : Fills out S2 tr2 g g2)
    (hS : ∀ i j, S1 i j = S2 i j) :
    ∀ id, g1.mat id = g2.mat id := by
  intro id
  by_cases e : id = out
  · subst e
    apply Matrix.ext_load (h1.shape m p (hg.mat_out ho)) (h2.shape m p (hg.mat_out ho))
    intro i j _ _
    rw [h1.cells, h2.cells, hS]
  · rw [h1.others id e, h2.others id e]

theorem runUnits_rows {m n p : Nat} :
    ∀ (l : List ThreadStart) (g : Globals), WellFormed g m n p →
      (∀ u ∈ l, ∃ i, i < m ∧ u = ThreadStart.multiplyRow ⟨i⟩) →
      ∃ g' tr, runUnits l g = some g' ∧
        Fills MatId.C2
          (fun i' j' => decide (ThreadStart.multiplyRow ⟨i'⟩ ∈ l ∧ j' < p)) tr g g' := by
  intro l
  induction l with
  | nil =>
    intro g _ _
    exact ⟨g, [], rfl, (Fills.refl MatId.C2 g).congr (by simp)⟩
  | cons u l ih =>
    intro g hg hl
    obtain ⟨i, hi, rfl⟩ := hl u (List.mem_cons_self _ _)
    obtain ⟨g1, h1, f1⟩ := multiplyRow_fills hg hi
    have hg1 := f1.wellFormed (Or.inr (Or.inl rfl)) hg
    obtain ⟨g2, tr, h2, f2⟩ := ih g1 hg1 (fun v hv => hl v (List.mem_cons_of_mem _ hv))
    refine ⟨g2, _, ?_, (Fills.trans (Or.inr (Or.inl rfl)) f1 f2).congr ?_⟩
    · simp only [runUnits, ThreadStart.run, h1, h2]
    · intro i' j'
      by_cases e : i' = i
      · subst e; simp
      · have : ¬ i = i' := fun h => e h.symm
        simp [e, this]

theorem runUnits_elements {m n p : Nat} :
    ∀ (l : List ThreadStart) (g : Globals), WellFormed g m n p →
      (∀ u ∈ l, ∃ i j, i < m ∧ j < p ∧ u = ThreadStart.multiplyElement ⟨i, j⟩) →
      ∃ g' tr, runUnits l g = some g' ∧
        Fills MatId.C3
          (fun i' j' => decide (ThreadStart.multiplyElement ⟨i', j'⟩ ∈ l)) tr g g' := by
  intro l
  induction l with
  | nil =>
    intro g _ _
    exact ⟨g, [], rfl, (Fills.refl MatId.C3 g).congr (by simp)⟩
  | cons u l ih =>
    intro g hg hl
    obtain ⟨i, j, hi, hj, rfl⟩ := hl u (List.mem_cons_self _ _)
    obtain ⟨g1, h1, f1⟩ := multiplyElement_fills hg hi hj
    have hg1 := f1.wellFormed (Or.inr (Or.inr rfl)) hg
    obtain ⟨g2, tr, h2, f2⟩ := ih g1 hg1 (fun v hv => hl v (List.mem_cons_of_mem _ hv))
    refine ⟨g2, _, ?_, (Fills.trans (Or.inr (Or.inr rfl)) f1 f2).congr ?_⟩
    · simp only [runUnits, ThreadStart.run, h1, h2]
    · intro i' j'
      by_cases e : i' = i ∧ j' = j
      · obtain ⟨rfl, rfl⟩ := e; simp
      · have : ¬ (i = i' ∧ j = j') := fun h => e ⟨h.1.symm, h.2.symm⟩
        simp [e, this]

/-- Row threads run in two orders over the same set of rows end in the same
matrices. -/
theorem runUnits_rows_same {g : Globals} {m n p : Nat} (hg : WellFormed g m n p)
    (l1 l2 : List ThreadStart)
    (h1 : ∀ u ∈ l1, ∃ i, i < m ∧ u = ThreadStart.multiplyRow ⟨i⟩)
    (hmem : ∀ u, u ∈ l2 ↔ u ∈ l1) :
    ∃ g1 g2, runUnits l1 g = some g1 ∧ runUnits l2 g = some g2 ∧
      ∀ id, g2.mat id = g1.mat id := by
  obtain ⟨g1, tr1, r1, f1⟩ := runUnits_rows l1 g hg h1
  obtain ⟨g2, tr2, r2, f2⟩ := runUnits_rows l2 g hg (fun u hu => h1 u ((hmem u).1 hu))
  refine ⟨g1, g2, r1, r2, Fills.same_matrices (Or.inr (Or.inl rfl)) hg f2 f1 ?_⟩
  intro i j
  simp only [hmem]

/-- Element threads run in two orders over the same set of cells end in the
same matrices. -/
theorem runUnits_elements_same {g : Globals} {m n p : Nat} (hg : WellFormed g m n p)
    (l1 l2 : List ThreadStart)
    (h1 : ∀ u ∈ l1, ∃ i j, i < m ∧ j < p ∧ u = ThreadStart.multiplyElement ⟨i, j⟩)
    (hmem : ∀ u, u ∈ l2 ↔ u ∈ l1) :
    ∃ g1 g2, runUnits l1 g = some g1 ∧ runUnits l2 g = some g2 ∧
      ∀ id, g2.mat id = g1.mat id := by
  obtain ⟨g1, tr1, r1, f1⟩ := runUnits_elements l1 g hg h1
  obtain ⟨g2, tr2, r2, f2⟩ := runUnits_elements l2 g hg (fun u hu => h1 u ((hmem u).1 hu))
  refine ⟨g1, g2, r1, r2, Fills.same_matrices (Or.inr (Or.inr rfl)) hg f2 f1 ?_⟩
  intro i j
  simp only [hmem]

theorem mem_rowUnits {m : Nat} {u : ThreadStart} :
    u ∈ (List.range m).flatMap (fun i => [ThreadStart.multiplyRow ⟨i⟩]) ↔
      ∃ i, i < m ∧ u = ThreadStart.multiplyRow ⟨i⟩ := by
  simp only [List.mem_flatMap, List.mem_range, List.mem_singleton]

theorem mem_elementUnits {m p : Nat} {u : ThreadStart} :
    u ∈ (List.range m).flatMap (fun i => (List.range p).flatMap (fun j =>
        [ThreadStart.multiplyElement ⟨i, j⟩])) ↔
      ∃ i j, i < m ∧ j < p ∧ u = ThreadStart.multiplyElement ⟨i, j⟩ := by
  simp only [List.mem_flatMap, List.mem_range, List.mem_singleton]
  constructor
  · rintro ⟨i, hi, j, hj, rfl⟩; exact ⟨i, j, hi, hj, rfl⟩
  · rintro ⟨i, j, hi, hj, rfl⟩; exact ⟨i, hi, j, hj, rfl⟩

/-- C14: order independence of work units. In a run without resource
failures, for method 2 (and for method 3 when `rows * cols` is within `int`):
running the threads the method created one after another in any permuted
order succeeds and leaves all five matrices, the output matrix among them, as
the method itself leaves them; and any two of its threads commute. -/
theorem unit_order_independence (env : Env) (henv : env.permissive) (pre : String)
    (g : Globals) (rows n cols : Nat) (hg : WellFormed g rows n cols) :
    (∃ gm, (method2 env pre rows cols g).outcome = Outcome.ok gm ∧
      (∀ order, order.Perm (startsOf (method2 env pre rows cols g).events) →
        ∃ g', runUnits order g = some g' ∧ ∀ id, g'.mat id = gm.mat id) ∧
      (∀ u v, u ∈ startsOf (method2 env pre rows cols g).events →
        v ∈ startsOf (method2 env pre rows cols g).events →
        ∃ g1 g2, runUnits [u, v] g = some g1 ∧ runUnits [v, u] g = some g2 ∧
          ∀ id, g2.mat id = g1.mat id)) ∧
    (rows * cols < 2147483648 →
      ∃ gm t, (method3 env pre rows cols g).outcome = Outcome.ok (gm, t) ∧
        (∀ order, order.Perm (startsOf (method3 env pre rows cols g).events) →
          ∃ g', runUnits order g = some g' ∧ ∀ id, g'.mat id = gm.mat id) ∧
        (∀ u v, u ∈ startsOf (method3 env pre rows cols g).events →
          v ∈ startsOf (method3 env pre rows cols g).events →
          ∃ g1 g2, runUnits [u, v] g = some g1 ∧ runUnits [v, u] g = some g2 ∧
            ∀ id, g2.mat id = g1.mat id)) := by
  refine ⟨?_, ?_⟩
  · obtain ⟨gm, _, fm, hm⟩ := method2_run env henv pre hg
    rw [hm, startsOf_method2Events]
    refine ⟨gm, rfl, ?_, ?_⟩
    · intro order hperm
      have hrows : ∀ u ∈ order, ∃ i, i < rows ∧ u = ThreadStart.multiplyRow ⟨i⟩ :=
        fun u hu => mem_rowUnits.1 (hperm.mem_iff.1 hu)
      obtain ⟨g', tr, hrun, hf⟩ := runUnits_rows order g hg hrows
      refine ⟨g', hrun, Fills.same_matrices (Or.inr (Or.inl rfl)) hg hf fm ?_⟩
      intro i j
      have : ThreadStart.multiplyRow ⟨i⟩ ∈ order ↔ i < rows := by
        rw [hperm.mem_iff, mem_rowUnits]
        constructor
        · rintro ⟨i', hi', h⟩
          injection h with h
          injection h with h
          rw [h]; exact hi'
        · intro h; exact ⟨i, h, rfl⟩
      simp only [this]
    · intro u v hu hv
      refine runUnits_rows_same hg [u, v] [v, u] ?_ ?_
      · intro w hw
        simp only [List.mem_cons, List.mem_singleton, List.not_mem_nil, or_false] at hw
        rcases hw with h | h
        · rw [h]; exact mem_rowUnits.1 hu
        · rw [h]; exact mem_rowUnits.1 hv
      · intro w
        simp only [List.mem_cons, List.mem_singleton, List.not_mem_nil, or_false]
        exact Or.comm
  · intro hmp
    obtain ⟨gm, _, fm, hm⟩ := method3_run env henv pre hg hmp
    rw [hm, startsOf_method3Events]
    refine ⟨gm, rows * cols, rfl, ?_, ?_⟩
    · intro order hperm
      have hel : ∀ u ∈ order, ∃ i j, i < rows ∧ j < cols ∧
          u = ThreadStart.multiplyElement ⟨i, j⟩ :=
        fun u hu => mem_elementUnits.1 (hperm.mem_iff.1 hu)
      obtain ⟨g', tr, hrun, hf⟩ := runUnits_elements order g hg hel
      refine ⟨g', hrun, Fills.same_matrices (Or.inr (Or.inr rfl)) hg hf fm ?_⟩
      intro i j
      have : ThreadStart.multiplyElement ⟨i, j⟩ ∈ order ↔ i < rows ∧ j < cols := by
        rw [hperm.mem_iff, mem_elementUnits]
        constructor
        · rintro ⟨i', j', hi', hj', h⟩
          injection h with h
          injection h with h1 h2
          rw [h1, h2]; exact ⟨hi', hj'⟩
        · intro h; exact ⟨i, j, h.1, h.2, rfl⟩
      simp only [this]
    · intro u v hu hv
      refine runUnits_elements_same hg [u, v] [v, u] ?_ ?_
      · intro w hw
        simp only [List.mem_cons, List.mem_singleton, List.not_mem_nil, or_false] at hw
        rcases hw with h | h
        · rw [h]; exact mem_elementUnits.1 hu
        · rw [h]; exact mem_elementUnits.1 hv
      · intro w
        simp only [List.mem_cons, List.mem_singleton, List.not_mem_nil, or_false]
        exact Or.comm

/-- Witness for C14 on the `2 x 2` sample: the row threads in the order
`1, 0` leave the matrices as method 2 leaves them. -/
theorem unit_order_independence_witness :
    ∃ gm, (method2 sampleEnv "c" ((2 : Nat) : Int) ((2 : Nat) : Int) sampleGlobals).outcome =
        Outcome.ok gm ∧
      ∃ g', runUnits [ThreadStart.multiplyRow ⟨1⟩, ThreadStart.multiplyRow ⟨0⟩] sampleGlobals =
          some g' ∧ ∀ id, g'.mat id = gm.mat id := by
  obtain ⟨gm, hm, hperm, _⟩ := (unit_order_independence sampleEnv
    ⟨fun _ => rfl, fun _ _ => rfl, fun _ _ => rfl, fun _ => rfl⟩ "c" sampleGlobals 2 2 2
    (by decide)).1
  exact ⟨gm, hm, hperm [ThreadStart.multiplyRow ⟨1⟩, ThreadStart.multiplyRow ⟨0⟩] (by decide)⟩

/-! ### Claims on timing and overflow -/

/-- C15 at its failing input: with start `1 s 900000 us` and stop
`2 s 100000 us` (0.2 s elapsed), method 1 reports `1` second and `-800000`
microseconds. The two differences are printed as they are, without the borrow
that would make the microseconds non-negative. -/
theorem elapsed_microseconds_negative :
    timesOf 1 (method1 borrowEnv "c" 2 2 sampleGlobals).events = [(1, -800000)] ∧
    (1 : Int) * 1000000 + -800000 = (2 * 1000000 + 100000) - (1 * 1000000 + 900000) ∧
    ¬ (0 : Int) ≤ -800000 := by
  decide

/-- C17: the output does not depend on the initial contents of the result
matrices. Two states set up for the same `A` and `B`, whatever `C1`, `C2` and
`C3` hold at the start, end after the three methods with the same `C1`, `C2`
and `C3`: each is the product computed from `A` and `B` alone. Both runs make
the same accesses, and none of them reads a cell of a result matrix. -/
theorem output_independent_of_initial_contents (g1 g2 : Globals) (m n p : Nat)
    (h1 : WellFormed g1 m n p) (h2 : WellFormed g2 m n p)
    (hA : g2.A = g1.A) (hB : g2.B = g1.B) :
    ∃ r1 r2 tr, runWorkers m p g1 = some r1 ∧ runWorkers m p g2 = some r2 ∧
      r2.C1 = r1.C1 ∧ r2.C2 = r1.C2 ∧ r2.C3 = r1.C3 ∧
      r1.C1 = machineProduct g1.A g1.B m n p ∧ r1.C2 = machineProduct g1.A g1.B m n p ∧
      r1.C3 = machineProduct g1.A g1.B m n p ∧
      r1.log = g1.log ++ tr ∧ r2.log = g2.log ++ tr ∧
      ∀ a ∈ tr, a.readsOutput = false := by
  obtain ⟨r1, hr1, c11, c12, c13, _, _, hl1⟩ := runWorkers_spec h1
  obtain ⟨r2, hr2, c21, c22, c23, _, _, hl2⟩ := runWorkers_spec h2
  rw [hA, hB] at c21 c22 c23
  refine ⟨r1, r2, _, hr1, hr2, c21.trans c11.symm, c22.trans c12.symm, c23.trans c13.symm,
    c11, c12, c13, hl1, hl2, ?_⟩
  intro a ha
  simp only [List.mem_append] at ha
  rcases ha with h | h | h
  · exact (mem_matTrace (Or.inl rfl) m (Nat.le_refl m) a h).2
  · exact (mem_matTrace (Or.inr (Or.inl rfl)) m (Nat.le_refl m) a h).2
  · exact (mem_matTrace (Or.inr (Or.inr rfl)) m (Nat.le_refl m) a h).2

/-- Witness for C17: the `2 x 2` sample started from two different contents
of the result matrices. -/
theorem output_independent_of_initial_contents_witness :
    sampleGlobalsAlt.C1 ≠ sampleGlobals.C1 ∧
    ∃ r1 r2 tr, runWorkers 2 2 sampleGlobals = some r1 ∧
      runWorkers 2 2 sampleGlobalsAlt = some r2 ∧
      r2.C1 = r1.C1 ∧ r2.C2 = r1.C2 ∧ r2.C3 = r1.C3 ∧
      r1.C1 = machineProduct sampleGlobals.A sampleGlobals.B 2 2 2 ∧
      r1.C2 = machineProduct sampleGlobals.A sampleGlobals.B 2 2 2 ∧
      r1.C3 = machineProduct sampleGlobals.A sampleGlobals.B 2 2 2 ∧
      r1.log = sampleGlobals.log ++ tr ∧ r2.log = sampleGlobalsAlt.log ++ tr ∧
      ∀ a ∈ tr, a.readsOutput = false :=
  ⟨by decide, output_independent_of_initial_contents sampleGlobals sampleGlobalsAlt 2 2 2
    (by decide) (by decide) rfl rfl⟩

/-- C18: agreement under overflow. With `int` arithmetic wrapping modulo
`2^32`, for every state set up for an `m x n` by `n x p` product, overflowing
ones included, the three methods succeed with `C1 = C2 = C3`, and every cell
`(i, j)` is the exact dot product reduced modulo `2^32` into the `int` range;
it is the exact dot product itself whenever that fits the `int` range,
whatever the partial sums did. -/
theorem agreement_under_overflow (g : Globals) (m n p : Nat) (hg : WellFormed g m n p) :
    ∃ g3, runWorkers m p g = some g3 ∧ g3.C1 = g3.C2 ∧ g3.C2 = g3.C3 ∧
      ∀ i j, i < m → j < p →
        g3.C1.load i j = some (wrapInt (refDot g.A g.B i j n)) ∧
        inInt (wrapInt (refDot g.A g.B i j n)) ∧
        (wrapInt (refDot g.A g.B i j n) - refDot g.A g.B i j n) % 4294967296 = 0 ∧
        (inInt (refDot g.A g.B i j n) → g3.C1.load i j = some (refDot g.A g.B i j n)) := by
  obtain ⟨g3, hrun, c1, c2, c3, _, _, _⟩ := runWorkers_spec hg
  refine ⟨g3, hrun, c1.trans c2.symm, c2.trans c3.symm, ?_⟩
  intro i j hi hj
  have hl : g3.C1.load i j = some (wrapInt (refDot g.A g.B i j n)) := by
    rw [c1, machineProduct_load _ _ hi hj, wrapDot_eq_wrapInt_refDot]
  refine ⟨hl, inInt_wrapInt _, ?_, ?_⟩
  · unfold wrapInt; omega
  · intro hfit
    rw [hl, wrapInt_of_inInt hfit]

/-- Witness for C18: `[[2147483647, 2147483647]]` times `[[2], [-2]]`. Both
products overflow, the exact dot product is `0`, and all three methods store
`0`. -/
theorem agreement_under_overflow_witness :
    ¬ inInt (2147483647 * 2) ∧ refDot overflowGlobals.A overflowGlobals.B 0 0 2 = 0 ∧
    ∃ g3, runWorkers 1 1 overflowGlobals = some g3 ∧ g3.C1 = g3.C2 ∧ g3.C2 = g3.C3 ∧
      g3.C1.load 0 0 = some (refDot overflowGlobals.A overflowGlobals.B 0 0 2) := by
  obtain ⟨g3, hrun, e1, e2, h⟩ := agreement_under_overflow overflowGlobals 1 2 1 (by decide)
  exact ⟨by decide, by decide, g3, hrun, e1, e2, (h 0 0 (by decide) (by decide)).2.2.2
    (by decide)⟩

/-! ### Order of the events of a method -/

theorem Run.bind_failed {α β : Type} {r : Run α} (f : α → Run β) (h : r.failed) :
    (Run.bind r f).events = r.events ∧ (Run.bind r f).failed := by
  obtain ⟨ev, o⟩ := r
  cases o with
  | ok a => exact absurd rfl (h a)
  | exit st => exact ⟨rfl, fun a h' => by cases h'⟩
  | undefined => exact ⟨rfl, fun a h' => by cases h'⟩

/-- Case rule for `forRun`: every iteration either completes with its
expected events or fails having produced only events that satisfy `Q`. -/
theorem forRun_cases {σ : Type} (n : Nat) (body : Nat → σ → Run σ) (I : Nat → σ → Prop)
    (ev : Nat → List Event) (Q : Event → Prop) (s : σ) (h0 : I 0 s)
    (hev : ∀ k, ∀ e ∈ ev k, Q e)
    (hstep : ∀ k < n, ∀ t, I k t →
      (∃ t', body k t = ⟨ev k, Outcome.ok t'⟩ ∧ I (k + 1) t') ∨
      ((body k t).failed ∧ ∀ e ∈ (body k t).events, Q e)) :
    (∃ s', forRun n body s = ⟨(List.range n).flatMap ev, Outcome.ok s'⟩ ∧ I n s') ∨
    ((forRun n body s).failed ∧ ∀ e ∈ (forRun n body s).events, Q e) := by
  induction n with
  | zero => exact Or.inl ⟨s, rfl, h0⟩
  | succ n ih =>
    have hQ : ∀ e ∈ (List.range n).flatMap ev, Q e := by
      intro e he
      obtain ⟨k, _, hk⟩ := List.mem_flatMap.1 he
      exact hev k e hk
    rcases ih (fun k hk t ht => hstep k (Nat.lt_succ_of_lt hk) t ht) with
      ⟨s1, h1, hI⟩ | ⟨hf, hq⟩
    · rcases hstep n (Nat.lt_succ_self n) s1 hI with ⟨s2, h2, hI2⟩ | ⟨hf, hq⟩
      · left
        refine ⟨s2, ?_, hI2⟩
        rw [forRun_succ, h1, Run.bind_ok, h2]
        simp [List.range_succ, List.flatMap_append]
      · right
        rw [forRun_succ, h1, Run.bind_ok]
        refine ⟨hf, ?_⟩
        intro e he
        rcases List.mem_append.1 he with h | h
        · exact hQ e h
        · exact hq e h
    · right
      rw [forRun_succ]
      obtain ⟨he, hf'⟩ := Run.bind_failed (body n) hf
      exact ⟨hf', by rw [he]; exact hq⟩

theorem writeMatrix_events (env : Env) (name : String) (mat : Matrix) (rows cols : Int) :
    ∀ e ∈ (writeMatrix env name mat rows cols).events, e.isThread = false := by
  intro e he
  simp only [writeMatrix, Run.bind_eq, Run.bind_emit, List.mem_cons] at he
  rcases he with h | he
  · rw [h]; rfl
  · split at he
    · rcases Run.mem_bind_events he with h | ⟨t, _, h⟩
      · rw [ofOption_events] at h; cases h
      · simp only [emit, List.mem_singleton] at h
        rw [h]; rfl
    · simp only [Run.bind_emit, exitWith, List.mem_singleton] at he
      rw [he]; rfl

/-- The events after the join loop of a method: the stop timestamp, the
report and the writing. -/
theorem tail_events (env : Env) (name : String) (mat : Matrix) (rows cols : Int)
    {α : Type} (a : α) (k c : Nat) (threads : Int) (start : Int × Int) :
    ∀ e ∈ (Run.bind (gettimeofday env c TimeVar.stop) (fun stop =>
        Run.bind (emit (Event.report k threads (stop.1 - start.1) (stop.2 - start.2)))
          (fun _ => Run.bind (writeMatrix env name mat rows cols) (fun _ => Run.pure a)))).events,
      e.isThread = false := by
  intro e he
  rw [Run.bind_gettimeofday, Run.bind_emit] at he
  rcases List.mem_cons.1 he with h | he
  · rw [h]; rfl
  rcases List.mem_cons.1 he with h | h
  · rw [h]; rfl
  · rcases Run.mem_bind_events h with h' | ⟨_, _, h'⟩
    · exact writeMatrix_events _ _ _ _ _ e h'
    · cases h'

theorem filters_nil_of_not_thread {l : List Event} (h : ∀ e ∈ l, e.isThread = false)
    (k : Nat) : createdOf k l = [] ∧ joinedOf k l = [] := by
  induction l with
  | nil => exact ⟨rfl, rfl⟩
  | cons e l ih =>
    have he := h e (List.mem_cons_self _ _)
    have hl := ih (fun e' he' => h e' (List.mem_cons_of_mem _ he'))
    cases e <;> simp_all [createdOf, joinedOf, Event.isThread, Event.createdIndex,
      Event.joinedIndex]

theorem joinedOf_take_of_not_thread {l : List Event} (h : ∀ e ∈ l, e.isThread = false)
    (k : Nat) {l1 l2 : List Event} (hl : l = l1 ++ l2) : joinedOf k l1 = [] :=
  (filters_nil_of_not_thread (fun e he => h e (by rw [hl]; exact List.mem_append_left _ he))
    k).2

/-- An event that waits for the threads, found in `l1 ++ l2`, lies in `l2`
when `l1` holds none. -/
theorem split_after_quiet {l1 l2 before after : List Event} {e : Event}
    (hq : ∀ x ∈ l1, x.waitsForThreads = false) (he : e.waitsForThreads = true)
    (h : l1 ++ l2 = before ++ e :: after) :
    ∃ mid, before = l1 ++ mid ∧ l2 = mid ++ e :: after := by
  rcases List.append_eq_append_iff.1 h with ⟨a', h1, h2⟩ | ⟨c', h1, h2⟩
  · exact ⟨a', h1, h2⟩
  · cases c' with
    | nil =>
      refine ⟨[], ?_, ?_⟩
      · simpa using h1.symm
      · simpa using h2.symm
    | cons c cs =>
      exfalso
      simp only [List.cons_append, List.cons.injEq] at h2
      have hmem : e ∈ l1 := by rw [h1, h2.1]; simp
      have := hq e hmem
      rw [he] at this
      cases this

theorem joinAll_of_quiet {k N : Nat} {events : List Event}
    (h : ∀ e ∈ events, e.waitsForThreads = false) : JoinAll k N events := by
  intro before e after hsplit he
  have : e ∈ events := by rw [hsplit]; simp
  have := h e this
  rw [he] at this
  cases this

theorem joinAll_of_shape {k N : Nat} {cr jn rest : List Event}
    (hcq : ∀ e ∈ cr, e.waitsForThreads = false) (hjq : ∀ e ∈ jn, e.waitsForThreads = false)
    (hcc : createdOf k cr = List.range N) (hcj : joinedOf k cr = [])
    (hjc : createdOf k jn = []) (hjj : joinedOf k jn = List.range N)
    (hrest : ∀ e ∈ rest, e.isThread = false) :
    JoinAll k N (cr ++ (jn ++ rest)) := by
  intro before e after hsplit he
  have hr := filters_nil_of_not_thread hrest k
  refine ⟨?_, ?_⟩
  · simp only [createdOf, List.filterMap_append] at hcc hjc hr ⊢
    rw [hcc, hjc, hr.1]; simp
  · rw [← List.append_assoc] at hsplit
    have hq : ∀ x ∈ cr ++ jn, x.waitsForThreads = false := by
      intro x hx
      rcases List.mem_append.1 hx with h | h
      · exact hcq x h
      · exact hjq x h
    obtain ⟨mid, hb, hrest'⟩ := split_after_quiet hq he hsplit
    have hmid : joinedOf k mid = [] := joinedOf_take_of_not_thread hrest k hrest'
    rw [hb]
    simp only [joinedOf, List.filterMap_append] at hcj hjj hmid ⊢
    rw [hcj, hjj, hmid]; simp

/-- An event in front that is neither a thread event nor one that waits for
the threads does not disturb the barrier. -/
theorem joinAll_cons {k N : Nat} {e0 : Event} {l : List Event}
    (hq : e0.waitsForThreads = false) (ht : e0.isThread = false) (h : JoinAll k N l) :
    JoinAll k N (e0 :: l) := by
  intro before e after hsplit he
  have h0 := filters_nil_of_not_thread (l := [e0])
    (fun x hx => by rw [List.mem_singleton.1 hx]; exact ht) k
  cases before with
  | nil =>
    simp only [List.nil_append, List.cons.injEq] at hsplit
    rw [← hsplit.1, hq] at he
    cases he
  | cons b bs =>
    simp only [List.cons_append, List.cons.injEq] at hsplit
    obtain ⟨hb, hl⟩ := hsplit
    subst hb
    obtain ⟨hc, hj⟩ := h bs e after hl he
    refine ⟨?_, ?_⟩
    · have : createdOf k (e0 :: l) = createdOf k [e0] ++ createdOf k l := by
        simp only [createdOf, ← List.filterMap_append, List.singleton_append]
      rw [this, h0.1, hc, List.nil_append]
    · have : joinedOf k (e0 :: bs) = joinedOf k [e0] ++ joinedOf k bs := by
        simp only [joinedOf, ← List.filterMap_append, List.singleton_append]
      rw [this, h0.2, hj, List.nil_append]

theorem method1_shape (env : Env) (pre : String) {g : Globals} {m n p : Nat}
    (hg : WellFormed g m n p) :
    (∀ e ∈ (method1 env pre m p g).events, e.waitsForThreads = false) ∨
    ∃ rest, (method1 env pre m p g).events =
        Event.gettimeofday TimeVar.start (env.clock 0).1 (env.clock 0).2 ::
          ([Event.threadCreate 1 0 ThreadStart.multiplyMatrix] ++
            ([Event.threadJoin 1 0] ++ rest)) ∧
      ∀ e ∈ rest, e.isThread = false := by
  obtain ⟨g1, hrun, _⟩ := multiplyMatrix_fills hg
  by_cases hc : env.create 1 0 = true
  · by_cases hj : env.join 1 0 = true
    · right
      refine ⟨_, ?_, tail_events env (pre ++ "_per_matrix.txt") g1.C1 m p g1 1 1 1
        (env.clock 0)⟩
      simp only [method1, hc, hj, if_true, ThreadStart.run, hrun, Run.bind_eq, ofOption,
        Run.bind_pure]
      rfl
    · left
      intro e he
      simp only [method1, hc, hj, if_true, if_false, ThreadStart.run, hrun, Run.bind_eq,
        ofOption, Run.bind_pure, Run.bind_emit, Run.bind_gettimeofday, exitWith, List.mem_cons,
        List.mem_singleton, List.not_mem_nil, or_false, Bool.false_eq_true] at he
      rcases he with h | h | h <;> rw [h] <;> rfl
  · left
    intro e he
    simp only [method1, hc, if_false, Run.bind_eq, Run.bind_emit, Run.bind_gettimeofday,
      exitWith, List.mem_cons, List.mem_singleton, List.not_mem_nil, or_false,
      Bool.false_eq_true] at he
    rcases he with h | h <;> rw [h] <;> rfl

theorem createRow_cases (env : Env) {m n p : Nat} (k : Nat) (hk : k < m) (t : Globals)
    (ht : WellFormed t m n p) :
    (∃ t', createRow env k t =
        ⟨[Event.threadCreate 2 k (ThreadStart.multiplyRow ⟨k⟩)], Outcome.ok t'⟩ ∧
      WellFormed t' m n p) ∨
    ((createRow env k t).failed ∧ ∀ e ∈ (createRow env k t).events, e.waitsForThreads = false) := by
  obtain ⟨t', hrun, hf⟩ := multiplyRow_fills ht hk
  by_cases hm : env.malloc 4 = true
  · by_cases hc : env.create 2 k = true
    · left
      refine ⟨t', ?_, hf.wellFormed (Or.inr (Or.inl rfl)) ht⟩
      simp only [createRow, hm, hc, if_true, ThreadStart.run, hrun, Run.bind_eq,
        Run.bind_emit, ofOption, Run.pure]
    · right
      simp only [createRow, hm, hc, if_true, if_false, Run.bind_eq, Run.bind_emit, exitWith,
        Bool.false_eq_true]
      refine ⟨(fun a h => by cases h), ?_⟩
      intro e he
      rw [List.mem_singleton.1 he]; rfl
  · right
    simp only [createRow, hm, if_false, ofOption, Bool.false_eq_true]
    exact ⟨(fun a h => by cases h), fun e he => by cases he⟩

theorem joinRow_cases (env : Env) (k : Nat) :
    (∃ u, joinRow env k () = ⟨[Event.threadJoin 2 k], Outcome.ok u⟩ ∧ True) ∨
    ((joinRow env k ()).failed ∧ ∀ e ∈ (joinRow env k ()).events, e.waitsForThreads = false) := by
  by_cases hj : env.join 2 k = true
  · left
    exact ⟨(), by simp only [joinRow, hj, if_true, emit], trivial⟩
  · right
    simp only [joinRow, hj, if_false, Run.bind_eq, Run.bind_emit, exitWith,
      Bool.false_eq_true]
    refine ⟨(fun a h => by cases h), ?_⟩
    intro e he
    rw [List.mem_singleton.1 he]; rfl

theorem quiet_flatMap_create (k m : Nat) (f : Nat → ThreadStart) :
    ∀ e ∈ (List.range m).flatMap (fun i => [Event.threadCreate k i (f i)]),
      e.waitsForThreads = false := by
  intro e he
  simp only [List.mem_flatMap, List.mem_range, List.mem_singleton] at he
  obtain ⟨i, _, rfl⟩ := he
  rfl

theorem quiet_flatMap_join (k m : Nat) :
    ∀ e ∈ (List.range m).flatMap (fun i => [Event.threadJoin k i]), e.waitsForThreads = false := by
  intro e he
  simp only [List.mem_flatMap, List.mem_range, List.mem_singleton] at he
  obtain ⟨i, _, rfl⟩ := he
  rfl

theorem method2_shape (env : Env) (pre : String) {g : Globals} {m n p : Nat}
    (hg : WellFormed g m n p) :
    (∀ e ∈ (method2 env pre m p g).events, e.waitsForThreads = false) ∨
    ∃ rest, (method2 env pre m p g).events =
        Event.gettimeofday TimeVar.start (env.clock 2).1 (env.clock 2).2 ::
          ((List.range m).flatMap
              (fun i => [Event.threadCreate 2 i (ThreadStart.multiplyRow ⟨i⟩)])
            ++ ((List.range m).flatMap (fun i => [Event.threadJoin 2 i]) ++ rest)) ∧
      ∀ e ∈ rest, e.isThread = false := by
  have hcreate := forRun_cases m (createRow env) (fun _ s => WellFormed s m n p)
    (fun i => [Event.threadCreate 2 i (ThreadStart.multiplyRow ⟨i⟩)])
    (fun e => e.waitsForThreads = false) g hg
    (fun k e he => by rw [List.mem_singleton.1 he]; rfl)
    (fun k hk t ht => createRow_cases env k hk t ht)
  have hjoin := forRun_cases m (joinRow env) (fun _ _ => True)
    (fun i => [Event.threadJoin 2 i]) (fun e => e.waitsForThreads = false) () trivial
    (fun k e he => by rw [List.mem_singleton.1 he]; rfl)
    (fun k _ t _ => joinRow_cases env k)
  simp only [method2, Run.bind_eq, Int.toNat_ofNat]
  rw [Run.bind_gettimeofday]
  simp only [List.mem_cons, forall_eq_or_imp, List.cons.injEq, true_and,
    Event.waitsForThreads]
  rcases hcreate with ⟨g1, hc, _⟩ | ⟨hf, hq⟩
  · rw [hc, Run.bind_ok]
    rcases hjoin with ⟨u, hj, _⟩ | ⟨hf, hq⟩
    · right
      rw [hj, Run.bind_ok]
      exact ⟨_, rfl, tail_events env (pre ++ "_per_row.txt") g1.C2 m p g1 2 3 m
        (env.clock 2)⟩
    · left
      obtain ⟨he, _⟩ := Run.bind_failed
        (fun _ => Run.bind (gettimeofday env 3 TimeVar.stop) (fun stop =>
          Run.bind (emit (Event.report 2 m (stop.1 - (env.clock 2).1)
            (stop.2 - (env.clock 2).2))) (fun _ =>
              Run.bind (writeMatrix env (pre ++ "_per_row.txt") g1.C2 m p)
                (fun _ => Run.pure g1)))) hf
      intro e hmem
      rcases List.mem_append.1 hmem with h | h
      · exact quiet_flatMap_create 2 m _ e h
      · rw [he] at h; exact hq e h
  · left
    obtain ⟨he, _⟩ := Run.bind_failed
      (fun g1 => Run.bind (forRun m (joinRow env) ()) (fun _ =>
        Run.bind (gettimeofday env 3 TimeVar.stop) (fun stop =>
          Run.bind (emit (Event.report 2 m (stop.1 - (env.clock 2).1)
            (stop.2 - (env.clock 2).2))) (fun _ =>
              Run.bind (writeMatrix env (pre ++ "_per_row.txt") g1.C2 m p)
                (fun _ => Run.pure g1))))) hf
    rw [he]; exact hq

theorem createElement_cases (env : Env) (cap : Nat) {m n p : Nat} (i j : Nat) (hi : i < m)
    (hj : j < p) (st : Globals × Nat) (hst : WellFormed st.1 m n p ∧ st.2 = i * p + j) :
    (∃ st', createElement env cap i j st =
        ⟨[Event.threadCreate 3 (i * p + j) (ThreadStart.multiplyElement ⟨i, j⟩)],
          Outcome.ok st'⟩ ∧
      (WellFormed st'.1 m n p ∧ st'.2 = i * p + (j + 1))) ∨
    ((createElement env cap i j st).failed ∧
      ∀ e ∈ (createElement env cap i j st).events, e.waitsForThreads = false) := by
  obtain ⟨g, t⟩ := st
  obtain ⟨hg, ht⟩ := hst
  simp only at hg ht
  subst ht
  obtain ⟨g', hrun, hf⟩ := multiplyElement_fills hg hi hj
  by_cases hm : env.malloc 8 = true ∧ i * p + j < cap
  · by_cases hc : env.create 3 (i * p + j) = true
    · left
      refine ⟨(g', i * p + j + 1), ?_, hf.wellFormed (Or.inr (Or.inr rfl)) hg, rfl⟩
      simp only [createElement, hm, hc, and_self, if_true, ThreadStart.run, hrun, Run.bind_eq,
        Run.bind_emit, ofOption, Run.bind_pure, Run.pure, Run.bind_ok, List.nil_append]
    · right
      simp only [createElement, hm, hc, and_self, if_true, if_false, Run.bind_eq,
        Run.bind_emit, exitWith, Bool.false_eq_true]
      refine ⟨(fun a h => by cases h), ?_⟩
      intro e he
      rw [List.mem_singleton.1 he]; rfl
  · right
    simp only [createElement, hm, if_false, ofOption]
    exact ⟨(fun a h => by cases h), fun e he => by cases he⟩

theorem joinElement_cases (env : Env) (created k : Nat) (hk : k < created) :
    (∃ u, joinElement env created k () = ⟨[Event.threadJoin 3 k], Outcome.ok u⟩ ∧ True) ∨
    ((joinElement env created k ()).failed ∧
      ∀ e ∈ (joinElement env created k ()).events, e.waitsForThreads = false) := by
  by_cases hj : env.join 3 k = true
  · left
    exact ⟨(), by simp only [joinElement, hk, hj, if_true, emit], trivial⟩
  · right
    simp only [joinElement, hk, hj, if_true, if_false, Run.bind_eq, Run.bind_emit, exitWith,
      Bool.false_eq_true]
    refine ⟨(fun a h => by cases h), ?_⟩
    intro e he
    rw [List.mem_singleton.1 he]; rfl

theorem quiet_elementCreates (m p : Nat) :
    ∀ e ∈ (List.range m).flatMap (fun i => (List.range p).flatMap (fun j =>
        [Event.threadCreate 3 (i * p + j) (ThreadStart.multiplyElement ⟨i, j⟩)])),
      e.waitsForThreads = false := by
  intro e he
  simp only [List.mem_flatMap, List.mem_range, List.mem_singleton] at he
  obtain ⟨i, _, j, _, rfl⟩ := he
  rfl

theorem method3_shape (env : Env) (pre : String) {g : Globals} {m n p : Nat}
    (hg : WellFormed g m n p) (hmp : m * p < 2147483648) :
    (∀ e ∈ (method3 env pre m p g).events, e.waitsForThreads = false) ∨
    ∃ rest, (method3 env pre m p g).events =
        Event.gettimeofday TimeVar.start (env.clock 4).1 (env.clock 4).2 ::
          ((List.range m).flatMap (fun i => (List.range p).flatMap (fun j =>
            [Event.threadCreate 3 (i * p + j) (ThreadStart.multiplyElement ⟨i, j⟩)]))
          ++ ((List.range (m * p)).flatMap (fun t => [Event.threadJoin 3 t]) ++ rest)) ∧
      ∀ e ∈ rest, e.isThread = false := by
  have htot : wrapInt ((m : Int) * (p : Int)) = ((m * p : Nat) : Int) :=
    wrapInt_mul_of_lt hmp
  simp only [method3, Run.bind_eq, Int.toNat_ofNat, htot]
  generalize (if env.malloc (mallocSize ((m * p : Nat) : Int) 8) = true then m * p else 0)
    = cap
  rw [Run.bind_gettimeofday]
  simp only [List.mem_cons, forall_eq_or_imp, List.cons.injEq, true_and,
    Event.waitsForThreads]
  have hcreate := forRun_cases m
    (fun i si => forRun p (fun j sj => createElement env cap i j sj) si)
    (fun i (st : Globals × Nat) => WellFormed st.1 m n p ∧ st.2 = i * p)
    (fun i => (List.range p).flatMap (fun j =>
      [Event.threadCreate 3 (i * p + j) (ThreadStart.multiplyElement ⟨i, j⟩)]))
    (fun e => e.waitsForThreads = false) (g, 0) ⟨hg, by simp⟩
    (fun i e he => by
      simp only [List.mem_flatMap, List.mem_range, List.mem_singleton] at he
      obtain ⟨j, _, rfl⟩ := he
      rfl)
    (fun i hi st hst => by
      rcases forRun_cases p (fun j sj => createElement env cap i j sj)
        (fun j (sj : Globals × Nat) => WellFormed sj.1 m n p ∧ sj.2 = i * p + j)
        (fun j => [Event.threadCreate 3 (i * p + j) (ThreadStart.multiplyElement ⟨i, j⟩)])
        (fun e => e.waitsForThreads = false) st ⟨hst.1, by simpa using hst.2⟩
        (fun j e he => by rw [List.mem_singleton.1 he]; rfl)
        (fun j hj sj hsj => createElement_cases env cap i j hi hj sj hsj) with
        ⟨st', hrow, hw, ht⟩ | hfail
      · left
        exact ⟨st', hrow, hw, by rw [ht]; ring⟩
      · right
        exact hfail)
  rcases hcreate with ⟨st, hc, hw, ht⟩ | ⟨hf, hq⟩
  · rw [hc, Run.bind_ok]
    simp only [ht]
    have hjoin := forRun_cases (m * p) (joinElement env (m * p)) (fun _ _ => True)
      (fun t => [Event.threadJoin 3 t]) (fun e => e.waitsForThreads = false) () trivial
      (fun k e he => by rw [List.mem_singleton.1 he]; rfl)
      (fun k hk t _ => joinElement_cases env (m * p) k hk)
    rcases hjoin with ⟨u, hj, _⟩ | ⟨hf, hq⟩
    · right
      rw [hj, Run.bind_ok]
      exact ⟨_, rfl, tail_events env (pre ++ "_per_element.txt") st.1.C3 m p st 3 5
        ((m * p : Nat) : Int) (env.clock 4)⟩
    · left
      obtain ⟨he, _⟩ := Run.bind_failed
        (fun _ => Run.bind (gettimeofday env 5 TimeVar.stop) (fun stop =>
          Run.bind (emit (Event.report 3 ((m * p : Nat) : Int)
            (stop.1 - (env.clock 4).1) (stop.2 - (env.clock 4).2))) (fun _ =>
              Run.bind (writeMatrix env (pre ++ "_per_element.txt") st.1.C3 m p)
                (fun _ => Run.pure st)))) hf
      intro e hmem
      rcases List.mem_append.1 hmem with h | h
      · exact quiet_elementCreates m p e h
      · rw [he] at h; exact hq e h
  · left
    obtain ⟨he, _⟩ := Run.bind_failed
      (fun st => Run.bind (forRun (m * p) (joinElement env st.2) ()) (fun _ =>
        Run.bind (gettimeofday env 5 TimeVar.stop) (fun stop =>
          Run.bind (emit (Event.report 3 ((m * p : Nat) : Int)
            (stop.1 - (env.clock 4).1) (stop.2 - (env.clock 4).2))) (fun _ =>
              Run.bind (writeMatrix env (pre ++ "_per_element.txt") st.1.C3 m p)
                (fun _ => Run.pure st))))) hf
    rw [he]; exact hq

/-! ### Claim on the join barrier -/

theorem flatMap_range_id (m : Nat) : (List.range m).flatMap (fun i => [i]) = List.range m := by
  induction m with
  | zero => rfl
  | succ m ih => simp [List.range_succ, List.flatMap_append, ih]

theorem filters_rowCreates (m : Nat) :
    createdOf 2 ((List.range m).flatMap
        (fun i => [Event.threadCreate 2 i (ThreadStart.multiplyRow ⟨i⟩)])) = List.range m ∧
    joinedOf 2 ((List.range m).flatMap
        (fun i => [Event.threadCreate 2 i (ThreadStart.multiplyRow ⟨i⟩)])) = [] := by
  simp only [createdOf, joinedOf, filterMap_flatMap_range, List.filterMap_cons,
    List.filterMap_nil, Event.createdIndex, Event.joinedIndex, if_true, flatMap_range_id,
    flatMap_range_nil, and_self]

theorem filters_joins (k m : Nat) :
    createdOf k ((List.range m).flatMap (fun i => [Event.threadJoin k i])) = [] ∧
    joinedOf k ((List.range m).flatMap (fun i => [Event.threadJoin k i])) = List.range m := by
  simp only [createdOf, joinedOf, filterMap_flatMap_range, List.filterMap_cons,
    List.filterMap_nil, Event.createdIndex, Event.joinedIndex, if_true, flatMap_range_id,
    flatMap_range_nil, and_self]

theorem filters_elementCreates (m p : Nat) :
    createdOf 3 ((List.range m).flatMap (fun i => (List.range p).flatMap (fun j =>
        [Event.threadCreate 3 (i * p + j) (ThreadStart.multiplyElement ⟨i, j⟩)]))) =
      List.range (m * p) ∧
    joinedOf 3 ((List.range m).flatMap (fun i => (List.range p).flatMap (fun j =>
        [Event.threadCreate 3 (i * p + j) (ThreadStart.multiplyElement ⟨i, j⟩)]))) = [] := by
  simp only [createdOf, joinedOf, filterMap_flatMap_range, List.filterMap_cons,
    List.filterMap_nil, Event.createdIndex, Event.joinedIndex, if_true,
    flatMap_range_grid_index, flatMap_range_nil, and_self]

theorem joinedOf_method2Events (env : Env) (pre : String) (m : Nat) (text : List Char) :
    joinedOf 2 (method2Events env pre m text) = List.range m := by
  simp only [joinedOf, method2Events, List.filterMap_append, filterMap_flatMap_range,
    List.filterMap_cons, List.filterMap_nil, Event.joinedIndex, flatMap_range_nil,
    List.append_nil, List.nil_append, if_true, flatMap_range_id]

theorem joinedOf_method3Events (env : Env) (pre : String) (m p : Nat) (text : List Char) :
    joinedOf 3 (method3Events env pre m p text) = List.range (m * p) := by
  simp only [joinedOf, method3Events, List.filterMap_append, filterMap_flatMap_range,
    List.filterMap_cons, List.filterMap_nil, Event.joinedIndex, flatMap_range_nil,
    List.append_nil, List.nil_append, if_true, flatMap_range_id]

theorem stopsOf_method2Events (env : Env) (pre : String) (m : Nat) (text : List Char) :
    stopsOf (method2Events env pre m text) = [env.clock 3] ∧
    writtenOf (method2Events env pre m text) = [pre ++ "_per_row.txt"] := by
  simp only [stopsOf, writtenOf, method2Events, List.filterMap_append, filterMap_flatMap_range,
    List.filterMap_cons, List.filterMap_nil, Event.stopTime, Event.writtenName,
    flatMap_range_nil, List.append_nil, List.nil_append, and_self]

theorem stopsOf_method3Events (env : Env) (pre : String) (m p : Nat) (text : List Char) :
    stopsOf (method3Events env pre m p text) = [env.clock 5] ∧
    writtenOf (method3Events env pre m p text) = [pre ++ "_per_element.txt"] := by
  simp only [stopsOf, writtenOf, method3Events, List.filterMap_append, filterMap_flatMap_range,
    List.filterMap_cons, List.filterMap_nil, Event.stopTime, Event.writtenName,
    flatMap_range_nil, List.append_nil, List.nil_append, and_self]

/-- C16: join-all barrier, on the order of the calls `main` makes. For every
environment, failing ones included, in each method the call
`gettimeofday(&stop, NULL)`, the report line and the opening and writing of
the result file (`writeMatrix`, which reads the result matrix) come only
after every thread of the method was created and then joined: method 1 joins
handle 0, method 2 the handles `0 .. rows-1`, method 3 (with `rows * cols`
within `int`) the handles `0 .. rows*cols-1`. In a run without resource
failures the joined handles are exactly the created ones, the stop timestamp
is taken exactly once and the result file is written. -/
theorem join_all_barrier (env : Env) (pre : String) (g : Globals) (rows n cols : Nat)
    (hg : WellFormed g rows n cols) :
    JoinAll 1 1 (method1 env pre rows cols g).events ∧
    JoinAll 2 rows (method2 env pre rows cols g).events ∧
    (rows * cols < 2147483648 →
      JoinAll 3 (rows * cols) (method3 env pre rows cols g).events) ∧
    (env.permissive →
      (createdOf 1 (method1 env pre rows cols g).events = [0] ∧
        joinedOf 1 (method1 env pre rows cols g).events = [0] ∧
        stopsOf (method1 env pre rows cols g).events = [env.clock 1] ∧
        writtenOf (method1 env pre rows cols g).events = [pre ++ "_per_matrix.txt"]) ∧
      (createdOf 2 (method2 env pre rows cols g).events = List.range rows ∧
        joinedOf 2 (method2 env pre rows cols g).events = List.range rows ∧
        stopsOf (method2 env pre rows cols g).events = [env.clock 3] ∧
        writtenOf (method2 env pre rows cols g).events = [pre ++ "_per_row.txt"]) ∧
      (rows * cols < 2147483648 →
        createdOf 3 (method3 env pre rows cols g).events = List.range (rows * cols) ∧
        joinedOf 3 (method3 env pre rows cols g).events = List.range (rows * cols) ∧
        stopsOf (method3 env pre rows cols g).events = [env.clock 5] ∧
        writtenOf (method3 env pre rows cols g).events = [pre ++ "_per_element.txt"])) := by
  refine ⟨?_, ?_, ?_, ?_⟩
  · rcases method1_shape env pre hg with hq | ⟨rest, he, hrest⟩
    · exact joinAll_of_quiet hq
    · rw [he]
      exact joinAll_cons rfl rfl
        (joinAll_of_shape (by decide) (by decide) rfl rfl rfl rfl hrest)
  · rcases method2_shape env pre hg with hq | ⟨rest, he, hrest⟩
    · exact joinAll_of_quiet hq
    · rw [he]
      exact joinAll_cons rfl rfl
        (joinAll_of_shape (quiet_flatMap_create 2 rows _) (quiet_flatMap_join 2 rows)
          (filters_rowCreates rows).1 (filters_rowCreates rows).2 (filters_joins 2 rows).1
          (filters_joins 2 rows).2 hrest)
  · intro hmp
    rcases method3_shape env pre hg hmp with hq | ⟨rest, he, hrest⟩
    · exact joinAll_of_quiet hq
    · rw [he]
      exact joinAll_cons rfl rfl
        (joinAll_of_shape (quiet_elementCreates rows cols)
          (quiet_flatMap_join 3 (rows * cols)) (filters_elementCreates rows cols).1
          (filters_elementCreates rows cols).2 (filters_joins 3 (rows * cols)).1
          (filters_joins 3 (rows * cols)).2 hrest)
  · intro henv
    obtain ⟨g1, _, _, h1⟩ := method1_run env henv pre hg
    obtain ⟨g2, _, _, h2⟩ := method2_run env henv pre hg
    refine ⟨?_, ?_, ?_⟩
    · rw [h1]; exact ⟨rfl, rfl, rfl, rfl⟩
    · rw [h2]
      exact ⟨createdOf_method2Events _ _ _ _, joinedOf_method2Events _ _ _ _,
        (stopsOf_method2Events _ _ _ _).1, (stopsOf_method2Events _ _ _ _).2⟩
    · intro hmp
      obtain ⟨g3, _, _, h3⟩ := method3_run env henv pre hg hmp
      rw [h3]
      exact ⟨createdOf_method3Events _ _ _ _ _, joinedOf_method3Events _ _ _ _ _,
        (stopsOf_method3Events _ _ _ _ _).1, (stopsOf_method3Events _ _ _ _ _).2⟩

/-- Witness for C16 on the `2 x 2` sample: method 2 takes its stop timestamp
(the clock reading number 3) and writes `c_per_row.txt` only after it joined
the handles `0, 1` it created. -/
theorem join_all_barrier_witness :
    JoinAll 2 2 (method2 sampleEnv "c" ((2 : Nat) : Int) ((2 : Nat) : Int)
      sampleGlobals).events ∧
    createdOf 2 (method2 sampleEnv "c" ((2 : Nat) : Int) ((2 : Nat) : Int)
      sampleGlobals).events = List.range 2 ∧
    joinedOf 2 (method2 sampleEnv "c" ((2 : Nat) : Int) ((2 : Nat) : Int)
      sampleGlobals).events = List.range 2 ∧
    stopsOf (method2 sampleEnv "c" ((2 : Nat) : Int) ((2 : Nat) : Int)
      sampleGlobals).events = [sampleEnv.clock 3] ∧
    writtenOf (method2 sampleEnv "c" ((2 : Nat) : Int) ((2 : Nat) : Int)
      sampleGlobals).events = ["c" ++ "_per_row.txt"] := by
  have h := join_all_barrier sampleEnv "c" sampleGlobals 2 2 2 (by decide)
  exact ⟨h.2.1, (h.2.2.2 ⟨fun _ => rfl, fun _ _ => rfl, fun _ _ => rfl, fun _ => rfl⟩).2.1⟩

end MatMultp
